import Mathlib

/-!
# hmdfs merge view: comrade aggregation and the conflict-name codec

A shallow embedding of `fs/hmdfs/inode_merge.c` (and the merge parts of
`fs/hmdfs/dentry.c`), followed by the flags word of a table entry of
`drivers/block/zram/zram_drv.h`.

Conventions of the embedding:

* a C string is the list of its characters before the terminating NUL;
  `name + k` is `name.drop k`, `name[i]` is `charAt name i`;
* `int` values are `Int`; where the code can overflow an `int` the value is
  reduced to the 32 bit two's complement range (`wrap32`), as the kernel is
  built with wrapping signed arithmetic;
* a function whose C code would read or write before the start of a buffer
  returns `none` at that point;
* reference counts of backing dentries are a map from dentry ids to `Int`,
  `dget` adds one and `dput` subtracts one;
* a wait for lookup works is run over the list of the works that complete
  meanwhile, in the order of completion; the answers of the backing store
  are parameters;
* an `unsigned long` is a natural number below `2 ^ BITS_PER_LONG`; the
  device id of a peer is a natural number read modulo `2 ^ 64`, which the
  `int devid` of a lookup work keeps the low 32 bits of.
-/

namespace Hmdfs

/-! ## Constants of the kernel headers -/

/-- The `d_type` values of `linux/fs_types.h`. -/
def DT_UNKNOWN : Nat := 0
/-- Directory `d_type`. -/
def DT_DIR : Nat := 4
/-- Regular file `d_type`. -/
def DT_REG : Nat := 8

/-- Errno values of `errno-base.h` and `errno.h`. -/
def ENOENT : Int := 2
/-- Out of memory. -/
def ENOMEM : Int := 12
/-- File name too long. -/
def ENAMETOOLONG : Int := 36

/-- Maximum path length of `linux/limits.h`. -/
def PATH_MAX : Nat := 4096

/-- Lookup intent flags of `linux/namei.h`. -/
def LOOKUP_REVAL : Nat := 0x0020
/-- Creation intent. -/
def LOOKUP_CREATE : Nat := 0x0200
/-- Rename target intent. -/
def LOOKUP_RENAME_TARGET : Nat := 0x0800

/-- File type bits of `linux/stat.h`. -/
def S_IFMT : Nat := 0o170000
/-- Directory file type. -/
def S_IFDIR : Nat := 0o040000
/-- Regular file type. -/
def S_IFREG : Nat := 0o100000

/-- The macro `S_ISDIR(m)`: `((m) & S_IFMT) == S_IFDIR`. -/
def S_ISDIR (mode : Nat) : Bool := (mode &&& S_IFMT) == S_IFDIR

/-- The macro `S_ISREG(m)`: `((m) & S_IFMT) == S_IFREG`. -/
def S_ISREG (mode : Nat) : Bool := (mode &&& S_IFMT) == S_IFREG

/-- The local device id: `merge_lookup_async(mdi, sbi, 0, ...)` queues the
lookup below `device_view/local` with device id 0, and `lookup_merge_normal`
tests `devid == 0` for it. -/
def HMDFS_DEVID_LOCAL : Nat := 0

/-! ## C strings -/

/-- The string terminator. -/
def NUL : Char := Char.ofNat 0

/-- The character `name[i]` of a NUL terminated string: position
`name.length` holds the terminator. -/
def charAt (name : List Char) (i : Nat) : Char := name.getD i NUL

/-- The string stored in a buffer: the characters before the first NUL. -/
def cstr (buf : List Char) : List Char := buf.takeWhile (fun c => c != NUL)

/-- The value of `strncmp(s1, s2, n)`: compares at most `n` characters and
stops at the terminator; the end of the list is the terminator. -/
def strncmp : List Char → List Char → Nat → Int
  | _, _, 0 => 0
  | [], [], _ + 1 => 0
  | [], b :: _, _ + 1 => - (b.toNat : Int)
  | a :: _, [], _ + 1 => (a.toNat : Int)
  | a :: s1, b :: s2, n + 1 =>
    if a = b then strncmp s1 s2 n else (a.toNat : Int) - (b.toNat : Int)

/-- The buffer after `memmove(buf + dst, buf + src, n)`, for a move that
stays inside the buffer. -/
def memmove (buf : List Char) (dst src n : Nat) : List Char :=
  buf.take dst ++ (buf.drop src).take n ++ buf.drop (dst + n)

/-- The string `kstrndup(s, max)` when the allocation succeeds: at most
`max` characters of `s`. -/
def kstrndup (s : List Char) (max : Nat) : List Char := s.take max

/-- The result of `snprintf(buf, size, ...)` for the formatted text `s`: at
most `size - 1` characters are stored. -/
def snprintf (size : Nat) (s : List Char) : List Char := s.take (size - 1)

/-- Reduction of an integer to the range of a 32 bit `int`. -/
def wrap32 (x : Int) : Int := (x + 2 ^ 31) % 2 ^ 32 - 2 ^ 31

/-! ## The conflict markers

`CONFLICTING_DIR_SUFFIX` and `CONFLICTING_FILE_CONST_SUFFIX` are string
literals of `hmdfs_merge_view.h`, which is not among the sources: they are
parameters of the codec. -/

/-- The two marker strings of the conflict codec. -/
structure Markers where
  /-- The directory-conflict marker. -/
  CONFLICTING_DIR_SUFFIX : List Char
  /-- The file-conflict marker, which the decimal device id follows. -/
  CONFLICTING_FILE_CONST_SUFFIX : List Char
  /-- A string literal holds no NUL: `strlen` of the marker is its length. -/
  dir_no_nul : NUL ∉ CONFLICTING_DIR_SUFFIX
  /-- A string literal holds no NUL: `strlen` of the marker is its length. -/
  file_no_nul : NUL ∉ CONFLICTING_FILE_CONST_SUFFIX

/-- Marker values used to evaluate the codec on concrete names. -/
def sampleMarkers : Markers :=
  ⟨"_remote_directory".toList, "_conflict_dev".toList, by decide, by decide⟩

/-! ## The name classifier and the decoder -/

/-- The test `name[i] >= '0' && name[i] <= '9'`. -/
def isDigit (c : Char) : Bool := decide ('0' ≤ c) && decide (c ≤ '9')

/-- The loop `for (dot_pos = len - 1; dot_pos >= 0; dot_pos--)
if (name[dot_pos] == '.') break;` started with `dot_pos + 1 = k`;
`none` is the exit with `dot_pos == -1`. -/
def last_dot (name : List Char) : Nat → Option Nat
  | 0 => none
  | k + 1 => if charAt name k = '.' then some k else last_dot name k

/-- The value of `dot_pos` after `if (dot_pos == -1) dot_pos = len;`. -/
def dot_pos (name : List Char) (len : Nat) : Nat := (last_dot name len).getD len

/-- The loop `for (i = dot_pos - 1; i >= 0; i--)` counting digits in
`num_len`, started with `i + 1 = k`. -/
def num_len (name : List Char) : Nat → Nat
  | 0 => 0
  | k + 1 => if isDigit (charAt name k) then num_len name k + 1 else 0

/-- The value of `*dev_id` after `i` rounds of
`*dev_id = *dev_id * 10 + name[dot_pos - num_len + i] - '0'`, where
`base = dot_pos - num_len`. -/
def dev_id_loop (name : List Char) (base : Nat) : Nat → Int
  | 0 => 0
  | i + 1 =>
    wrap32 (dev_id_loop name base i * 10 + ((charAt name (base + i)).toNat : Int)
      - (('0').toNat : Int))

/-- The function `check_filename(name, len)`; `none` when the file marker
comparison starts before the beginning of the name. -/
def check_filename (m : Markers) (name : List Char) (len : Nat) : Option Nat :=
  if len ≥ m.CONFLICTING_DIR_SUFFIX.length ∧
      strncmp (name.drop (len - m.CONFLICTING_DIR_SUFFIX.length))
        m.CONFLICTING_DIR_SUFFIX m.CONFLICTING_DIR_SUFFIX.length = 0 then
    some DT_DIR
  else if len ≥ m.CONFLICTING_FILE_CONST_SUFFIX.length then
    let dot := dot_pos name len
    let num := num_len name dot
    let start_cmp_pos : Int :=
      (dot : Int) - (num : Int) - (m.CONFLICTING_FILE_CONST_SUFFIX.length : Int)
    if start_cmp_pos < 0 then none
    else if strncmp (name.drop start_cmp_pos.toNat)
        m.CONFLICTING_FILE_CONST_SUFFIX m.CONFLICTING_FILE_CONST_SUFFIX.length = 0 then
      some DT_REG
    else some 0
  else some 0

/-- The function `conf_name_trans_nop`: a copy of the name. -/
def conf_name_trans_nop (name : List Char) : List Char :=
  kstrndup name name.length

/-- The function `conf_name_trans_dir`: the name without its last
`strlen(CONFLICTING_DIR_SUFFIX)` characters. -/
def conf_name_trans_dir (m : Markers) (name : List Char) : List Char :=
  kstrndup name (name.length - m.CONFLICTING_DIR_SUFFIX.length)

/-- The function `conf_name_trans_reg`: the translated name and the value
stored in `*dev_id`; `none` when the copy position lies before the
beginning of the name. -/
def conf_name_trans_reg (m : Markers) (name : List Char) : Option (List Char × Int) :=
  let len := name.length
  let buf := kstrndup name len ++ [NUL]
  let dot := dot_pos name len
  let num := num_len name dot
  let dev_id := dev_id_loop name (dot - num) num
  let start_cpy_pos : Int :=
    (dot : Int) - (num : Int) - (m.CONFLICTING_FILE_CONST_SUFFIX.length : Int)
  if start_cpy_pos < 0 then none
  else some (cstr (memmove buf start_cpy_pos.toNat dot (len - dot + 1)), dev_id)

/-- The result of `hmdfs_get_real_dname`. -/
structure RealDname where
  /-- The returned real name. -/
  rname : List Char
  /-- The value of `*devid` after the call. -/
  devid : Int
  /-- The value stored in `*type`. -/
  type : Nat
deriving DecidableEq

/-- The function `hmdfs_get_real_dname(dentry, &devid, &type)` on a dentry
named `name`, where `devid` holds `devid0` before the call. -/
def hmdfs_get_real_dname (m : Markers) (name : List Char) (devid0 : Int) :
    Option RealDname :=
  match check_filename m name name.length with
  | none => none
  | some type =>
    if type = DT_REG then
      match conf_name_trans_reg m name with
      | none => none
      | some (rname, devid) => some ⟨rname, devid, type⟩
    else if type = DT_DIR then some ⟨conf_name_trans_dir m name, devid0, type⟩
    else some ⟨conf_name_trans_nop name, devid0, type⟩

/-! ## The conflict encoder -/

/-- Modelled from the spec: the decimal digit for `d < 10`; the encoder that
prints device ids is not among the sources. -/
def digitChar (d : Nat) : Char := Char.ofNat (48 + d)

/-- Modelled from the spec: the decimal text of `n` with at most `fuel`
digits. -/
def decimalAux : Nat → Nat → List Char
  | 0, _ => []
  | fuel + 1, n =>
    if n < 10 then [digitChar n] else decimalAux fuel (n / 10) ++ [digitChar (n % 10)]

/-- Modelled from the spec: the "decimal device-id segment" of a conflict
name. -/
def decimal (n : Nat) : List Char := decimalAux (n + 1) n

/-- Modelled from the spec: a name cut at its last `.`, the text before it
and the text after it; `none` when the name has no `.`. -/
def splitLastDot : List Char → Option (List Char × List Char)
  | [] => none
  | c :: cs =>
    match splitLastDot cs with
    | some (a, b) => some (c :: a, b)
    | none => if c = '.' then some ([], cs) else none

/-- Modelled from the spec: the extension of a name, "last `.` delimits the
extension; absence of a dot means no extension". -/
def extension (name : List Char) : List Char :=
  match splitLastDot name with
  | some (_, b) => '.' :: b
  | none => []

/-- Modelled from the spec: the part of a name before its extension. -/
def stem (name : List Char) : List Char :=
  match splitLastDot name with
  | some (a, _) => a
  | none => name

/-- Modelled from the spec: "Directories that conflict across devices are
suffixed with a fixed directory-conflict marker". The encoder is not among
the sources. -/
def encode_dir (m : Markers) (name : List Char) : List Char :=
  name ++ m.CONFLICTING_DIR_SUFFIX

/-- Modelled from the spec: "regular files that conflict are suffixed with a
fixed marker plus a decimal device-id segment inserted before the file
extension". The encoder is not among the sources. -/
def encode_reg (m : Markers) (name : List Char) (id : Nat) : List Char :=
  stem name ++ m.CONFLICTING_FILE_CONST_SUFFIX ++ decimal id ++ extension name

/-- The value of a decimal digit string. -/
def decimalValue (ds : List Char) : Nat :=
  ds.foldl (fun v c => v * 10 + (c.toNat - 48)) 0

/-- The trailing digit run of a text: the digits at its end. -/
def trailingDigits (a : List Char) : List Char := a.rtakeWhile isDigit

/-- A text without its trailing digit run. -/
def beforeDigits (a : List Char) : List Char := a.rdropWhile isDigit

/-- Modelled from the spec: `encode(realName, deviceId, kind)` for the kinds
directory (`DT_DIR`) and regular file (any other kind value). The encoder
is not among the sources. -/
def encode (m : Markers) (name : List Char) (id : Nat) (kind : Nat) : List Char :=
  if kind = DT_DIR then encode_dir m name else encode_reg m name id

/-! ## The comrade registry -/

/-- A dentry of a backing file system: its identity and the mode of its
inode (`d_inode(lo_d)->i_mode`). -/
structure Dentry where
  /-- Identity of the dentry. -/
  id : Nat
  /-- Mode of the inode of the dentry. -/
  i_mode : Nat
deriving DecidableEq

/-- The reference counts of the backing dentries, by dentry id. -/
abbrev Refs := Nat → Int

/-- The call `dget(d)`. -/
def dget (refs : Refs) (d : Dentry) : Refs :=
  fun i => if i = d.id then refs i + 1 else refs i

/-- The call `dput(d)`. -/
def dput (refs : Refs) (d : Dentry) : Refs :=
  fun i => if i = d.id then refs i - 1 else refs i

/-- The record `struct hmdfs_dentry_comrade`: `alloc_comrade` fills
`lo_d` and `dev_id`. Device ids are taken to fit an `int`. -/
structure hmdfs_dentry_comrade where
  /-- The owning device. -/
  dev_id : Int
  /-- The backing dentry, on which the comrade holds one reference. -/
  lo_d : Dentry
deriving DecidableEq

/-- The record `struct hmdfs_dentry_info_merge`, without its locks and wait
queue: `init_hmdfs_dentry_info_merge` sets `type`, `work_count` and
`comrade_list`. -/
structure hmdfs_dentry_info_merge where
  /-- The kind of the node: `DT_UNKNOWN`, `DT_DIR` or `DT_REG`. -/
  type : Nat
  /-- The number of lookup works that have not completed. -/
  work_count : Int
  /-- The comrades, in list order. -/
  comrade_list : List hmdfs_dentry_comrade
deriving DecidableEq

/-- The node set up by `init_hmdfs_dentry_info_merge`. -/
def init_hmdfs_dentry_info_merge : hmdfs_dentry_info_merge :=
  ⟨DT_UNKNOWN, 0, []⟩

/-- Modelled from the spec: `comrade_is_local` of `hmdfs_merge_view.h`, not
among the sources; "a reserved id denotes the local device". -/
def comrade_is_local (comrade : hmdfs_dentry_comrade) : Bool :=
  comrade.dev_id == (HMDFS_DEVID_LOCAL : Int)

/-- Modelled from the spec: `hmdfs_cm` of `hmdfs_merge_view.h`, not among the
sources; the kind of a comrade is the mode of its backing entry. -/
def hmdfs_cm (comrade : hmdfs_dentry_comrade) : Nat := comrade.lo_d.i_mode

/-- Modelled from the spec: `destroy_comrade`, not among the sources;
"releasing the comrade releases the reference". -/
def destroy_comrade (refs : Refs) (comrade : hmdfs_dentry_comrade) : Refs :=
  dput refs comrade.lo_d

/-- The function `alloc_comrade(lo_d, dev_id)` when `kzalloc` succeeds
(`alloc_ok`), else `ERR_PTR(-ENOMEM)`. -/
def alloc_comrade (refs : Refs) (lo_d : Dentry) (dev_id : Int) (alloc_ok : Bool) :
    Refs × Except Int hmdfs_dentry_comrade :=
  if alloc_ok then (dget refs lo_d, .ok ⟨dev_id, lo_d⟩) else (refs, .error (-ENOMEM))

/-- The loop of `link_comrade` over the list: whether it reaches a comrade
`c` with `c->dev_id == comrade->dev_id`. -/
def redundant_comrade (dev_id : Int) : List hmdfs_dentry_comrade → Bool
  | [] => false
  | c :: cs => if c.dev_id ≠ dev_id then redundant_comrade dev_id cs else true

/-- The function `link_comrade(onstack_comrades_head, comrade)`: the
reference counts and the list after the call. -/
def link_comrade (refs : Refs) (head : List hmdfs_dentry_comrade)
    (comrade : hmdfs_dentry_comrade) : Refs × List hmdfs_dentry_comrade :=
  if redundant_comrade comrade.dev_id head then (dput refs comrade.lo_d, head)
  else if comrade_is_local comrade then (refs, comrade :: head)
  else (refs, head ++ [comrade])

/-- The function `hmdfs_get_fst_lo_d`: the backing dentry of the first
comrade, with a reference taken, or `none` for `NULL`. -/
def hmdfs_get_fst_lo_d (refs : Refs) (dim : hmdfs_dentry_info_merge) :
    Refs × Option Dentry :=
  match dim.comrade_list.head? with
  | some comrade => (dget refs comrade.lo_d, some comrade.lo_d)
  | none => (refs, none)

/-- The function `hmdfs_get_lo_d(dentry, dev_id)`. -/
def hmdfs_get_lo_d (refs : Refs) (dim : hmdfs_dentry_info_merge) (dev_id : Int) :
    Refs × Option Dentry :=
  match dim.comrade_list.find? (fun comrade => comrade.dev_id == dev_id) with
  | some comrade => (dget refs comrade.lo_d, some comrade.lo_d)
  | none => (refs, none)

/-- The function `is_valid_comrade(mdi, mode)`: the node after the call and
the returned verdict. -/
def is_valid_comrade (mdi : hmdfs_dentry_info_merge) (mode : Nat) :
    hmdfs_dentry_info_merge × Bool :=
  if mdi.type = DT_UNKNOWN then
    ({ mdi with type := if S_ISDIR mode then DT_DIR else DT_REG }, true)
  else if mdi.type = DT_DIR ∧ S_ISDIR mode = true then (mdi, true)
  else if mdi.type = DT_REG ∧ mdi.comrade_list.isEmpty = true ∧ ¬ S_ISDIR mode = true then
    (mdi, true)
  else (mdi, false)

/-! ## The lookup works -/

/-- What the backing store answers to one lookup work. -/
structure LookupOutcome where
  /-- The result of `kern_path(sbi->real_dst, ...)`: 0 or an error. -/
  root_err : Int
  /-- The result of `vfs_path_lookup`: the dentry found or an error. -/
  lookup : Except Int Dentry
  /-- Whether `kzalloc` in `alloc_comrade` succeeds. -/
  alloc_ok : Bool

/-- The function `merge_lookup_comrade(sbi, name, devid, flags)`. A
successful `vfs_path_lookup` holds a reference on the dentry until
`path_put`. -/
def merge_lookup_comrade (refs : Refs) (devid : Int) (out : LookupOutcome) :
    Refs × Except Int hmdfs_dentry_comrade :=
  if out.root_err ≠ 0 then (refs, .error out.root_err)
  else
    match out.lookup with
    | .error err => (refs, .error err)
    | .ok d =>
      let r := alloc_comrade (dget refs d) d devid out.alloc_ok
      (dput r.1 d, r.2)

/-- The state a lookup work runs on. -/
structure WorkState where
  /-- The reference counts of the backing dentries. -/
  refs : Refs
  /-- The merge node. -/
  mdi : hmdfs_dentry_info_merge
  /-- Whether the last work called `wake_up_all`. -/
  woken : Bool
  /-- The value of `found` at the end of the last work. -/
  found : Bool

/-- The body of `merge_lookup_work_func` after `merge_lookup_comrade`
returned `comrade`. -/
def merge_lookup_work_body (refs : Refs) (mdi : hmdfs_dentry_info_merge)
    (comrade : Except Int hmdfs_dentry_comrade) : WorkState :=
  match comrade with
  | .error _ =>
    let count := mdi.work_count - 1
    ⟨refs, { mdi with work_count := count }, count == 0 || false, false⟩
  | .ok c =>
    let v := is_valid_comrade mdi (hmdfs_cm c)
    if v.2 = false then
      let count := v.1.work_count - 1
      ⟨destroy_comrade refs c, { v.1 with work_count := count }, count == 0 || false, false⟩
    else
      let l := link_comrade refs v.1.comrade_list c
      let count := v.1.work_count - 1
      ⟨l.1, { v.1 with work_count := count, comrade_list := l.2 }, count == 0 || true, true⟩

/-- The function `merge_lookup_work_func` for a work of device `devid`. -/
def merge_lookup_work_func (refs : Refs) (mdi : hmdfs_dentry_info_merge) (devid : Int)
    (out : LookupOutcome) : WorkState :=
  let r := merge_lookup_comrade refs devid out
  merge_lookup_work_body r.1 mdi r.2

/-- The node after a sequence of works has completed, one work per element,
in the order of completion. -/
def run_works (refs : Refs) (mdi : hmdfs_dentry_info_merge) :
    List (Int × LookupOutcome) → Refs × hmdfs_dentry_info_merge
  | [] => (refs, mdi)
  | (devid, out) :: rest =>
    let s := merge_lookup_work_func refs mdi devid out
    run_works s.refs s.mdi rest

/-- A sequence of `link_comrade` calls on one list, in the order of the
calls. -/
def link_comrades (refs : Refs) (head : List hmdfs_dentry_comrade) :
    List hmdfs_dentry_comrade → Refs × List hmdfs_dentry_comrade
  | [] => (refs, head)
  | comrade :: rest =>
    let r := link_comrade refs head comrade
    link_comrades r.1 r.2 rest

/-- The shape of a comrade list that the lookup works maintain: it is
empty, or the node is a directory and every comrade is a directory, or the
node is a regular file with exactly one comrade, which is no directory. -/
def ComradeListShape (mdi : hmdfs_dentry_info_merge) : Prop :=
  mdi.comrade_list = [] ∨
  (mdi.type = DT_DIR ∧ ∀ c ∈ mdi.comrade_list, S_ISDIR (hmdfs_cm c) = true) ∨
  (mdi.type = DT_REG ∧ ∃ c, mdi.comrade_list = [c] ∧ S_ISDIR (hmdfs_cm c) = false)

/-! ## The lookup dispatcher -/

/-- Maximum length of a file name, `linux/limits.h`. -/
def NAME_MAX : Nat := 255

/-- The fields of `struct hmdfs_peer` that the dispatcher reads. -/
structure hmdfs_peer where
  /-- The device id of the peer. `struct hmdfs_peer` is not among the
  sources; the id is unsigned and 64 bits wide, as the `dev_id` of a comrade
  that `link_comrade` prints with `%llu`. The field holds the value, and is
  read modulo `2 ^ 64`. -/
  device_id : Nat
  /-- The connection id of the peer, printed with `%s`. -/
  cid : List Char
deriving DecidableEq

/-- The record `struct merge_lookup_work`: device, backing path and flags of
one lookup work. -/
structure merge_lookup_work where
  /-- The device the work looks up. -/
  devid : Int
  /-- The backing path, a copy of `cpath`. -/
  name : List Char
  /-- The lookup flags. -/
  flags : Nat
deriving DecidableEq

/-- The node together with the works handed to `schedule_work`, oldest
first. -/
structure DispatchState where
  /-- The merge node. -/
  mdi : hmdfs_dentry_info_merge
  /-- The scheduled works. -/
  queue : List merge_lookup_work
deriving DecidableEq

/-- Which allocations of one `lookup_merge_normal` call succeed. -/
structure LookupAlloc where
  /-- The copy of the name made by `hmdfs_get_real_dname`. -/
  rname_ok : Bool
  /-- The buffer `cpath = kzalloc(PATH_MAX, ...)`. -/
  cpath_ok : Bool
  /-- The `kmalloc` of the work for a device. -/
  work_ok : Int → Bool
  /-- The `kstrdup` of the work name for a device. -/
  name_ok : Int → Bool

/-- The function `merge_lookup_async(mdi, sbi, devid, name, flags)`: the
returned error and the state after the call. -/
def merge_lookup_async (st : DispatchState) (devid : Int) (name : List Char) (flags : Nat)
    (work_ok name_ok : Bool) : Int × DispatchState :=
  if work_ok = false then (-ENOMEM, st)
  else if name_ok = false then (-ENOMEM, st)
  else
    (0, ⟨{ st.mdi with work_count := st.mdi.work_count + 1 },
      st.queue ++ [⟨devid, name, flags⟩]⟩)

/-- The text `"device_view/local%s/%s"` printed into `cpath`. -/
def local_cpath (ppath rname : List Char) : List Char :=
  snprintf PATH_MAX ("device_view/local".toList ++ ppath ++ "/".toList ++ rname)

/-- The text `"device_view/%s%s/%s"` printed into `cpath`. -/
def peer_cpath (cid ppath rname : List Char) : List Char :=
  snprintf PATH_MAX ("device_view/".toList ++ cid ++ ppath ++ "/".toList ++ rname)

/-- The conversion of an `int` to `uint64_t`, as in the comparison
`peer->device_id != devid`: the value modulo `2 ^ 64`. -/
def int_to_u64 (x : Int) : Nat := (x % 2 ^ 64).toNat

/-- The conversion of a `uint64_t` to `int`, as for the argument `int devid`
of `merge_lookup_async`: the low 32 bits in two's complement. -/
def u64_to_int (x : Nat) : Int := wrap32 ((x % 2 ^ 64 : Nat) : Int)

/-- The loop of `lookup_merge_normal` over `sbi->connections.node_list`. The
test `peer->device_id != devid` compares in `uint64_t`, and the call
`merge_lookup_async(mdi, sbi, peer->device_id, cpath, flags)` narrows the
device id to the `int devid` of the work. -/
def dispatch_peers (type : Nat) (devid : Int) (ppath rname : List Char) (flags : Nat)
    (alloc : LookupAlloc) : List hmdfs_peer → DispatchState → DispatchState
  | [], st => st
  | peer :: rest, st =>
    if type = DT_REG ∧ peer.device_id % 2 ^ 64 ≠ int_to_u64 devid then
      dispatch_peers type devid ppath rname flags alloc rest st
    else
      let r := merge_lookup_async st (u64_to_int peer.device_id)
        (peer_cpath peer.cid ppath rname) flags
        (alloc.work_ok (u64_to_int peer.device_id)) (alloc.name_ok (u64_to_int peer.device_id))
      dispatch_peers type devid ppath rname flags alloc rest r.2

/-- The part of `lookup_merge_normal` under `work_lock`: the local work and
the works of the peers. -/
def dispatch_works (type : Nat) (devid : Int) (ppath rname : List Char) (flags : Nat)
    (alloc : LookupAlloc) (peers : List hmdfs_peer) (st : DispatchState) : DispatchState :=
  let st1 :=
    if type ≠ DT_REG ∨ devid = 0 then
      (merge_lookup_async st 0 (local_cpath ppath rname) flags
        (alloc.work_ok 0) (alloc.name_ok 0)).2
    else st
  dispatch_peers type devid ppath rname flags alloc peers st1

/-- The function `lookup_merge_normal` up to `wait_event`, on the dentry
named `name` whose parent has the relative path `ppath` (`none` when
`hmdfs_merge_get_dentry_relative_path` returns `NULL`): the state, and
`some (-ENOMEM)` when the function returns before the dispatch. The outer
`none` is a decoder that reads before the name. -/
def lookup_merge_normal_dispatch (m : Markers) (mdi : hmdfs_dentry_info_merge)
    (name : List Char) (ppath : Option (List Char)) (peers : List hmdfs_peer) (flags : Nat)
    (alloc : LookupAlloc) : Option (DispatchState × Option Int) :=
  match hmdfs_get_real_dname m name (-1) with
  | none => none
  | some r =>
    let mdi1 := { mdi with type := r.type }
    if alloc.rname_ok = false then some (⟨mdi1, []⟩, some (-ENOMEM))
    else
      match ppath with
      | none => some (⟨mdi1, []⟩, some (-ENOMEM))
      | some pp =>
        if alloc.cpath_ok = false then some (⟨mdi1, []⟩, some (-ENOMEM))
        else some (dispatch_works r.type r.devid pp r.rname flags alloc peers ⟨mdi1, []⟩, none)

/-- Three connected peers, with the device ids 1, 2 and 3. -/
def samplePeers : List hmdfs_peer :=
  [⟨1, "cid1".toList⟩, ⟨2, "cid2".toList⟩, ⟨3, "cid3".toList⟩]

/-- A connected peer with the device id `2 ^ 64 - 1`, the `uint64_t` image
of the `int` -1. -/
def sampleTopPeers : List hmdfs_peer :=
  [⟨1, "cid1".toList⟩, ⟨2 ^ 64 - 1, "cid9".toList⟩]

/-- Every allocation succeeds. -/
def allocAll : LookupAlloc := ⟨true, true, fun _ => true, fun _ => true⟩

/-- A relative path of 4091 characters. -/
def longPath : List Char := '/' :: List.replicate 4090 'd'

/-- A time stamp, `struct timespec64`. -/
structure timespec64 where
  /-- Seconds. -/
  tv_sec : Int
  /-- Nanoseconds. -/
  tv_nsec : Int
deriving DecidableEq

/-- Modelled from the spec: `hmdfs_time_compare` is not among the sources;
"modification time is the maximum observed": the result is negative when
`left` is earlier than `right`, 0 when they are equal, positive otherwise. -/
def hmdfs_time_compare (left right : timespec64) : Int :=
  if left.tv_sec < right.tv_sec ∨
      (left.tv_sec = right.tv_sec ∧ left.tv_nsec < right.tv_nsec) then -1
  else if left.tv_sec = right.tv_sec ∧ left.tv_nsec = right.tv_nsec then 0
  else 1

/-- The order of time stamps: `a` is not later than `b`. -/
def timespec64.le (a b : timespec64) : Prop :=
  a.tv_sec < b.tv_sec ∨ (a.tv_sec = b.tv_sec ∧ a.tv_nsec ≤ b.tv_nsec)

/-- The fields of `struct inode` that `update_inode_attr` reads and
writes. -/
structure inode_attr where
  /-- Access time. -/
  i_atime : timespec64
  /-- Change time, `__i_ctime`. -/
  i_ctime : timespec64
  /-- Modification time. -/
  i_mtime : timespec64
  /-- File size. -/
  i_size : Int
deriving DecidableEq

/-- The loop of `update_inode_attr` over the comrade list; `first` tells
whether the comrade at the head is `fst_comrade`, and `d_inode` gives the
inode of a backing dentry (`none` for `NULL`). -/
def update_inode_attr_loop (d_inode : Dentry → Option inode_attr) :
    Bool → inode_attr → List hmdfs_dentry_comrade → inode_attr
  | _, inode, [] => inode
  | first, inode, comrade :: rest =>
    match d_inode comrade.lo_d with
    | none => update_inode_attr_loop d_inode false inode rest
    | some li =>
      if first then
        update_inode_attr_loop d_inode false
          { inode with i_atime := li.i_atime, i_ctime := li.i_ctime,
                       i_mtime := li.i_mtime, i_size := li.i_size } rest
      else if hmdfs_time_compare inode.i_mtime li.i_mtime < 0 then
        update_inode_attr_loop d_inode false { inode with i_mtime := li.i_mtime } rest
      else update_inode_attr_loop d_inode false inode rest

/-- The function `update_inode_attr(inode, child_dentry)`: the inode after
the call. -/
def update_inode_attr (d_inode : Dentry → Option inode_attr) (inode : inode_attr)
    (cdi : hmdfs_dentry_info_merge) : inode_attr :=
  update_inode_attr_loop d_inode true inode cdi.comrade_list

/-- The function `get_num_comrades`. -/
def get_num_comrades (dim : hmdfs_dentry_info_merge) : Nat := dim.comrade_list.length

/-! ## Removal -/

/-- The loop of `do_rmdir_merge` over the comrade list: the returned value
and the backing dentries passed to `vfs_rmdir`, in the order of the calls. -/
def do_rmdir_merge_loop (vfs_rmdir : Dentry → Int) :
    List hmdfs_dentry_comrade → Int × List Dentry
  | [] => (0, [])
  | comrade :: rest =>
    let ret := vfs_rmdir comrade.lo_d
    if ret ≠ 0 then (ret, [comrade.lo_d])
    else
      let r := do_rmdir_merge_loop vfs_rmdir rest
      (r.1, comrade.lo_d :: r.2)

/-- The function `do_rmdir_merge`, on the node as it is when the wait for
pending lookup work has ended. -/
def do_rmdir_merge (vfs_rmdir : Dentry → Int) (dim : hmdfs_dentry_info_merge) :
    Int × List Dentry :=
  do_rmdir_merge_loop vfs_rmdir dim.comrade_list

/-- The outcome of `do_unlink_merge`. -/
structure UnlinkResult where
  /-- The returned value. -/
  ret : Int
  /-- The backing dentries looked up again with `lookup_one_len`. -/
  lookups : List Dentry
  /-- The dentries passed to `vfs_unlink`. -/
  unlinks : List Dentry
deriving DecidableEq

/-- The loop of `do_unlink_merge` over the comrade list. The references
taken with `dget` and by `lookup_one_len` are released on every path. -/
def do_unlink_merge_loop (lookup_one_len : Dentry → Except Int Dentry)
    (vfs_unlink : Dentry → Int) : List hmdfs_dentry_comrade → UnlinkResult
  | [] => ⟨0, [], []⟩
  | comrade :: rest =>
    match lookup_one_len comrade.lo_d with
    | .error err => ⟨err, [comrade.lo_d], []⟩
    | .ok lo_d_lookup =>
      let ret := vfs_unlink lo_d_lookup
      if ret ≠ 0 then ⟨ret, [comrade.lo_d], [lo_d_lookup]⟩
      else
        let r := do_unlink_merge_loop lookup_one_len vfs_unlink rest
        ⟨r.ret, comrade.lo_d :: r.lookups, lo_d_lookup :: r.unlinks⟩

/-- The function `do_unlink_merge`, on the node as it is when the wait for
pending lookup work has ended. -/
def do_unlink_merge (lookup_one_len : Dentry → Except Int Dentry)
    (vfs_unlink : Dentry → Int) (dim : hmdfs_dentry_info_merge) : UnlinkResult :=
  do_unlink_merge_loop lookup_one_len vfs_unlink dim.comrade_list

/-- The result of removing one comrade in `do_unlink_merge`: the error of
the lookup, or the result of `vfs_unlink`. -/
def unlink_comrade_result (lookup_one_len : Dentry → Except Int Dentry)
    (vfs_unlink : Dentry → Int) (comrade : hmdfs_dentry_comrade) : Int :=
  match lookup_one_len comrade.lo_d with
  | .error err => err
  | .ok lo_d_lookup => vfs_unlink lo_d_lookup

/-! ## Revalidation -/

/-- RCU-walk lookup flag of `linux/namei.h`. -/
def LOOKUP_RCU : Nat := 0x0040

/-- Errno `ECHILD`. -/
def ECHILD : Int := 10

/-- The loop of `d_revalidate_merge` over the comrade list, entered with
the current value of `ret`: `has_op` is `d_flags & DCACHE_OP_REVALIDATE` of
a backing dentry and `d_revalidate` its `d_op->d_revalidate`. -/
def d_revalidate_merge_loop (has_op : Dentry → Bool) (d_revalidate : Dentry → Nat → Int)
    (flags : Nat) : Int → List hmdfs_dentry_comrade → Int
  | ret, [] => ret
  | ret, comrade :: rest =>
    if has_op comrade.lo_d = true then
      let r := d_revalidate comrade.lo_d flags
      if r = 0 then r
      else d_revalidate_merge_loop has_op d_revalidate flags r rest
    else d_revalidate_merge_loop has_op d_revalidate flags ret rest

/-- The function `d_revalidate_merge(direntry, flags)`: `inode_type` is
`hmdfs_i(d_inode(direntry))->inode_type`, `none` when the dentry has no
inode; `cloud` is the value of `HMDFS_LAYER_FIRST_MERGE_CLOUD`, an enum
constant that is not among the sources. -/
def d_revalidate_merge (cloud : Nat) (has_op : Dentry → Bool)
    (d_revalidate : Dentry → Nat → Int) (inode_type : Option Nat)
    (dim : hmdfs_dentry_info_merge) (flags : Nat) : Int :=
  if flags &&& LOOKUP_RCU ≠ 0 then -ECHILD
  else if flags &&& (LOOKUP_CREATE ||| LOOKUP_RENAME_TARGET ||| LOOKUP_REVAL) ≠ 0 then 0
  else
    match inode_type with
    | none => 0
    | some t =>
      if t = cloud then 1
      else d_revalidate_merge_loop has_op d_revalidate flags 1 dim.comrade_list

/-- The inodes of two backing dentries: dentry 10 with size 7 and
modification time 80.5, dentry 12 with size 99 and modification time 95. -/
def sampleInodes (d : Dentry) : Option inode_attr :=
  if d.id = 10 then some ⟨⟨100, 0⟩, ⟨90, 0⟩, ⟨80, 5⟩, 7⟩
  else if d.id = 12 then some ⟨⟨60, 0⟩, ⟨70, 0⟩, ⟨95, 0⟩, 99⟩
  else none

/-- A backing store in which removing the directory of dentry 11 fails with
`-ENOTEMPTY` (-39) and every other `vfs_rmdir` succeeds. -/
def sampleRmdir (d : Dentry) : Int := if d.id = 11 then -39 else 0

/-- A backing store in which every `lookup_one_len` finds the dentry
itself. -/
def sampleLookupOneLen (d : Dentry) : Except Int Dentry := .ok d

/-- A backing store in which unlinking dentry 11 fails with `-EIO` (-5). -/
def sampleUnlink (d : Dentry) : Int := if d.id = 11 then -5 else 0

/-- A node with directory comrades of the devices 0, 1 and 2, backed by the
dentries 10, 11 and 12. -/
def sampleNode012 : hmdfs_dentry_info_merge :=
  ⟨DT_DIR, 0, [⟨0, ⟨10, S_IFDIR⟩⟩, ⟨1, ⟨11, S_IFDIR⟩⟩, ⟨2, ⟨12, S_IFDIR⟩⟩]⟩

/-- Backing revalidation that reports dentry 11 invalid and every other
dentry valid. -/
def sampleRevalidate (d : Dentry) (_flags : Nat) : Int := if d.id = 11 then 0 else 1

/-! ## The backing store as seen by creation and rename -/

/-- Errno `EPERM`. -/
def EPERM : Int := 1
/-- Errno `EIO`. -/
def EIO : Int := 5
/-- Errno `EACCES`. -/
def EACCES : Int := 13
/-- Errno `EINVAL`. -/
def EINVAL : Int := 22

/-- The rename flag `RENAME_NOREPLACE` of `linux/fs.h`. -/
def RENAME_NOREPLACE : Nat := 1

/-- What the backing file systems answer to the calls made by creation and
rename. -/
structure LowerFs where
  /-- The backing root `sbi->real_dst`. -/
  real_dst : List Char
  /-- The path printed by `dentry_path_raw` for a backing dentry, or its
  error. -/
  dentry_path_raw : Dentry → Except Int (List Char)
  /-- The call `kern_path_create` for an absolute path, with or without
  `LOOKUP_DIRECTORY`: the new dentry and the dentry of its parent
  (`path.dentry`), or an error. -/
  kern_path_create : List Char → Bool → Except Int (Dentry × Dentry)
  /-- The result of `vfs_mkdir` in a directory, for a new dentry and a
  mode. -/
  vfs_mkdir : Dentry → Dentry → Nat → Int
  /-- The result of `vfs_create`. -/
  vfs_create : Dentry → Dentry → Nat → Bool → Int
  /-- The result of `vfs_rename` of an old dentry to a new dentry with the
  given flags. -/
  vfs_rename : Dentry → Dentry → Nat → Int
  /-- The error of `fill_inode_merge` for a new backing dentry, 0 when it
  returns an inode. -/
  fill_inode_merge : Dentry → Int
  /-- Whether the two path buffers of `hmdfs_create_lower_dentry` are
  allocated, by the backing parent. -/
  path_bufs_ok : Dentry → Bool
  /-- Whether `kzalloc` in `alloc_comrade` succeeds, by backing dentry. -/
  comrade_ok : Dentry → Bool

/-- Modelled from the spec: `link_comrade_unlocked` is not among the
sources; the comrade is linked into the list of the node under the list
lock ("the comrade list is only mutated while holding its lock"). -/
def link_comrade_unlocked (refs : Refs) (dim : hmdfs_dentry_info_merge)
    (comrade : hmdfs_dentry_comrade) : Refs × hmdfs_dentry_info_merge :=
  let l := link_comrade refs dim.comrade_list comrade
  (l.1, { dim with comrade_list := l.2 })

/-- The backing dentry of the comrade of a device in a node, the second
component of `hmdfs_get_lo_d`. -/
def comrade_lo_d (dim : hmdfs_dentry_info_merge) (dev_id : Int) : Option Dentry :=
  (hmdfs_get_lo_d (fun _ => 0) dim dev_id).2

/-! ## Rename -/

/-- The state that `do_rename_merge` changes. -/
structure RenameState where
  /-- The reference counts. -/
  refs : Refs
  /-- The node of `new_dentry`. -/
  new_dim : hmdfs_dentry_info_merge
  /-- The calls of `vfs_rename`, as pairs of old and new backing dentry,
  oldest first. -/
  renames : List (Dentry × Dentry)

/-- The loop of `do_rename_merge` over the comrades of the old dentry,
entered with the current value of `ret`: `pmdi` is the node of the
destination parent, `old_mode` the mode of the old dentry's inode. -/
def do_rename_merge_loop (fs : LowerFs) (old_mode : Nat) (pmdi : hmdfs_dentry_info_merge)
    (new_name : List Char) (flags : Nat) :
    List hmdfs_dentry_comrade → Int → RenameState → Int × RenameState
  | [], ret, st => (ret, st)
  | comrade :: rest, ret, st =>
    match hmdfs_get_lo_d st.refs pmdi comrade.dev_id with
    | (_, none) => do_rename_merge_loop fs old_mode pmdi new_name flags rest ret st
    | (refs1, some lo_d_new_dir) =>
      let st0 : RenameState := { st with refs := dput refs1 lo_d_new_dir }
      match fs.dentry_path_raw lo_d_new_dir with
      | .error err => do_rename_merge_loop fs old_mode pmdi new_name flags rest err st0
      | .ok path_name =>
        if fs.real_dst.length + path_name.length + new_name.length + 2 > PATH_MAX then
          (-ENAMETOOLONG, st0)
        else
          match fs.kern_path_create
              (snprintf PATH_MAX (fs.real_dst ++ path_name ++ "/".toList ++ new_name))
              (S_ISDIR old_mode) with
          | .error err => (err, st0)
          | .ok (lo_d_new, lo_p_new) =>
            let ret1 := fs.vfs_rename comrade.lo_d lo_d_new flags
            let st1 : RenameState :=
              { st0 with renames := st0.renames ++ [(comrade.lo_d, lo_d_new)] }
            match alloc_comrade st1.refs lo_p_new comrade.dev_id (fs.comrade_ok lo_p_new) with
            | (refs2, .error err) =>
              do_rename_merge_loop fs old_mode pmdi new_name flags rest err
                { st1 with refs := refs2 }
            | (refs2, .ok new_comrade) =>
              let l := link_comrade_unlocked refs2 st1.new_dim new_comrade
              do_rename_merge_loop fs old_mode pmdi new_name flags rest ret1
                { st1 with refs := l.1, new_dim := l.2 }

/-- The function `do_rename_merge`, on nodes as they are when the waits for
pending lookup work have ended: `dim` is the node of the old dentry,
`bufs_ok` tells whether the two path buffers are allocated. -/
def do_rename_merge (fs : LowerFs) (bufs_ok : Bool) (dim : hmdfs_dentry_info_merge)
    (old_mode : Nat) (pmdi : hmdfs_dentry_info_merge) (new_name : List Char) (flags : Nat)
    (st : RenameState) : Int × RenameState :=
  if flags &&& (0xFFFFFFFF ^^^ RENAME_NOREPLACE) ≠ 0 then (-EINVAL, st)
  else if bufs_ok = false then (-ENOMEM, st)
  else do_rename_merge_loop fs old_mode pmdi new_name flags dim.comrade_list 0 st

/-- The function `hmdfs_file_type` and its value `HMDFS_TYPE_COMMON`, which
are not among the sources: parameters of the operations that test the type
of a name. -/
structure NameTypes where
  /-- The function `hmdfs_file_type`. -/
  hmdfs_file_type : List Char → Nat
  /-- The value `HMDFS_TYPE_COMMON`. -/
  HMDFS_TYPE_COMMON : Nat

/-- The outcome of `hmdfs_rename_merge`. -/
structure RenameMergeResult where
  /-- The returned value. -/
  ret : Int
  /-- The state after the call. -/
  st : RenameState
  /-- Whether `do_rename_merge` was called. -/
  reached : Bool
  /-- Whether `d_drop(new_dentry)` was called. -/
  new_dropped : Bool
  /-- Whether `d_invalidate(old_dentry)` was called. -/
  old_invalidated : Bool

/-- The function `hmdfs_rename_merge`: `old_type` and `new_type` are the
inode types of the two parent directories, `old_alias` and `new_alias` the
results of `dentry_path_raw` on their aliases (`none` when `d_find_alias`
returns `NULL`). The result is `none` when `strcmp` is given the error
pointer of a failed `dentry_path_raw`. -/
def hmdfs_rename_merge (nt : NameTypes) (fs : LowerFs) (old_name new_name : List Char)
    (old_type new_type : Nat) (old_buf_ok new_buf_ok : Bool)
    (old_alias new_alias : Option (Except Int (List Char))) (bufs_ok : Bool)
    (dim : hmdfs_dentry_info_merge) (old_mode : Nat) (pmdi : hmdfs_dentry_info_merge)
    (flags : Nat) (st : RenameState) : Option RenameMergeResult :=
  if nt.hmdfs_file_type old_name ≠ nt.HMDFS_TYPE_COMMON ∨
      nt.hmdfs_file_type new_name ≠ nt.HMDFS_TYPE_COMMON then
    some ⟨-EACCES, st, false, false, false⟩
  else if old_type ≠ new_type then some ⟨-EPERM, st, false, false, false⟩
  else if old_buf_ok = false ∨ new_buf_ok = false then some ⟨-ENOMEM, st, false, false, false⟩
  else
    match new_alias with
    | none => some ⟨-EINVAL, st, false, false, false⟩
    | some new_res =>
      match old_alias with
      | none => some ⟨-EINVAL, st, false, false, false⟩
      | some old_res =>
        match old_res, new_res with
        | .ok old_dir_path, .ok new_dir_path =>
          if old_dir_path ≠ new_dir_path then some ⟨-EPERM, st, false, false, false⟩
          else
            let r := do_rename_merge fs bufs_ok dim old_mode pmdi new_name flags st
            some ⟨r.1, r.2, true, decide (r.1 ≠ 0), S_ISREG old_mode && decide (r.1 = 0)⟩
        | _, _ => none

/-! ## Creation -/

/-- The operation codes of `struct hmdfs_recursive_para`, whose values are
not among the sources; `F_OTHER` stands for every other value of
`opcode`. -/
inductive MergeOpcode where
  | F_MKDIR_MERGE
  | F_CREATE_MERGE
  | F_OTHER
deriving DecidableEq

/-- The record `struct hmdfs_recursive_para`, without `name`, which the
callers set to `NULL`. -/
structure hmdfs_recursive_para where
  /-- Whether the level being created is the last one. -/
  is_last : Bool
  /-- The operation of the last level. -/
  opcode : MergeOpcode
  /-- The mode of the level being created. -/
  mode : Nat
  /-- The flag `want_excl` of a create. -/
  want_excl : Bool
deriving DecidableEq

/-- The function `hmdfs_init_recursive_para`. -/
def hmdfs_init_recursive_para (opcode : MergeOpcode) (mode : Nat) (want_excl : Bool) :
    hmdfs_recursive_para :=
  ⟨true, opcode, mode, want_excl⟩

/-- A dentry of the merge view: its name, the mode and link count of its
inode, and its node. -/
structure MergeDentry where
  /-- The name `d_name.name`. -/
  d_name : List Char
  /-- The mode `d_inode(dentry)->i_mode`. -/
  i_mode : Nat
  /-- The link count of `d_inode(dentry)`. -/
  i_nlink : Nat
  /-- The node `hmdfs_dm(dentry)`. -/
  dim : hmdfs_dentry_info_merge
deriving DecidableEq

/-- A call to the backing store made by creation. For `mkdir`, `leaf` tells
whether the call is the one of `do_mkdir_merge`, for the last level, or the
one that `hmdfs_do_ops_merge` makes itself for an ancestor. -/
inductive LowerCall where
  | mkdir (leaf : Bool) (dir child : Dentry) (mode : Nat)
  | create (dir child : Dentry) (mode : Nat) (want_excl : Bool)
deriving DecidableEq

/-- The state that creation changes besides the merge dentries. -/
structure CreateState where
  /-- The reference counts of the backing dentries. -/
  refs : Refs
  /-- The calls to the backing store, oldest first. -/
  calls : List LowerCall

/-- The function `do_mkdir_merge`: `i_nlink` is the link count of
`parent_inode`; the result is the returned value, the link count after the
call and the state. The inode that `d_add` gives the child is not part of
the state. -/
def do_mkdir_merge (fs : LowerFs) (i_nlink : Nat) (mode : Nat)
    (lo_i_parent lo_d_child : Dentry) (st : CreateState) : Int × Nat × CreateState :=
  let st1 : CreateState :=
    { st with calls := st.calls ++ [LowerCall.mkdir true lo_i_parent lo_d_child mode] }
  let ret := fs.vfs_mkdir lo_i_parent lo_d_child mode
  if ret ≠ 0 then (ret, i_nlink, st1)
  else if fs.fill_inode_merge lo_d_child ≠ 0 then (fs.fill_inode_merge lo_d_child, i_nlink, st1)
  else (ret, 2, st1)

/-- The function `do_create_merge`, as `do_mkdir_merge`. -/
def do_create_merge (fs : LowerFs) (i_nlink : Nat) (mode : Nat) (want_excl : Bool)
    (lo_i_parent lo_d_child : Dentry) (st : CreateState) : Int × Nat × CreateState :=
  let st1 : CreateState :=
    { st with calls := st.calls ++ [LowerCall.create lo_i_parent lo_d_child mode want_excl] }
  let ret := fs.vfs_create lo_i_parent lo_d_child mode want_excl
  if ret ≠ 0 then (ret, i_nlink, st1)
  else if fs.fill_inode_merge lo_d_child ≠ 0 then (fs.fill_inode_merge lo_d_child, i_nlink, st1)
  else (ret, 2, st1)

/-- The function `hmdfs_do_ops_merge`: `i_nlink` is the link count of
`i_parent`, `path_dentry` is `path.dentry`. -/
def hmdfs_do_ops_merge (fs : LowerFs) (i_nlink : Nat) (lo_d_child path_dentry : Dentry)
    (rec_op_para : hmdfs_recursive_para) (st : CreateState) : Int × Nat × CreateState :=
  if rec_op_para.is_last then
    match rec_op_para.opcode with
    | .F_MKDIR_MERGE => do_mkdir_merge fs i_nlink rec_op_para.mode path_dentry lo_d_child st
    | .F_CREATE_MERGE =>
      do_create_merge fs i_nlink rec_op_para.mode rec_op_para.want_excl path_dentry lo_d_child st
    | .F_OTHER => (-EINVAL, i_nlink, st)
  else
    (fs.vfs_mkdir path_dentry lo_d_child rec_op_para.mode, i_nlink,
      { st with calls :=
          st.calls ++ [LowerCall.mkdir false path_dentry lo_d_child rec_op_para.mode] })

/-- The outcome of `hmdfs_create_lower_dentry`. -/
structure LowerResult where
  /-- The returned value. -/
  ret : Int
  /-- The link count of `i_parent` after the call. -/
  i_nlink : Nat
  /-- The dentry `d_child` after the call. -/
  d_child : MergeDentry
  /-- The state after the call. -/
  st : CreateState

/-- The function `hmdfs_create_lower_dentry`: `i_nlink` is the link count
of `i_parent`. The times that `update_inode_attr` copies to the inode of
the child are not part of the state. -/
def hmdfs_create_lower_dentry (fs : LowerFs) (i_nlink : Nat) (d_child : MergeDentry)
    (lo_d_parent : Dentry) (is_dir : Bool) (rec_op_para : hmdfs_recursive_para)
    (st : CreateState) : LowerResult :=
  if fs.path_bufs_ok lo_d_parent = false then ⟨-ENOMEM, i_nlink, d_child, st⟩
  else
    match fs.dentry_path_raw lo_d_parent with
    | .error err => ⟨err, i_nlink, d_child, st⟩
    | .ok path_name =>
      if fs.real_dst.length + path_name.length + d_child.d_name.length + 2 > PATH_MAX then
        ⟨-ENAMETOOLONG, i_nlink, d_child, st⟩
      else
        match fs.kern_path_create (fs.real_dst ++ path_name ++ "/".toList ++ d_child.d_name)
            is_dir with
        | .error err => ⟨err, i_nlink, d_child, st⟩
        | .ok (lo_d_child, path_dentry) =>
          match hmdfs_do_ops_merge fs i_nlink lo_d_child path_dentry rec_op_para st with
          | (ret, i_nlink1, st1) =>
            if ret ≠ 0 then ⟨ret, i_nlink1, d_child, st1⟩
            else
              match alloc_comrade st1.refs lo_d_child HMDFS_DEVID_LOCAL
                  (fs.comrade_ok lo_d_child) with
              | (refs2, .error err) => ⟨err, i_nlink1, d_child, { st1 with refs := refs2 }⟩
              | (refs2, .ok new_comrade) =>
                let l := link_comrade_unlocked refs2 d_child.dim new_comrade
                ⟨ret, i_nlink1, { d_child with dim := l.2 }, { st1 with refs := l.1 }⟩

/-- The outcome of `create_lo_d_parent_recur`. -/
structure RecurResult where
  /-- The returned value. -/
  ret : Int
  /-- The dentry `d_parent` and its ancestors after the call, `d_parent`
  first. -/
  up : List MergeDentry
  /-- The dentry `d_child` after the call. -/
  d_child : MergeDentry
  /-- The record `rec_op_para` after the call. -/
  para : hmdfs_recursive_para
  /-- The state after the call. -/
  st : CreateState

/-- The end of `create_lo_d_parent_recur`, from `rec_op_para->is_last =
false` on, entered with the local backing dentry of `d_parent`. -/
def create_lo_d_parent_tail (fs : LowerFs) (d_parent : MergeDentry) (up : List MergeDentry)
    (d_child : MergeDentry) (mode : Nat) (rec_op_para : hmdfs_recursive_para)
    (lo_d_parent : Dentry) (st : CreateState) : RecurResult :=
  let para1 : hmdfs_recursive_para := { rec_op_para with is_last := false, mode := mode }
  let r := hmdfs_create_lower_dentry fs d_parent.i_nlink d_child lo_d_parent true para1 st
  ⟨r.ret, { d_parent with i_nlink := r.i_nlink } :: up, r.d_child, para1,
    { r.st with refs := dput r.st.refs lo_d_parent }⟩

/-- The function `create_lo_d_parent_recur`, on nodes as they are when the
waits for pending lookup work have ended. The first argument is `d_parent`
followed by its ancestors up to the root. The root is its own parent: when
it has no local comrade either the recursion does not end, which is the
result `none`. -/
def create_lo_d_parent_recur (fs : LowerFs) :
    List MergeDentry → MergeDentry → Nat → hmdfs_recursive_para → CreateState →
    Option RecurResult
  | [], _, _, _, _ => none
  | d_parent :: up, d_child, mode, rec_op_para, st =>
    match hmdfs_get_lo_d st.refs d_parent.dim HMDFS_DEVID_LOCAL with
    | (refs1, some lo_d_parent) =>
      some (create_lo_d_parent_tail fs d_parent up d_child mode rec_op_para lo_d_parent
        { st with refs := refs1 })
    | (refs1, none) =>
      match create_lo_d_parent_recur fs up d_parent d_parent.i_mode rec_op_para
          { st with refs := refs1 } with
      | none => none
      | some r =>
        if r.ret ≠ 0 then some ⟨r.ret, r.d_child :: r.up, d_child, r.para, r.st⟩
        else
          match hmdfs_get_lo_d r.st.refs r.d_child.dim HMDFS_DEVID_LOCAL with
          | (refs2, none) =>
            some ⟨-ENOENT, r.d_child :: r.up, d_child, r.para, { r.st with refs := refs2 }⟩
          | (refs2, some lo_d_parent) =>
            some (create_lo_d_parent_tail fs r.d_child r.up d_child mode r.para lo_d_parent
              { r.st with refs := refs2 })

/-- The outcome of `create_lo_d_child`. -/
structure ChildResult where
  /-- The returned value. -/
  ret : Int
  /-- The link count of `i_parent` after the call. -/
  i_nlink : Nat
  /-- The parent of `d_child` and its ancestors after the call, parent
  first. -/
  up : List MergeDentry
  /-- The dentry `d_child` after the call. -/
  d_child : MergeDentry
  /-- The record `rec_op_para` after the call. -/
  para : hmdfs_recursive_para
  /-- The state after the call. -/
  st : CreateState

/-- The end of `create_lo_d_child`, from `rec_op_para->is_last = true` on,
entered with the local backing dentry of the parent. -/
def create_lo_d_child_tail (fs : LowerFs) (i_nlink : Nat) (up : List MergeDentry)
    (d_child : MergeDentry) (is_dir : Bool) (d_child_mode : Nat)
    (rec_op_para : hmdfs_recursive_para) (lo_d_parent : Dentry) (st : CreateState) :
    ChildResult :=
  let para1 : hmdfs_recursive_para := { rec_op_para with is_last := true, mode := d_child_mode }
  let r := hmdfs_create_lower_dentry fs i_nlink d_child lo_d_parent is_dir para1 st
  ⟨r.ret, r.i_nlink, up, r.d_child, para1, { r.st with refs := dput r.st.refs lo_d_parent }⟩

/-- The function `create_lo_d_child`, on nodes as they are when the waits
for pending lookup work have ended: `i_nlink` is the link count of
`i_parent`, the list is the parent of `d_child` followed by its ancestors
up to the root; `none` as in `create_lo_d_parent_recur`. When the parent
has no local comrade after the recursion has returned 0, the value returned
is `ret`, which is 0. -/
def create_lo_d_child (fs : LowerFs) (i_nlink : Nat) :
    List MergeDentry → MergeDentry → Bool → hmdfs_recursive_para → CreateState →
    Option ChildResult
  | [], _, _, _, _ => none
  | d_parent :: up, d_child, is_dir, rec_op_para, st =>
    let d_child_mode := rec_op_para.mode
    match hmdfs_get_lo_d st.refs d_parent.dim HMDFS_DEVID_LOCAL with
    | (refs1, some lo_d_parent) =>
      some (create_lo_d_child_tail fs i_nlink (d_parent :: up) d_child is_dir d_child_mode
        rec_op_para lo_d_parent { st with refs := refs1 })
    | (refs1, none) =>
      match create_lo_d_parent_recur fs up d_parent d_parent.i_mode rec_op_para
          { st with refs := refs1 } with
      | none => none
      | some r =>
        if r.ret ≠ 0 then some ⟨r.ret, i_nlink, r.d_child :: r.up, d_child, r.para, r.st⟩
        else
          match hmdfs_get_lo_d r.st.refs r.d_child.dim HMDFS_DEVID_LOCAL with
          | (refs2, none) =>
            some ⟨r.ret, i_nlink, r.d_child :: r.up, d_child, r.para,
              { r.st with refs := refs2 }⟩
          | (refs2, some lo_d_parent) =>
            some (create_lo_d_child_tail fs i_nlink (r.d_child :: r.up) d_child is_dir
              d_child_mode r.para lo_d_parent { r.st with refs := refs2 })

/-- The outcome of `hmdfs_mkdir_merge` and `hmdfs_create_merge`. -/
structure MergeOpResult where
  /-- The returned value. -/
  ret : Int
  /-- The link count of `dir` after the call. -/
  i_nlink : Nat
  /-- The parent of `dentry` and its ancestors after the call. -/
  up : List MergeDentry
  /-- The dentry after the call. -/
  dentry : MergeDentry
  /-- The state after the call. -/
  st : CreateState
  /-- Whether `d_drop(dentry)` was called. -/
  dropped : Bool

/-- The function `hmdfs_mkdir_merge`: `para_ok` tells whether `rec_op_para`
is allocated, `i_nlink` is the link count of `dir`. -/
def hmdfs_mkdir_merge (nt : NameTypes) (fs : LowerFs) (para_ok : Bool) (i_nlink : Nat)
    (up : List MergeDentry) (dentry : MergeDentry) (mode : Nat) (st : CreateState) :
    Option MergeOpResult :=
  if nt.hmdfs_file_type dentry.d_name ≠ nt.HMDFS_TYPE_COMMON then
    some ⟨-EACCES, i_nlink, up, dentry, st, true⟩
  else if para_ok = false then some ⟨-ENOMEM, i_nlink, up, dentry, st, true⟩
  else
    (create_lo_d_child fs i_nlink up dentry true
      (hmdfs_init_recursive_para .F_MKDIR_MERGE mode false) st).map
      (fun r => ⟨r.ret, r.i_nlink, r.up, r.d_child, r.st, decide (r.ret ≠ 0)⟩)

/-- The function `hmdfs_create_merge`, which does not call
`hmdfs_file_type`. -/
def hmdfs_create_merge (fs : LowerFs) (para_ok : Bool) (i_nlink : Nat)
    (up : List MergeDentry) (dentry : MergeDentry) (mode : Nat) (want_excl : Bool)
    (st : CreateState) : Option MergeOpResult :=
  if para_ok = false then some ⟨-ENOMEM, i_nlink, up, dentry, st, true⟩
  else
    (create_lo_d_child fs i_nlink up dentry false
      (hmdfs_init_recursive_para .F_CREATE_MERGE mode want_excl) st).map
      (fun r => ⟨r.ret, r.i_nlink, r.up, r.d_child, r.st, decide (r.ret ≠ 0)⟩)

/-- The outcome of `hmdfs_rmdir_merge` and `hmdfs_unlink_merge`. -/
structure RemoveResult where
  /-- The returned value. -/
  ret : Int
  /-- The backing dentries given to `lookup_one_len`, in call order (none
  for a directory). -/
  lookups : List Dentry
  /-- The backing dentries given to `vfs_rmdir` or `vfs_unlink`, in call
  order. -/
  removes : List Dentry
  /-- Whether `hmdfs_update_meta(dir)` was called. -/
  meta_updated : Bool
  /-- Whether `d_drop(dentry)` was called. -/
  dropped : Bool
deriving DecidableEq

/-- The function `hmdfs_rmdir_merge` for a dentry of the given name and
node. -/
def hmdfs_rmdir_merge (nt : NameTypes) (vfs_rmdir : Dentry → Int) (name : List Char)
    (dim : hmdfs_dentry_info_merge) : RemoveResult :=
  if nt.hmdfs_file_type name ≠ nt.HMDFS_TYPE_COMMON then ⟨-EACCES, [], [], false, false⟩
  else
    let r := do_rmdir_merge vfs_rmdir dim
    if r.1 ≠ 0 then ⟨r.1, [], r.2, false, false⟩ else ⟨r.1, [], r.2, true, true⟩

/-- The function `hmdfs_unlink_merge` for a dentry of the given name and
node. -/
def hmdfs_unlink_merge (nt : NameTypes) (lookup_one_len : Dentry → Except Int Dentry)
    (vfs_unlink : Dentry → Int) (name : List Char) (dim : hmdfs_dentry_info_merge) :
    RemoveResult :=
  if nt.hmdfs_file_type name ≠ nt.HMDFS_TYPE_COMMON then ⟨-EACCES, [], [], false, false⟩
  else
    let r := do_unlink_merge lookup_one_len vfs_unlink dim
    if r.ret ≠ 0 then ⟨r.ret, r.lookups, r.unlinks, false, false⟩
    else ⟨r.ret, r.lookups, r.unlinks, true, true⟩

/-- A backing store for the examples of rename: the root is `/mnt`, the
parents lie at `/local/docs` (dentry 20) and `/cid2/docs` (dentry 22), a new
dentry has the length of its path as identity, and the rename of dentry 10
fails with `-EIO`. -/
def sampleRenameFs : LowerFs where
  real_dst := "/mnt".toList
  dentry_path_raw := fun d =>
    if d.id = 20 then .ok "/local/docs".toList
    else if d.id = 22 then .ok "/cid2/docs".toList
    else .error (-ENAMETOOLONG)
  kern_path_create := fun abs _ => .ok (⟨100 + abs.length, 0⟩, ⟨200 + abs.length, S_IFDIR⟩)
  vfs_mkdir := fun _ _ _ => 0
  vfs_create := fun _ _ _ _ => 0
  vfs_rename := fun old _ _ => if old.id = 10 then - EIO else 0
  fill_inode_merge := fun _ => 0
  path_bufs_ok := fun _ => true
  comrade_ok := fun _ => true

/-- A backing store like `sampleRenameFs` in which `kern_path_create`
fails with `-ENOENT`. -/
def sampleRenameFsNoCreate : LowerFs :=
  { sampleRenameFs with kern_path_create := fun _ _ => .error (-ENOENT) }

/-- A directory with comrades on the devices 0 and 2; the backing rename of
the first fails in `sampleRenameFs`. -/
def sampleDirNode02 : hmdfs_dentry_info_merge :=
  ⟨DT_DIR, 0, [⟨0, ⟨10, S_IFDIR⟩⟩, ⟨2, ⟨12, S_IFDIR⟩⟩]⟩

/-- A directory with comrades on the devices 0 and 2 whose backing renames
succeed. -/
def sampleDirNode02ok : hmdfs_dentry_info_merge :=
  ⟨DT_DIR, 0, [⟨0, ⟨11, S_IFDIR⟩⟩, ⟨2, ⟨12, S_IFDIR⟩⟩]⟩

/-- A destination parent with comrades on the devices 0 and 2, where the
path of the backing dentry of device 0 cannot be printed by
`dentry_path_raw`. -/
def sampleParentNoPath : hmdfs_dentry_info_merge :=
  ⟨DT_DIR, 0, [⟨0, ⟨21, S_IFDIR⟩⟩, ⟨2, ⟨22, S_IFDIR⟩⟩]⟩

/-- A destination parent with comrades on the devices 0 and 2. -/
def sampleParent02 : hmdfs_dentry_info_merge :=
  ⟨DT_DIR, 0, [⟨0, ⟨20, S_IFDIR⟩⟩, ⟨2, ⟨22, S_IFDIR⟩⟩]⟩

/-- A destination parent with a comrade on the device 0 only. -/
def sampleParent0 : hmdfs_dentry_info_merge :=
  ⟨DT_DIR, 0, [⟨0, ⟨20, S_IFDIR⟩⟩]⟩

/-- A regular file with comrades on the devices 0 and 2 whose backing
renames succeed. -/
def sampleNode02ok : hmdfs_dentry_info_merge :=
  ⟨DT_REG, 0, [⟨0, ⟨11, S_IFREG⟩⟩, ⟨2, ⟨12, S_IFREG⟩⟩]⟩

/-- The state before a rename to a new dentry without comrades. -/
def sampleRenameState : RenameState := ⟨fun _ => 1, init_hmdfs_dentry_info_merge, []⟩

/-- Modelled from the spec: `hmdfs_file_type` is not among the sources; in
the examples a name is of the common type 0 when `check_filename` finds no
conflict suffix in it, and of the type 1 otherwise ("disallowed operation
on an encoded/conflict name"). -/
def sampleTypes : NameTypes :=
  ⟨fun name => if check_filename sampleMarkers name name.length = some DT_UNKNOWN then 0 else 1,
    0⟩

/-- Whether a merge dentry has a comrade of the local device. -/
def has_local (d : MergeDentry) : Bool :=
  (comrade_lo_d d.dim HMDFS_DEVID_LOCAL).isSome

/-- The merge dentry with one more comrade, of the local device, at the
head of its comrade list. -/
def attach_local (d : MergeDentry) (lo_d : Dentry) : MergeDentry :=
  { d with dim := { d.dim with comrade_list := ⟨HMDFS_DEVID_LOCAL, lo_d⟩ :: d.dim.comrade_list } }

/-- The ancestors that are to be materialised: those before the first one
that has a local comrade, the parent first. -/
def missing_ancestors (up : List MergeDentry) : List MergeDentry :=
  up.takeWhile (fun a => !has_local a)

/-- The backing calls that materialise the given ancestors (the nearest
first) as the backing dentries `dc` (a new dentry with the dentry of its
directory, as `kern_path_create` returns them): one `vfs_mkdir` each with
the mode of the ancestor, the topmost ancestor first. -/
def ancestor_calls (missing : List MergeDentry) (dc : List (Dentry × Dentry)) :
    List LowerCall :=
  (List.zipWith (fun a p => LowerCall.mkdir false p.2 p.1 a.i_mode) missing dc).reverse

/-- The backing call that creates the leaf as the new backing dentry `p.1`
in the directory `p.2`, for the operation and mode of the caller; none for
an operation that is neither mkdir nor create. -/
def leaf_call (opcode : MergeOpcode) (mode : Nat) (want_excl : Bool) (p : Dentry × Dentry) :
    Option LowerCall :=
  match opcode with
  | .F_MKDIR_MERGE => some (LowerCall.mkdir true p.2 p.1 mode)
  | .F_CREATE_MERGE => some (LowerCall.create p.2 p.1 mode want_excl)
  | .F_OTHER => none

/-- The result of the backing call that creates the leaf. -/
def leaf_result (fs : LowerFs) (opcode : MergeOpcode) (mode : Nat) (want_excl : Bool)
    (p : Dentry × Dentry) : Int :=
  match opcode with
  | .F_MKDIR_MERGE => fs.vfs_mkdir p.2 p.1 mode
  | .F_CREATE_MERGE => fs.vfs_create p.2 p.1 mode want_excl
  | .F_OTHER => -EINVAL

/-- A backing store for the examples of creation: the root is `/mnt`, the
local comrade of the root of the merge view is the dentry 30 at `/local`, a
new dentry has 100 plus the length of its path as identity, and the dentry
40 lies at a path of 4091 characters. -/
def sampleCreateFs : LowerFs where
  real_dst := "/mnt".toList
  dentry_path_raw := fun d =>
    if d.id = 30 then .ok "/local".toList
    else if d.id = 112 then .ok "/local/a".toList
    else if d.id = 114 then .ok "/local/a/b".toList
    else if d.id = 40 then .ok longPath
    else .error (-ENAMETOOLONG)
  kern_path_create := fun abs _ => .ok (⟨100 + abs.length, 0⟩, ⟨200 + abs.length, S_IFDIR⟩)
  vfs_mkdir := fun _ _ _ => 0
  vfs_create := fun _ _ _ _ => 0
  vfs_rename := fun _ _ _ => 0
  fill_inode_merge := fun _ => 0
  path_bufs_ok := fun _ => true
  comrade_ok := fun _ => true

/-- A backing store like `sampleCreateFs` in which the path of every dentry
is printed. -/
def sampleCreateFsOk : LowerFs :=
  { sampleCreateFs with dentry_path_raw := fun _ => .ok "/local".toList }

/-- A backing store like `sampleCreateFs` in which `vfs_create` is refused
with `-EACCES`. -/
def sampleCreateFsRefuse : LowerFs :=
  { sampleCreateFs with vfs_create := fun _ _ _ _ => -EACCES }

/-- The root of a merge view, with a local comrade. -/
def sampleRoot : MergeDentry := ⟨"/".toList, S_IFDIR + 493, 2, ⟨DT_DIR, 0, [⟨0, ⟨30, S_IFDIR⟩⟩]⟩⟩

/-- A directory `a` that only the device 2 has. -/
def sampleDirA : MergeDentry := ⟨"a".toList, S_IFDIR + 448, 2, ⟨DT_DIR, 0, [⟨2, ⟨52, S_IFDIR⟩⟩]⟩⟩

/-- A directory `b` that only the device 2 has. -/
def sampleDirB : MergeDentry := ⟨"b".toList, S_IFDIR + 488, 2, ⟨DT_DIR, 0, [⟨2, ⟨54, S_IFDIR⟩⟩]⟩⟩

/-- A new dentry of the given name, without comrades. -/
def sampleNew (name : List Char) : MergeDentry := ⟨name, 0, 0, init_hmdfs_dentry_info_merge⟩

/-- The state before a creation. -/
def sampleCreateState : CreateState := ⟨fun _ => 1, []⟩

/-- The backing call that `hmdfs_do_ops_merge` is to make for a level: the
one of the leaf at the last level, the `vfs_mkdir` of an ancestor
otherwise. -/
def level_call (para : hmdfs_recursive_para) (p : Dentry × Dentry) : Option LowerCall :=
  if para.is_last then leaf_call para.opcode para.mode para.want_excl p
  else some (LowerCall.mkdir false p.2 p.1 para.mode)

/-- The result of the backing call of a level. -/
def level_result (fs : LowerFs) (para : hmdfs_recursive_para) (p : Dentry × Dentry) : Int :=
  if para.is_last then leaf_result fs para.opcode para.mode para.want_excl p
  else fs.vfs_mkdir p.2 p.1 para.mode

/-- The error pointers of the backing store are not zero. -/
def LowerFs.errors_nonzero (fs : LowerFs) : Prop :=
  (∀ d e, fs.dentry_path_raw d = .error e → e ≠ 0) ∧
  (∀ abs is_dir e, fs.kern_path_create abs is_dir = .error e → e ≠ 0)

/-- The backing store refuses nothing while directories of the given names
are made: the path buffers are allocated, every path is printed and leaves
room for each of the names, `kern_path_create` and `vfs_mkdir` succeed and
the comrades are allocated. -/
def LowerFs.cooperates (fs : LowerFs) (names : List (List Char)) : Prop :=
  (∀ lo, fs.path_bufs_ok lo = true) ∧
  (∀ lo, ∃ p, fs.dentry_path_raw lo = .ok p ∧
    ∀ n ∈ names, ¬ (fs.real_dst.length + p.length + n.length + 2 > PATH_MAX)) ∧
  (∀ abs is_dir, ∃ n, fs.kern_path_create abs is_dir = .ok n) ∧
  (∀ dir child mode, fs.vfs_mkdir dir child mode = 0) ∧
  (∀ d, fs.comrade_ok d = true)

/-! ## Release of a node -/

/-- Modelled from the spec: `has_merge_lookup_work` of `hmdfs_merge_view.h`,
not among the sources; release "must first block until no lookup work is
pending for the node", "until that work's counter reaches zero". -/
def has_merge_lookup_work (mdi : hmdfs_dentry_info_merge) : Bool :=
  mdi.work_count != 0

/-- The loop of `clear_comrades_locked`: the reference counts after the
`dput` calls and the comrades given to `kfree`, in the order of the
calls. -/
def clear_comrades_locked_loop (refs : Refs) :
    List hmdfs_dentry_comrade → Refs × List hmdfs_dentry_comrade
  | [] => (refs, [])
  | cc :: rest =>
    let r := clear_comrades_locked_loop (dput refs cc.lo_d) rest
    (r.1, cc :: r.2)

/-- The outcome of `clear_comrades_locked`. -/
structure ClearResult where
  /-- The reference counts after the call. -/
  refs : Refs
  /-- The comrade list after the call. -/
  comrade_list : List hmdfs_dentry_comrade
  /-- The comrades given to `kfree`. -/
  freed : List hmdfs_dentry_comrade

/-- The function `clear_comrades_locked(comrade_list)`: `INIT_LIST_HEAD`
leaves the list empty. -/
def clear_comrades_locked (refs : Refs) (comrade_list : List hmdfs_dentry_comrade) :
    ClearResult :=
  let r := clear_comrades_locked_loop refs comrade_list
  ⟨r.1, [], r.2⟩

/-- The wait `wait_event(cdi->wait_queue, !has_merge_lookup_work(cdi))`
while the works of the list complete in order, each with the answer of the
backing store: the state when the condition holds, with the works that have
not completed yet, or `none` when all works have completed and the condition
does not hold, in which case the wait does not end. -/
def wait_no_lookup_work (answer : merge_lookup_work → LookupOutcome) (refs : Refs)
    (cdi : hmdfs_dentry_info_merge) :
    List merge_lookup_work → Option (Refs × hmdfs_dentry_info_merge × List merge_lookup_work)
  | [] => if has_merge_lookup_work cdi then none else some (refs, cdi, [])
  | w :: rest =>
    if has_merge_lookup_work cdi then
      let s := merge_lookup_work_func refs cdi w.devid (answer w)
      wait_no_lookup_work answer s.refs s.mdi rest
    else some (refs, cdi, w :: rest)

/-- The outcome of `clear_comrades` and `d_release_merge`. -/
structure ReleaseResult where
  /-- The reference counts after the call. -/
  refs : Refs
  /-- The node after the call; `none` when `d_fsdata` is `NULL`. -/
  d_fsdata : Option hmdfs_dentry_info_merge
  /-- The comrades given to `kfree`. -/
  freed : List hmdfs_dentry_comrade
  /-- Whether the node was given to `kmem_cache_free`. -/
  node_freed : Bool
  /-- The works that have not completed when the call returns. -/
  pending : List merge_lookup_work

/-- The function `clear_comrades(dentry)` for a dentry with the node `cdi`,
while the works of the list complete; `none` when the wait does not end. -/
def clear_comrades (answer : merge_lookup_work → LookupOutcome) (refs : Refs)
    (cdi : hmdfs_dentry_info_merge) (works : List merge_lookup_work) :
    Option ReleaseResult :=
  match wait_no_lookup_work answer refs cdi works with
  | none => none
  | some (refs1, cdi1, pending) =>
    let r := clear_comrades_locked refs1 cdi1.comrade_list
    some ⟨r.refs, some { cdi1 with comrade_list := r.comrade_list }, r.freed, false, pending⟩

/-- The function `d_release_merge(dentry)`: `d_fsdata` is `none` when the
dentry or its `d_fsdata` is `NULL`. -/
def d_release_merge (answer : merge_lookup_work → LookupOutcome) (refs : Refs)
    (d_fsdata : Option hmdfs_dentry_info_merge) (works : List merge_lookup_work) :
    Option ReleaseResult :=
  match d_fsdata with
  | none => some ⟨refs, none, [], false, works⟩
  | some cdi =>
    match clear_comrades answer refs cdi works with
    | none => none
    | some r => some { r with d_fsdata := none, node_freed := true }

/-- The dentry for which `merge_lookup_comrade` constructs a comrade, if it
constructs one: the root and the name are found and the comrade is
allocated. -/
def lookup_dentry (out : LookupOutcome) : Option Dentry :=
  if out.root_err ≠ 0 then none
  else
    match out.lookup with
    | .error _ => none
    | .ok d => if out.alloc_ok then some d else none

/-- A node of kind directory with two pending works and a comrade of the
device 1. -/
def sampleNodePending : hmdfs_dentry_info_merge :=
  ⟨DT_DIR, 2, [⟨1, ⟨11, S_IFDIR⟩⟩]⟩

/-- The lookup of a work finds the directory 21. -/
def sampleFoundDir : LookupOutcome := ⟨0, .ok ⟨21, S_IFDIR⟩, true⟩

/-- The lookup of a work finds the regular file 31. -/
def sampleFoundReg : LookupOutcome := ⟨0, .ok ⟨31, S_IFREG⟩, true⟩

/-- The lookup of a work fails with `-ENOENT`. -/
def sampleNotFound : LookupOutcome := ⟨0, .error (-ENOENT), true⟩

/-! ## The flags word of a zram table entry -/

/-- The configuration on which the layout of the flags word depends, none
of which is among the sources: whether `CONFIG_ZRAM_GROUP` and
`CONFIG_ZRAM_GROUP_WRITEBACK` are set, `PAGE_SHIFT`, and the width of
`unsigned long`. -/
structure ZramConfig where
  /-- Whether `CONFIG_ZRAM_GROUP` is set. -/
  group : Bool
  /-- Whether `CONFIG_ZRAM_GROUP_WRITEBACK` is set. -/
  group_writeback : Bool
  /-- The value of `PAGE_SHIFT`. -/
  PAGE_SHIFT : Nat
  /-- The number of bits of `unsigned long`. -/
  BITS_PER_LONG : Nat

/-- The macro `ZRAM_SIZE_SHIFT` (with `CONFIG_ZRAM_GROUP`). -/
def ZRAM_SIZE_SHIFT : Nat := 24

/-- The macro `ZRAM_GRPID_SHIFT` (with `CONFIG_ZRAM_GROUP`). -/
def ZRAM_GRPID_SHIFT : Nat := 16

/-- The macro `ZRAM_FLAG_SHIFT`. -/
def ZRAM_FLAG_SHIFT (cfg : ZramConfig) : Nat :=
  if cfg.group then ZRAM_SIZE_SHIFT + ZRAM_GRPID_SHIFT else cfg.PAGE_SHIFT + 1

/-- The first enumerator of `enum zram_pageflags`. -/
def ZRAM_LOCK (cfg : ZramConfig) : Nat := ZRAM_FLAG_SHIFT cfg

/-- The last enumerator of `enum zram_pageflags`: nine page flags come
before it, eleven with `CONFIG_ZRAM_GROUP_WRITEBACK`. -/
def __NR_ZRAM_PAGEFLAGS (cfg : ZramConfig) : Nat :=
  ZRAM_FLAG_SHIFT cfg + (if cfg.group_writeback then 11 else 9)

/-- The shift that `zram_get_obj_size` and `zram_set_obj_size` use:
`ZRAM_SIZE_SHIFT` with `CONFIG_ZRAM_GROUP`, `ZRAM_FLAG_SHIFT` without. -/
def obj_size_shift (cfg : ZramConfig) : Nat :=
  if cfg.group then ZRAM_SIZE_SHIFT else ZRAM_FLAG_SHIFT cfg

/-- The macro `BIT(nr)`, `1UL << nr`, as an `unsigned long`. -/
def BIT (cfg : ZramConfig) (nr : Nat) : Nat := (1 <<< nr) % 2 ^ cfg.BITS_PER_LONG

/-- The record `struct zram_table_entry`, without `ac_time`. -/
structure zram_table_entry where
  /-- The member `handle` (or `element`). -/
  handle : Nat
  /-- The member `flags`. -/
  flags : Nat
deriving DecidableEq

/-- The function `zram_test_flag(zram, index, flag)` on `zram->table`. -/
def zram_test_flag (cfg : ZramConfig) (table : Nat → zram_table_entry) (index flag : Nat) :
    Bool :=
  (table index).flags &&& BIT cfg flag != 0

/-- The function `zram_set_flag(zram, index, flag)`: the table after the
call. -/
def zram_set_flag (cfg : ZramConfig) (table : Nat → zram_table_entry) (index flag : Nat) :
    Nat → zram_table_entry :=
  fun i => if i = index then { table index with flags := (table index).flags ||| BIT cfg flag }
    else table i

/-- The function `zram_clear_flag(zram, index, flag)`: the table after the
call; `~BIT(flag)` is the complement in `unsigned long`. -/
def zram_clear_flag (cfg : ZramConfig) (table : Nat → zram_table_entry) (index flag : Nat) :
    Nat → zram_table_entry :=
  fun i =>
    if i = index then
      { table index with
        flags := (table index).flags &&& ((2 ^ cfg.BITS_PER_LONG - 1) ^^^ BIT cfg flag) }
    else table i

/-- The function `zram_get_obj_size(zram, index)`: the subtraction
`BIT(shift) - 1` is that of `unsigned long`. -/
def zram_get_obj_size (cfg : ZramConfig) (table : Nat → zram_table_entry) (index : Nat) :
    Nat :=
  (table index).flags &&&
    ((BIT cfg (obj_size_shift cfg) + 2 ^ cfg.BITS_PER_LONG - 1) % 2 ^ cfg.BITS_PER_LONG)

/-- The function `zram_set_obj_size(zram, index, size)`: the table after
the call. -/
def zram_set_obj_size (cfg : ZramConfig) (table : Nat → zram_table_entry) (index size : Nat) :
    Nat → zram_table_entry :=
  fun i =>
    if i = index then
      let flags := (table index).flags >>> obj_size_shift cfg
      { table index with
        flags := ((flags <<< obj_size_shift cfg) % 2 ^ cfg.BITS_PER_LONG) ||| size }
    else table i

/-- A configuration without groups, with pages of 4096 bytes and 64 bit
words. -/
def sampleZramConfig : ZramConfig := ⟨false, false, 12, 64⟩

/-- A configuration with groups and group writeback, with pages of 4096
bytes and 64 bit words. -/
def sampleZramGroupConfig : ZramConfig := ⟨true, true, 12, 64⟩

/-- A table whose entries have the handle 7 and a flags word with the size
100, the flag `ZRAM_SAME` (bit 14 without groups) and the bit 45 set. -/
def sampleZramTable : Nat → zram_table_entry :=
  fun _ => ⟨7, 100 + 2 ^ 14 + 2 ^ 45⟩

/-- The answers of the backing store in the examples of release: the work
of the device 0 finds the directory 21, the other works find nothing. -/
def sampleReleaseAnswer (w : merge_lookup_work) : LookupOutcome :=
  if w.devid = 0 then sampleFoundDir else sampleNotFound

/-- Two works, of the devices 0 and 2, that are pending. -/
def samplePendingWorks : List merge_lookup_work :=
  [⟨0, "device_view/local/docs".toList, 0⟩, ⟨2, "device_view/cid2/docs".toList, 0⟩]

/-! ## Lemmas on C strings -/

theorem char_toNat_inj {a b : Char} (h : a.toNat = b.toNat) : a = b := by
  apply Char.ext
  apply UInt32.ext
  exact h

theorem strncmp_eq_zero_iff (t : List Char) (ht : NUL ∉ t) (s : List Char) :
    strncmp s t t.length = 0 ↔ t <+: s := by
  induction t generalizing s with
  | nil => simp [strncmp]
  | cons b t ih =>
    have hb : b ≠ NUL := fun h => ht (by simp [h])
    have ht2 : NUL ∉ t := fun h => ht (by simp [h])
    cases s with
    | nil =>
      simp only [List.length_cons, strncmp]
      constructor
      · intro h
        exfalso
        apply hb
        apply char_toNat_inj
        have : (b.toNat : Int) = 0 := by omega
        simpa [NUL] using this
      · intro h
        simp at h
    | cons a s =>
      simp only [List.length_cons, strncmp]
      by_cases hab : a = b
      · subst hab
        simp [ih ht2 s, List.cons_prefix_cons]
      · simp only [hab, if_false]
        constructor
        · intro h
          exfalso
          apply hab
          apply char_toNat_inj
          omega
        · intro h
          rw [List.cons_prefix_cons] at h
          exact absurd h.1.symm hab

theorem cstr_append_nul (a rest : List Char) (ha : NUL ∉ a) :
    cstr (a ++ NUL :: rest) = a := by
  induction a with
  | nil => simp [cstr, List.takeWhile]
  | cons c a ih =>
    have hc : c ≠ NUL := fun h => ha (by simp [h])
    have ha2 : NUL ∉ a := fun h => ha (by simp [h])
    have := ih ha2
    simp only [cstr] at this ⊢
    have hc2 : (c != NUL) = true := by simpa using hc
    simp [List.takeWhile_cons, hc2, this]

theorem memmove_cstr (name : List Char) (s d : Nat) (hsd : s ≤ d) (hd : d ≤ name.length)
    (hn : NUL ∉ name.take s ++ name.drop d) :
    cstr (memmove (kstrndup name name.length ++ [NUL]) s d (name.length - d + 1))
      = name.take s ++ name.drop d := by
  have h1 : kstrndup name name.length = name := by simp [kstrndup]
  rw [h1, memmove]
  have h2 : (name ++ [NUL]).take s = name.take s := by
    rw [List.take_append_of_le_length (by omega)]
  have h3 : ((name ++ [NUL]).drop d).take (name.length - d + 1) = name.drop d ++ [NUL] := by
    rw [List.drop_append_of_le_length hd]
    apply List.take_of_length_le
    simp
  rw [h2, h3]
  have := cstr_append_nul (name.take s ++ name.drop d)
    ((name ++ [NUL]).drop (s + (name.length - d + 1))) hn
  simpa using this

/-! ## The two scanning loops -/

theorem charAt_append_left (a b : List Char) (i : Nat) (h : i < a.length) :
    charAt (a ++ b) i = charAt a i := by
  simp [charAt, List.getElem?_append_left h]

theorem charAt_append_right (a b : List Char) (i : Nat) :
    charAt (a ++ b) (a.length + i) = charAt b i := by
  simp [charAt, List.getElem?_append_right]

theorem charAt_mem (name : List Char) (i : Nat) (h : i < name.length) :
    charAt name i ∈ name := by
  simp [charAt, List.getElem?_eq_getElem h]

theorem charAt_eq_nul (name : List Char) (i : Nat) (h : name.length ≤ i) :
    charAt name i = NUL := by
  simp [charAt, List.getElem?_eq_none h]

theorem last_dot_of_not_mem (name : List Char) (h : '.' ∉ name) (k : Nat) :
    last_dot name k = none := by
  induction k with
  | zero => rfl
  | succ k ih =>
    have hc : charAt name k ≠ '.' := by
      by_cases hk : k < name.length
      · intro he
        exact h (he ▸ charAt_mem name k hk)
      · rw [charAt_eq_nul name k (by omega)]
        decide
    simp [last_dot, hc, ih]

theorem last_dot_append_dot (a b : List Char) (h : '.' ∉ b) (k : Nat) :
    last_dot (a ++ '.' :: b) (a.length + 1 + k) = some a.length := by
  induction k with
  | zero =>
    have : charAt (a ++ '.' :: b) a.length = '.' := by
      have := charAt_append_right a ('.' :: b) 0
      simpa [charAt] using this
    simp [last_dot, this]
  | succ k ih =>
    have hc : charAt (a ++ '.' :: b) (a.length + 1 + k) ≠ '.' := by
      have e : charAt (a ++ '.' :: b) (a.length + 1 + k) = charAt b k := by
        have := charAt_append_right a ('.' :: b) (k + 1)
        rw [show a.length + 1 + k = a.length + (k + 1) by omega, this]
        simp [charAt]
      rw [e]
      by_cases hk : k < b.length
      · intro he
        exact h (he ▸ charAt_mem b k hk)
      · rw [charAt_eq_nul b k (by omega)]
        decide
    rw [show a.length + 1 + (k + 1) = (a.length + 1 + k) + 1 by omega]
    simp [last_dot, hc, ih]

theorem splitLastDot_none (name : List Char) (h : splitLastDot name = none) :
    '.' ∉ name := by
  induction name with
  | nil => simp
  | cons d ds ih =>
    simp only [splitLastDot] at h
    cases hs2 : splitLastDot ds with
    | some p => rw [hs2] at h; simp at h
    | none =>
      rw [hs2] at h
      by_cases hd : d = '.'
      · simp [hd] at h
      · simp only [List.mem_cons, not_or]
        exact ⟨fun e => hd e.symm, ih hs2⟩

theorem splitLastDot_some (name a b : List Char) (h : splitLastDot name = some (a, b)) :
    name = a ++ '.' :: b ∧ '.' ∉ b := by
  induction name generalizing a b with
  | nil => simp [splitLastDot] at h
  | cons c cs ih =>
    simp only [splitLastDot] at h
    cases hs : splitLastDot cs with
    | some p =>
      obtain ⟨a2, b2⟩ := p
      rw [hs] at h
      simp only [Option.some.injEq, Prod.mk.injEq] at h
      obtain ⟨rfl, rfl⟩ := h
      obtain ⟨h1, h2⟩ := ih a2 b2 hs
      exact ⟨by rw [h1]; simp, h2⟩
    | none =>
      rw [hs] at h
      by_cases hc : c = '.'
      · simp only [hc, if_true, Option.some.injEq, Prod.mk.injEq] at h
        obtain ⟨rfl, rfl⟩ := h
        refine ⟨by simp [hc], ?_⟩
        exact splitLastDot_none cs hs
      · simp [hc] at h

theorem stem_append_extension (name : List Char) : stem name ++ extension name = name := by
  unfold stem extension
  cases h : splitLastDot name with
  | none => simp
  | some p =>
    obtain ⟨a, b⟩ := p
    exact (splitLastDot_some name a b h).1.symm

theorem extension_cases (name : List Char) :
    (extension name = [] ∧ '.' ∉ name) ∨ (∃ b, extension name = '.' :: b ∧ '.' ∉ b) := by
  unfold extension
  cases h : splitLastDot name with
  | none => exact Or.inl ⟨rfl, splitLastDot_none name h⟩
  | some p =>
    obtain ⟨a, b⟩ := p
    exact Or.inr ⟨b, rfl, (splitLastDot_some name a b h).2⟩

theorem dot_pos_eq (name : List Char) : dot_pos name name.length = (stem name).length := by
  have hse := stem_append_extension name
  rcases extension_cases name with ⟨he, hn⟩ | ⟨b, he, hb⟩
  · rw [he] at hse
    simp only [List.append_nil] at hse
    rw [hse, dot_pos, last_dot_of_not_mem name hn]
    rfl
  · rw [he] at hse
    have hl : name.length = (stem name).length + 1 + b.length := by
      conv_lhs => rw [← hse]
      simp
      omega
    have := last_dot_append_dot (stem name) b hb b.length
    rw [hse, ← hl] at this
    rw [dot_pos, this]
    rfl

theorem beforeDigits_append_trailingDigits (a : List Char) :
    beforeDigits a ++ trailingDigits a = a := by
  unfold beforeDigits trailingDigits List.rdropWhile List.rtakeWhile
  rw [← List.reverse_append, List.takeWhile_append_dropWhile, List.reverse_reverse]

theorem num_len_run (name : List Char) (base n : Nat)
    (hd : ∀ i, i < n → isDigit (charAt name (base + i)) = true)
    (hb : base = 0 ∨ isDigit (charAt name (base - 1)) = false) :
    num_len name (base + n) = n := by
  induction n with
  | zero =>
    rcases hb with rfl | hb
    · rfl
    · cases base with
      | zero => rfl
      | succ b =>
        simp only [Nat.add_sub_cancel] at hb
        simp [num_len, hb]
  | succ n ih =>
    have h1 := hd n (by omega)
    have h2 := ih (fun i hi => hd i (by omega))
    rw [← Nat.add_assoc]
    simp [num_len, h1, h2]

theorem num_len_append (f t ext : List Char) (ht : ∀ c ∈ t, isDigit c = true)
    (hf : ∀ h : f ≠ [], ¬ isDigit (f.getLast h) = true) :
    num_len (f ++ t ++ ext) (f.length + t.length) = t.length := by
  apply num_len_run
  · intro i hi
    have e : charAt (f ++ t ++ ext) (f.length + i) = charAt t i := by
      rw [List.append_assoc, charAt_append_right, charAt_append_left _ _ _ hi]
    rw [e]
    exact ht _ (charAt_mem _ i hi)
  · by_cases h0 : f = []
    · left; simp [h0]
    · right
      have hpos : 0 < f.length := List.length_pos.mpr h0
      have e : charAt (f ++ t ++ ext) (f.length - 1) = f.getLast h0 := by
        rw [List.append_assoc, charAt_append_left _ _ _ (by omega)]
        rw [List.getLast_eq_getElem]
        simp [charAt, List.getElem?_eq_getElem (show f.length - 1 < f.length by omega)]
      rw [e]
      simpa using hf h0

theorem num_len_eq (a ext : List Char) :
    num_len (a ++ ext) a.length = (trailingDigits a).length := by
  have hsplit := beforeDigits_append_trailingDigits a
  have hlen : a.length = (beforeDigits a).length + (trailingDigits a).length := by
    conv_lhs => rw [← hsplit]
    simp
  have := num_len_append (beforeDigits a) (trailingDigits a) ext
    (fun c hc => List.mem_rtakeWhile_imp hc)
    (fun h => List.rdropWhile_last_not (p := isDigit) (l := a) h)
  rw [hsplit] at this
  rw [hlen]
  exact this

/-! ## The classifier in terms of the parts of a name -/

theorem isDigit_bounds (c : Char) (h : isDigit c = true) : 48 ≤ c.toNat ∧ c.toNat ≤ 57 := by
  simp only [isDigit, Bool.and_eq_true, decide_eq_true_eq] at h
  obtain ⟨h1, h2⟩ := h
  rw [Char.le_def] at h1 h2
  constructor
  · exact h1
  · exact h2

theorem wrap32_step (v : Int) (c : Int) :
    wrap32 (wrap32 v * 10 + c - 48) = wrap32 (v * 10 + c - 48) := by
  unfold wrap32
  norm_num
  omega

theorem decimalValue_concat (ds : List Char) (c : Char) :
    decimalValue (ds ++ [c]) = decimalValue ds * 10 + (c.toNat - 48) := by
  simp [decimalValue, List.foldl_append]

theorem dev_id_loop_eq (f t ext : List Char) (ht : ∀ c ∈ t, isDigit c = true) (i : Nat)
    (hi : i ≤ t.length) :
    dev_id_loop (f ++ t ++ ext) f.length i = wrap32 (decimalValue (t.take i)) := by
  induction i with
  | zero => simp [dev_id_loop, decimalValue, wrap32]
  | succ i ih =>
    have hlt : i < t.length := by omega
    have e : charAt (f ++ t ++ ext) (f.length + i) = t[i] := by
      rw [List.append_assoc, charAt_append_right, charAt_append_left _ _ _ hlt]
      simp [charAt, List.getElem?_eq_getElem hlt]
    have hd := isDigit_bounds _ (ht _ (List.getElem_mem hlt))
    have htake : t.take (i + 1) = t.take i ++ [t[i]] := by
      rw [List.take_succ, List.getElem?_eq_getElem hlt]
      rfl
    rw [dev_id_loop, ih (by omega), e, htake, decimalValue_concat]
    have h0 : (('0').toNat : Int) = 48 := by decide
    rw [h0, wrap32_step]
    congr 1
    push_cast
    omega

theorem prefix_append_same_length (s x y : List Char) (h : s.length = x.length) :
    s <+: x ++ y ↔ s = x := by
  constructor
  · intro hp
    have := List.prefix_iff_eq_take.mp hp
    rw [h, List.take_left] at this
    exact this
  · intro hs
    subst hs
    exact List.prefix_append _ _

theorem dir_test_iff (m : Markers) (name : List Char) :
    (name.length ≥ m.CONFLICTING_DIR_SUFFIX.length ∧
      strncmp (name.drop (name.length - m.CONFLICTING_DIR_SUFFIX.length))
        m.CONFLICTING_DIR_SUFFIX m.CONFLICTING_DIR_SUFFIX.length = 0)
      ↔ m.CONFLICTING_DIR_SUFFIX <:+ name := by
  rw [strncmp_eq_zero_iff _ m.dir_no_nul]
  constructor
  · rintro ⟨hl, hp⟩
    have := (prefix_append_same_length m.CONFLICTING_DIR_SUFFIX
      (name.drop (name.length - m.CONFLICTING_DIR_SUFFIX.length)) [] (by simp; omega)).mp
      (by simpa using hp)
    rw [List.suffix_iff_eq_drop]
    exact this
  · intro hs
    have hl := hs.length_le
    refine ⟨hl, ?_⟩
    rw [← List.suffix_iff_eq_drop.mp hs]

theorem file_test_iff (m : Markers) (f rest : List Char)
    (hl : m.CONFLICTING_FILE_CONST_SUFFIX.length ≤ f.length) :
    strncmp ((f ++ rest).drop (f.length - m.CONFLICTING_FILE_CONST_SUFFIX.length))
        m.CONFLICTING_FILE_CONST_SUFFIX m.CONFLICTING_FILE_CONST_SUFFIX.length = 0
      ↔ m.CONFLICTING_FILE_CONST_SUFFIX <:+ f := by
  rw [strncmp_eq_zero_iff _ m.file_no_nul]
  rw [List.drop_append_of_le_length (by omega)]
  rw [prefix_append_same_length _ _ _ (by simp; omega)]
  rw [List.suffix_iff_eq_drop]

/-- The classifier in terms of the parts of the name: the text before the
trailing digit run of the stem decides. -/
theorem check_filename_eq (m : Markers) (name : List Char) :
    check_filename m name name.length =
      if m.CONFLICTING_DIR_SUFFIX <:+ name then some DT_DIR
      else if name.length < m.CONFLICTING_FILE_CONST_SUFFIX.length then some 0
      else if (beforeDigits (stem name)).length < m.CONFLICTING_FILE_CONST_SUFFIX.length
        then none
      else if m.CONFLICTING_FILE_CONST_SUFFIX <:+ beforeDigits (stem name) then some DT_REG
      else some 0 := by
  have hse := stem_append_extension name
  have hft := beforeDigits_append_trailingDigits (stem name)
  have hdot := dot_pos_eq name
  have hnum : num_len name (stem name).length = (trailingDigits (stem name)).length := by
    have := num_len_eq (stem name) (extension name)
    rwa [hse] at this
  have hlen : (stem name).length
      = (beforeDigits (stem name)).length + (trailingDigits (stem name)).length := by
    conv_lhs => rw [← hft]
    simp
  unfold check_filename
  simp only [dir_test_iff, hdot, hnum]
  by_cases hd : m.CONFLICTING_DIR_SUFFIX <:+ name
  · simp [hd]
  · simp only [hd, if_false]
    by_cases hl : name.length < m.CONFLICTING_FILE_CONST_SUFFIX.length
    · simp [hl, Nat.not_le.mpr hl]
    · have hl2 : name.length ≥ m.CONFLICTING_FILE_CONST_SUFFIX.length := by omega
      simp only [hl, hl2, if_true, if_false]
      by_cases hf : (beforeDigits (stem name)).length < m.CONFLICTING_FILE_CONST_SUFFIX.length
      · have : ((stem name).length : Int) - ((trailingDigits (stem name)).length : Int)
            - (m.CONFLICTING_FILE_CONST_SUFFIX.length : Int) < 0 := by omega
        simp [this, hf]
      · have h1 : ¬ (((stem name).length : Int) - ((trailingDigits (stem name)).length : Int)
            - (m.CONFLICTING_FILE_CONST_SUFFIX.length : Int) < 0) := by omega
        have h2 : (((stem name).length : Int) - ((trailingDigits (stem name)).length : Int)
            - (m.CONFLICTING_FILE_CONST_SUFFIX.length : Int)).toNat
            = (beforeDigits (stem name)).length - m.CONFLICTING_FILE_CONST_SUFFIX.length := by
          omega
        have h3 := file_test_iff m (beforeDigits (stem name))
          (trailingDigits (stem name) ++ extension name) (by omega)
        rw [← List.append_assoc, hft, hse] at h3
        simp only [h1, hf, if_false, h2, h3]

/-! ## The decoder of regular-file conflict names -/

theorem conf_name_trans_reg_eq (m : Markers) (name pre : List Char) (hn : NUL ∉ name)
    (hpre : beforeDigits (stem name) = pre ++ m.CONFLICTING_FILE_CONST_SUFFIX) :
    conf_name_trans_reg m name
      = some (pre ++ extension name, wrap32 (decimalValue (trailingDigits (stem name)))) := by
  have hse := stem_append_extension name
  have hft := beforeDigits_append_trailingDigits (stem name)
  have hdot := dot_pos_eq name
  have hnum : num_len name (stem name).length = (trailingDigits (stem name)).length := by
    have := num_len_eq (stem name) (extension name)
    rwa [hse] at this
  have hlen : (stem name).length
      = (beforeDigits (stem name)).length + (trailingDigits (stem name)).length := by
    conv_lhs => rw [← hft]
    simp
  have hflen : (beforeDigits (stem name)).length
      = pre.length + m.CONFLICTING_FILE_CONST_SUFFIX.length := by
    rw [hpre]; simp
  have hname : name = pre ++ m.CONFLICTING_FILE_CONST_SUFFIX ++ trailingDigits (stem name)
      ++ extension name := by
    rw [← hpre, hft, hse]
  have hslen : (stem name).length ≤ name.length := by
    conv_rhs => rw [← hse]
    simp
  unfold conf_name_trans_reg
  simp only [hdot, hnum]
  have h1 : ¬ (((stem name).length : Int) - ((trailingDigits (stem name)).length : Int)
      - (m.CONFLICTING_FILE_CONST_SUFFIX.length : Int) < 0) := by omega
  have h2 : (((stem name).length : Int) - ((trailingDigits (stem name)).length : Int)
      - (m.CONFLICTING_FILE_CONST_SUFFIX.length : Int)).toNat = pre.length := by omega
  have h3 : (stem name).length - (trailingDigits (stem name)).length
      = (beforeDigits (stem name)).length := by omega
  have htake : name.take pre.length = pre := by
    conv_lhs => rw [hname]
    simp [List.append_assoc]
  have hdrop : name.drop (stem name).length = extension name := by
    have := List.drop_left (stem name) (extension name)
    rwa [hse] at this
  have hdev : dev_id_loop name (beforeDigits (stem name)).length
      (trailingDigits (stem name)).length
      = wrap32 (decimalValue (trailingDigits (stem name))) := by
    have := dev_id_loop_eq (beforeDigits (stem name)) (trailingDigits (stem name))
      (extension name) (fun c hc => List.mem_rtakeWhile_imp hc)
      (trailingDigits (stem name)).length (le_refl _)
    rw [hft, hse, List.take_length] at this
    exact this
  have hmem : NUL ∉ name.take pre.length ++ name.drop (stem name).length := by
    intro h
    rcases List.mem_append.mp h with h | h
    · exact hn (List.mem_of_mem_take h)
    · exact hn (List.mem_of_mem_drop h)
  have hmm := memmove_cstr name pre.length (stem name).length (by omega) hslen hmem
  simp only [h1, if_false, h2, h3, hdev, hmm, htake, hdrop]

theorem beforeDigits_append (x t : List Char) (ht : ∀ c ∈ t, isDigit c = true)
    (hx : ∀ h : x ≠ [], ¬ isDigit (x.getLast h) = true) :
    beforeDigits (x ++ t) = x ∧ trailingDigits (x ++ t) = t := by
  induction t using List.reverseRecOn with
  | nil =>
    simp only [List.append_nil, beforeDigits, trailingDigits]
    exact ⟨List.rdropWhile_eq_self_iff.mpr hx, List.rtakeWhile_eq_nil_iff.mpr hx⟩
  | append_singleton t c ih =>
    have hc : isDigit c = true := ht c (by simp)
    obtain ⟨h1, h2⟩ := ih (fun d hd => ht d (by simp [hd]))
    simp only [beforeDigits, trailingDigits] at h1 h2 ⊢
    rw [← List.append_assoc, List.rdropWhile_concat_pos _ _ _ hc,
      List.rtakeWhile_concat_pos _ _ _ hc, h1, h2]
    exact ⟨rfl, rfl⟩

theorem splitLastDot_of_not_mem (x : List Char) (h : '.' ∉ x) : splitLastDot x = none := by
  cases hs : splitLastDot x with
  | none => rfl
  | some p =>
    obtain ⟨a, b⟩ := p
    have := (splitLastDot_some x a b hs).1
    exact absurd (by rw [this]; simp) h

theorem splitLastDot_append_dot (a b : List Char) (h : '.' ∉ b) :
    splitLastDot (a ++ '.' :: b) = some (a, b) := by
  induction a with
  | nil => simp [splitLastDot, splitLastDot_of_not_mem b h]
  | cons c a ih => simp [splitLastDot, ih]

/-! ## The decimal device-id segment -/

theorem digitChar_isDigit (d : Nat) (h : d < 10) : isDigit (digitChar d) = true := by
  interval_cases d <;> decide

theorem digitChar_toNat (d : Nat) (h : d < 10) : (digitChar d).toNat - 48 = d := by
  interval_cases d <;> decide

theorem decimalAux_digits (fuel n : Nat) : ∀ c ∈ decimalAux fuel n, isDigit c = true := by
  induction fuel generalizing n with
  | zero => simp [decimalAux]
  | succ fuel ih =>
    intro c hc
    simp only [decimalAux] at hc
    split at hc
    · simp only [List.mem_singleton] at hc
      rw [hc]
      exact digitChar_isDigit n (by assumption)
    · rcases List.mem_append.mp hc with h | h
      · exact ih _ c h
      · simp only [List.mem_singleton] at h
        rw [h]
        exact digitChar_isDigit _ (Nat.mod_lt _ (by decide))

theorem decimalAux_value (fuel n : Nat) (h : n < fuel) :
    decimalValue (decimalAux fuel n) = n := by
  induction fuel generalizing n with
  | zero => omega
  | succ fuel ih =>
    simp only [decimalAux]
    split
    · rename_i hlt
      simp [decimalValue, digitChar_toNat n hlt]
    · rename_i hge
      rw [decimalValue_concat, ih (n / 10) (by omega), digitChar_toNat _ (Nat.mod_lt _ (by decide))]
      omega

theorem decimal_digits (n : Nat) : ∀ c ∈ decimal n, isDigit c = true :=
  decimalAux_digits (n + 1) n

theorem decimal_value (n : Nat) : decimalValue (decimal n) = n :=
  decimalAux_value (n + 1) n (by omega)

theorem isDigit_ne_dot (c : Char) (h : isDigit c = true) : c ≠ '.' := by
  intro hc
  rw [hc] at h
  exact absurd h (by decide)

theorem wrap32_of_lt (n : Nat) (h : n < 2 ^ 31) : wrap32 (n : Int) = n := by
  unfold wrap32
  norm_num at h ⊢
  omega

/-! ## The codec claims -/

theorem get_real_dname_dir (m : Markers) (name : List Char) (devid0 : Int) :
    hmdfs_get_real_dname m (encode_dir m name) devid0 = some ⟨name, devid0, DT_DIR⟩ := by
  have hs : m.CONFLICTING_DIR_SUFFIX <:+ encode_dir m name := List.suffix_append _ _
  have h1 := check_filename_eq m (encode_dir m name)
  rw [if_pos hs] at h1
  unfold hmdfs_get_real_dname
  rw [h1]
  simp [DT_DIR, DT_REG, conf_name_trans_dir, kstrndup, encode_dir]

theorem stem_extension_of_none (x : List Char) (h : splitLastDot x = none) :
    stem x = x ∧ extension x = [] := by
  simp [stem, extension, h]

theorem stem_extension_of_some (x a b : List Char) (h : splitLastDot x = some (a, b)) :
    stem x = a ∧ extension x = '.' :: b := by
  simp [stem, extension, h]

theorem stem_extension_encode_reg (m : Markers) (name : List Char) (id : Nat)
    (hdot : '.' ∉ m.CONFLICTING_FILE_CONST_SUFFIX) :
    stem (encode_reg m name id) = stem name ++ m.CONFLICTING_FILE_CONST_SUFFIX ++ decimal id ∧
    extension (encode_reg m name id) = extension name := by
  have hdec : '.' ∉ decimal id := fun h => isDigit_ne_dot _ (decimal_digits id _ h) rfl
  rcases extension_cases name with ⟨he, hn⟩ | ⟨b, he, hb⟩
  · have hst : stem name = name := by
      have := stem_append_extension name
      rwa [he, List.append_nil] at this
    have e : encode_reg m name id
        = name ++ m.CONFLICTING_FILE_CONST_SUFFIX ++ decimal id := by
      simp [encode_reg, he, hst]
    have hnd : '.' ∉ encode_reg m name id := by
      rw [e]
      simp only [List.mem_append, not_or]
      exact ⟨⟨hn, hdot⟩, hdec⟩
    obtain ⟨h1, h2⟩ := stem_extension_of_none _ (splitLastDot_of_not_mem _ hnd)
    rw [h1, h2, he, hst, e]
    exact ⟨rfl, rfl⟩
  · have e : encode_reg m name id
        = (stem name ++ m.CONFLICTING_FILE_CONST_SUFFIX ++ decimal id) ++ '.' :: b := by
      simp [encode_reg, he]
    have := splitLastDot_append_dot
      (stem name ++ m.CONFLICTING_FILE_CONST_SUFFIX ++ decimal id) b hb
    rw [← e] at this
    obtain ⟨h1, h2⟩ := stem_extension_of_some _ _ _ this
    rw [h1, h2, he]
    exact ⟨rfl, rfl⟩

theorem get_real_dname_reg (m : Markers) (name : List Char) (id : Nat) (devid0 : Int)
    (hn : NUL ∉ name) (hid : id < 2 ^ 31)
    (hdot : '.' ∉ m.CONFLICTING_FILE_CONST_SUFFIX)
    (hlast : ∃ c, m.CONFLICTING_FILE_CONST_SUFFIX.getLast? = some c ∧ isDigit c = false)
    (hnd : ¬ m.CONFLICTING_DIR_SUFFIX <:+ encode_reg m name id) :
    hmdfs_get_real_dname m (encode_reg m name id) devid0 = some ⟨name, id, DT_REG⟩ := by
  obtain ⟨hst, hex⟩ := stem_extension_encode_reg m name id hdot
  obtain ⟨c, hc1, hc2⟩ := hlast
  have hne : m.CONFLICTING_FILE_CONST_SUFFIX ≠ [] := by
    intro h; rw [h] at hc1; simp at hc1
  have hx : ∀ h : stem name ++ m.CONFLICTING_FILE_CONST_SUFFIX ≠ [],
      ¬ isDigit ((stem name ++ m.CONFLICTING_FILE_CONST_SUFFIX).getLast h) = true := by
    intro h
    rw [List.getLast_append_of_ne_nil hne]
    have : m.CONFLICTING_FILE_CONST_SUFFIX.getLast hne = c := by
      have := List.getLast?_eq_getLast _ hne
      rw [this] at hc1
      exact Option.some.inj hc1
    rw [this, hc2]
    simp
  obtain ⟨hb, ht⟩ := beforeDigits_append (stem name ++ m.CONFLICTING_FILE_CONST_SUFFIX)
    (decimal id) (decimal_digits id) hx
  rw [← hst] at hb ht
  have hcf := check_filename_eq m (encode_reg m name id)
  have hlen : ¬ (encode_reg m name id).length < m.CONFLICTING_FILE_CONST_SUFFIX.length := by
    simp [encode_reg]; omega
  have hfl : ¬ (beforeDigits (stem (encode_reg m name id))).length
      < m.CONFLICTING_FILE_CONST_SUFFIX.length := by
    rw [hb]; simp
  have hsuf : m.CONFLICTING_FILE_CONST_SUFFIX <:+ beforeDigits (stem (encode_reg m name id)) := by
    rw [hb]; exact List.suffix_append _ _
  rw [if_neg hnd, if_neg hlen, if_neg hfl, if_pos hsuf] at hcf
  have hnul : NUL ∉ encode_reg m name id := by
    have hdn : NUL ∉ decimal id := fun h => by
      have := decimal_digits id _ h
      exact absurd this (by decide)
    have h1 : NUL ∉ stem name := fun h => hn (by
      rw [← stem_append_extension name]; exact List.mem_append_left _ h)
    have h2 : NUL ∉ extension name := fun h => hn (by
      rw [← stem_append_extension name]; exact List.mem_append_right _ h)
    simp only [encode_reg, List.mem_append, not_or]
    exact ⟨⟨⟨h1, m.file_no_nul⟩, hdn⟩, h2⟩
  have htr := conf_name_trans_reg_eq m (encode_reg m name id) (stem name) hnul hb
  rw [ht, hex, stem_append_extension, decimal_value, wrap32_of_lt id hid] at htr
  unfold hmdfs_get_real_dname
  rw [hcf]
  simp [htr]

/-- C1 (as amended): for a directory, decoding the encoded name with
`check_filename` and `hmdfs_get_real_dname` returns the real name and the
kind directory, and `*devid` keeps the value `devid0` it had before the
call, the device id not being part of the name; for a regular file,
decoding the encoded name returns the real name, the kind regular and the
device id, provided the id is below 2^31, the file marker has no `.` and
ends in a non-digit, and the encoded name does not end with the directory
marker. -/
theorem conflict_codec_round_trip (m : Markers) (name : List Char) (id kind : Nat)
    (devid0 : Int) (hkind : kind = DT_DIR ∨ kind = DT_REG) (hn : NUL ∉ name)
    (hreg : kind = DT_REG →
      id < 2 ^ 31 ∧ '.' ∉ m.CONFLICTING_FILE_CONST_SUFFIX ∧
      (∃ c, m.CONFLICTING_FILE_CONST_SUFFIX.getLast? = some c ∧ isDigit c = false) ∧
      ¬ m.CONFLICTING_DIR_SUFFIX <:+ encode m name id kind) :
    hmdfs_get_real_dname m (encode m name id kind) devid0
      = some ⟨name, if kind = DT_REG then (id : Int) else devid0, kind⟩ := by
  rcases hkind with rfl | rfl
  · simp only [encode, if_true]
    rw [get_real_dname_dir]
    simp [DT_DIR, DT_REG]
  · obtain ⟨h1, h2, h3, h4⟩ := hreg rfl
    have e : encode m name id DT_REG = encode_reg m name id := by
      simp [encode, DT_DIR, DT_REG]
    rw [e] at h4 ⊢
    rw [get_real_dname_reg m name id devid0 hn h1 h2 h3 h4]
    simp

/-- Witness of C1: the regular file `file123.txt` of device 4 is encoded as
`file123_conflict_dev4.txt` and decoded back. -/
theorem conflict_codec_round_trip_witness :
    (DT_REG = DT_DIR ∨ DT_REG = DT_REG) ∧ NUL ∉ "file123.txt".toList ∧
    encode sampleMarkers "file123.txt".toList 4 DT_REG = "file123_conflict_dev4.txt".toList ∧
    hmdfs_get_real_dname sampleMarkers (encode sampleMarkers "file123.txt".toList 4 DT_REG) (-1)
      = some ⟨"file123.txt".toList, 4, DT_REG⟩ :=
  ⟨Or.inr rfl, by decide, by decide,
    conflict_codec_round_trip sampleMarkers "file123.txt".toList 4 DT_REG (-1) (Or.inr rfl)
      (by decide)
      (fun _ => ⟨by decide, by decide, ⟨'v', by decide, by decide⟩, by decide⟩)⟩

set_option maxRecDepth 20000 in
/-- Counterexample to C1 as stated: the valid regular file name
`a.b_remote_directory` of device 3 is decoded as a directory named
`a_conflict_dev3.b`; the directory `docs` of device 5 is decoded with the
device id left at the caller's -1; and the device id 2^32 of the regular file
`a` is decoded as 0. -/
theorem conflict_codec_round_trip_counterexample :
    ("a.b_remote_directory".toList ≠ [] ∧ '/' ∉ "a.b_remote_directory".toList ∧
      hmdfs_get_real_dname sampleMarkers
        (encode sampleMarkers "a.b_remote_directory".toList 3 DT_REG) (-1)
        = some ⟨"a_conflict_dev3.b".toList, -1, DT_DIR⟩) ∧
    hmdfs_get_real_dname sampleMarkers (encode sampleMarkers "docs".toList 5 DT_DIR) (-1)
      = some ⟨"docs".toList, -1, DT_DIR⟩ ∧
    hmdfs_get_real_dname sampleMarkers (encode sampleMarkers "a".toList 4294967296 DT_REG) (-1)
      = some ⟨"a".toList, 0, DT_REG⟩ := by
  refine ⟨⟨by decide, by decide, by decide⟩, by decide, by decide⟩

/-- C2 (as amended): a name that carries no recognized conflict suffix (it
does not end with the directory marker, and the file marker does not end the
text before the trailing digit run of the stem) is classified as "no
conflict" whenever the file-marker comparison starts inside the name (the
name is shorter than the marker, or the text before the digit run is at
least as long as the marker): `check_filename` returns 0 and
`hmdfs_get_real_dname` returns the name unchanged with type 0, and it leaves
`*devid` at the value `devid0` it had before the call. -/
theorem no_conflict_suffix (m : Markers) (name : List Char) (devid0 : Int)
    (hdir : ¬ m.CONFLICTING_DIR_SUFFIX <:+ name)
    (hfile : ¬ m.CONFLICTING_FILE_CONST_SUFFIX <:+ beforeDigits (stem name))
    (hin : name.length < m.CONFLICTING_FILE_CONST_SUFFIX.length ∨
      m.CONFLICTING_FILE_CONST_SUFFIX.length ≤ (beforeDigits (stem name)).length) :
    check_filename m name name.length = some 0 ∧
    hmdfs_get_real_dname m name devid0 = some ⟨name, devid0, DT_UNKNOWN⟩ := by
  have hcf : check_filename m name name.length = some 0 := by
    rw [check_filename_eq, if_neg hdir]
    by_cases hl : name.length < m.CONFLICTING_FILE_CONST_SUFFIX.length
    · rw [if_pos hl]
    · rw [if_neg hl]
      have : ¬ (beforeDigits (stem name)).length < m.CONFLICTING_FILE_CONST_SUFFIX.length := by
        rcases hin with h | h
        · exact absurd h hl
        · omega
      rw [if_neg this, if_neg hfile]
  refine ⟨hcf, ?_⟩
  unfold hmdfs_get_real_dname
  rw [hcf]
  simp [DT_REG, DT_DIR, DT_UNKNOWN, conf_name_trans_nop, kstrndup]

/-- Witness of C2: the name `notes.txt`. -/
theorem no_conflict_suffix_witness :
    (¬ sampleMarkers.CONFLICTING_DIR_SUFFIX <:+ "notes.txt".toList) ∧
    (¬ sampleMarkers.CONFLICTING_FILE_CONST_SUFFIX <:+ beforeDigits (stem "notes.txt".toList)) ∧
    check_filename sampleMarkers "notes.txt".toList "notes.txt".toList.length = some 0 ∧
    hmdfs_get_real_dname sampleMarkers "notes.txt".toList (-1)
      = some ⟨"notes.txt".toList, -1, DT_UNKNOWN⟩ :=
  ⟨by decide, by decide,
    no_conflict_suffix sampleMarkers "notes.txt".toList (-1) (by decide) (by decide)
      (Or.inl (by decide))⟩

/-- Counterexample to C2 as stated: the name `abc` carries no conflict
suffix and `lookup_merge_normal` calls the decoder with `devid = -1`; the
decoded device id is then -1, not the local device id 0. And the name made of
thirteen zeros carries no conflict suffix, but the file-marker comparison of
`check_filename` starts 13 characters before the name. -/
theorem no_conflict_suffix_counterexample :
    ((¬ sampleMarkers.CONFLICTING_DIR_SUFFIX <:+ "abc".toList) ∧
      (¬ sampleMarkers.CONFLICTING_FILE_CONST_SUFFIX <:+ beforeDigits (stem "abc".toList)) ∧
      (hmdfs_get_real_dname sampleMarkers "abc".toList (-1)).map (fun r => r.devid) = some (-1) ∧
      (hmdfs_get_real_dname sampleMarkers "abc".toList (-1)).map (fun r => r.devid)
        ≠ some (HMDFS_DEVID_LOCAL : Int)) ∧
    ((¬ sampleMarkers.CONFLICTING_DIR_SUFFIX <:+ "0000000000000".toList) ∧
      (¬ sampleMarkers.CONFLICTING_FILE_CONST_SUFFIX
        <:+ beforeDigits (stem "0000000000000".toList)) ∧
      check_filename sampleMarkers "0000000000000".toList 13 = none) := by
  refine ⟨⟨by decide, by decide, by decide, by decide⟩, by decide, by decide, by decide⟩

/-- C3 (as amended): a name classified as a conflicting regular file has the
shape `pre ++ marker ++ digits ++ ext`, where `digits` is the maximal digit
run before the extension `ext` (the text in front of it does not end in a
digit); the decoder returns the real name `pre ++ ext` and the device id is
the decimal value of `digits` reduced to the range of a 32 bit `int`, which
is the decimal value itself when that is below 2^31. -/
theorem conf_reg_decoding (m : Markers) (name : List Char) (devid0 : Int) (hn : NUL ∉ name)
    (h : check_filename m name name.length = some DT_REG) :
    ∃ pre digits ext,
      name = pre ++ m.CONFLICTING_FILE_CONST_SUFFIX ++ digits ++ ext ∧
      (∀ c ∈ digits, isDigit c = true) ∧
      (∀ hne : pre ++ m.CONFLICTING_FILE_CONST_SUFFIX ≠ [],
        isDigit ((pre ++ m.CONFLICTING_FILE_CONST_SUFFIX).getLast hne) = false) ∧
      ext = extension name ∧
      hmdfs_get_real_dname m name devid0
        = some ⟨pre ++ ext, wrap32 (decimalValue digits), DT_REG⟩ ∧
      (decimalValue digits < 2 ^ 31 →
        hmdfs_get_real_dname m name devid0 = some ⟨pre ++ ext, decimalValue digits, DT_REG⟩) := by
  have hcf := check_filename_eq m name
  rw [h] at hcf
  have hsuf : m.CONFLICTING_FILE_CONST_SUFFIX <:+ beforeDigits (stem name) := by
    by_contra hns
    split at hcf
    · simp [DT_REG, DT_DIR] at hcf
    · split at hcf
      · simp [DT_REG] at hcf
      · split at hcf
        · simp at hcf
        · simp [DT_REG] at hcf
  obtain ⟨pre, hpre⟩ := hsuf
  have hpre2 : beforeDigits (stem name) = pre ++ m.CONFLICTING_FILE_CONST_SUFFIX := hpre.symm
  have htr := conf_name_trans_reg_eq m name pre hn hpre2
  have hres : hmdfs_get_real_dname m name devid0
      = some ⟨pre ++ extension name, wrap32 (decimalValue (trailingDigits (stem name))),
          DT_REG⟩ := by
    unfold hmdfs_get_real_dname
    rw [h]
    simp [htr]
  refine ⟨pre, trailingDigits (stem name), extension name, ?_, ?_, ?_, rfl, hres, ?_⟩
  · rw [← hpre2, beforeDigits_append_trailingDigits, stem_append_extension]
  · intro c hc
    exact List.mem_rtakeWhile_imp hc
  · intro hne
    have := List.rdropWhile_last_not (p := isDigit) (l := stem name)
      (by rw [show List.rdropWhile isDigit (stem name) = beforeDigits (stem name) from rfl,
        hpre2]; exact hne)
    simp only [show List.rdropWhile isDigit (stem name) = beforeDigits (stem name) from rfl,
      hpre2] at this
    simpa using this
  · intro hlt
    rw [hres, wrap32_of_lt _ hlt]

/-- Witness of C3: `file123_conflict_dev4.txt` decodes to the real name
`file123.txt` and the device id 4. -/
theorem conf_reg_decoding_witness :
    (NUL ∉ "file123_conflict_dev4.txt".toList ∧
      check_filename sampleMarkers "file123_conflict_dev4.txt".toList
        "file123_conflict_dev4.txt".toList.length = some DT_REG) ∧
    (∃ pre digits ext,
      "file123_conflict_dev4.txt".toList
        = pre ++ sampleMarkers.CONFLICTING_FILE_CONST_SUFFIX ++ digits ++ ext ∧
      (∀ c ∈ digits, isDigit c = true) ∧
      (∀ hne : pre ++ sampleMarkers.CONFLICTING_FILE_CONST_SUFFIX ≠ [],
        isDigit ((pre ++ sampleMarkers.CONFLICTING_FILE_CONST_SUFFIX).getLast hne) = false) ∧
      ext = extension "file123_conflict_dev4.txt".toList ∧
      hmdfs_get_real_dname sampleMarkers "file123_conflict_dev4.txt".toList (-1)
        = some ⟨pre ++ ext, wrap32 (decimalValue digits), DT_REG⟩ ∧
      (decimalValue digits < 2 ^ 31 →
        hmdfs_get_real_dname sampleMarkers "file123_conflict_dev4.txt".toList (-1)
          = some ⟨pre ++ ext, decimalValue digits, DT_REG⟩)) ∧
    hmdfs_get_real_dname sampleMarkers "file123_conflict_dev4.txt".toList (-1)
      = some ⟨"file123.txt".toList, 4, DT_REG⟩ :=
  ⟨⟨by decide, by decide⟩,
    conf_reg_decoding sampleMarkers "file123_conflict_dev4.txt".toList (-1) (by decide)
      (by decide),
    by decide⟩

set_option maxRecDepth 20000 in
/-- Counterexample to C3 as stated: `a_conflict_dev4294967296` is classified
as a conflicting regular file, its digit run has the decimal value 2^32, and
the decoded device id is 0. -/
theorem conf_reg_decoding_counterexample :
    check_filename sampleMarkers "a_conflict_dev4294967296".toList 24 = some DT_REG ∧
    trailingDigits (stem "a_conflict_dev4294967296".toList) = "4294967296".toList ∧
    decimalValue "4294967296".toList = 4294967296 ∧
    hmdfs_get_real_dname sampleMarkers "a_conflict_dev4294967296".toList (-1)
      = some ⟨"a".toList, 0, DT_REG⟩ := by
  refine ⟨by decide, by decide, by decide, by decide⟩

/-! ## The comrade registry claims -/

/-- C4: the acceptance rule of `is_valid_comrade`. With the kind unset the
comrade is accepted and the kind becomes the comrade's kind; with the kind
set it is left unchanged, a directory comrade is accepted iff the kind is
directory, a non-directory comrade is accepted iff the kind is regular and
the comrade list is empty. The list and the work counter are never changed. -/
theorem is_valid_comrade_rule (mdi : hmdfs_dentry_info_merge) (mode : Nat) :
    (mdi.type = DT_UNKNOWN →
      (is_valid_comrade mdi mode).2 = true ∧
      (is_valid_comrade mdi mode).1.type = (if S_ISDIR mode then DT_DIR else DT_REG)) ∧
    (mdi.type ≠ DT_UNKNOWN →
      (is_valid_comrade mdi mode).1.type = mdi.type ∧
      (S_ISDIR mode = true → ((is_valid_comrade mdi mode).2 = true ↔ mdi.type = DT_DIR)) ∧
      (S_ISDIR mode = false →
        ((is_valid_comrade mdi mode).2 = true ↔
          (mdi.type = DT_REG ∧ mdi.comrade_list = [])))) ∧
    (is_valid_comrade mdi mode).1.comrade_list = mdi.comrade_list ∧
    (is_valid_comrade mdi mode).1.work_count = mdi.work_count := by
  unfold is_valid_comrade
  refine ⟨?_, ?_, ?_, ?_⟩
  · intro h
    simp [h]
  · intro h
    simp only [h, if_false]
    refine ⟨?_, ?_, ?_⟩
    · split_ifs <;> rfl
    · intro hd
      by_cases ht : mdi.type = DT_DIR
      · simp [ht, hd]
      · simp [ht, hd]
    · intro hd
      by_cases ht : mdi.type = DT_REG
      · by_cases hl : mdi.comrade_list = []
        · simp [ht, hd, hl, DT_REG, DT_DIR]
        · simp [ht, hd, hl, DT_REG, DT_DIR]
      · simp [ht, hd]
  · split_ifs <;> rfl
  · split_ifs <;> rfl

theorem redundant_comrade_iff (dev_id : Int) (head : List hmdfs_dentry_comrade) :
    redundant_comrade dev_id head = true ↔ ∃ c ∈ head, c.dev_id = dev_id := by
  induction head with
  | nil => simp [redundant_comrade]
  | cons c cs ih =>
    simp only [redundant_comrade]
    by_cases h : c.dev_id = dev_id
    · simp [h]
    · simp [h, ih]

theorem link_comrade_cases (refs : Refs) (head : List hmdfs_dentry_comrade)
    (comrade : hmdfs_dentry_comrade) :
    ((∃ c ∈ head, c.dev_id = comrade.dev_id) ∧
      link_comrade refs head comrade = (dput refs comrade.lo_d, head)) ∨
    ((∀ c ∈ head, c.dev_id ≠ comrade.dev_id) ∧ comrade.dev_id = 0 ∧
      link_comrade refs head comrade = (refs, comrade :: head)) ∨
    ((∀ c ∈ head, c.dev_id ≠ comrade.dev_id) ∧ comrade.dev_id ≠ 0 ∧
      link_comrade refs head comrade = (refs, head ++ [comrade])) := by
  unfold link_comrade
  by_cases hr : redundant_comrade comrade.dev_id head = true
  · left
    exact ⟨(redundant_comrade_iff _ _).mp hr, by simp [hr]⟩
  · right
    have hno : ∀ c ∈ head, c.dev_id ≠ comrade.dev_id := by
      intro c hc he
      exact hr ((redundant_comrade_iff _ _).mpr ⟨c, hc, he⟩)
    by_cases hl : comrade.dev_id = 0
    · left
      refine ⟨hno, hl, ?_⟩
      rw [if_neg hr]
      simp [comrade_is_local, HMDFS_DEVID_LOCAL, hl]
    · right
      refine ⟨hno, hl, ?_⟩
      rw [if_neg hr]
      simp [comrade_is_local, HMDFS_DEVID_LOCAL, hl]

/-- C6: `link_comrade` keeps the device ids of the list pairwise distinct;
when the list already holds a comrade of the new comrade's device the list
is unchanged and the reference of the duplicate is released with `dput`.
The function has no error result. -/
theorem link_comrade_distinct (refs : Refs) (head : List hmdfs_dentry_comrade)
    (comrade : hmdfs_dentry_comrade)
    (h : (head.map (fun c => c.dev_id)).Nodup) :
    ((link_comrade refs head comrade).2.map (fun c => c.dev_id)).Nodup ∧
    ((∃ c ∈ head, c.dev_id = comrade.dev_id) →
      (link_comrade refs head comrade).2 = head ∧
      (link_comrade refs head comrade).1 = dput refs comrade.lo_d) ∧
    ((∀ c ∈ head, c.dev_id ≠ comrade.dev_id) →
      (link_comrade refs head comrade).1 = refs ∧
      (link_comrade refs head comrade).2.Perm (comrade :: head)) := by
  rcases link_comrade_cases refs head comrade with ⟨hex, he⟩ | ⟨hno, _, he⟩ | ⟨hno, _, he⟩
  · rw [he]
    refine ⟨h, fun _ => ⟨rfl, rfl⟩, fun hno => ?_⟩
    obtain ⟨c, hc, hce⟩ := hex
    exact absurd hce (hno c hc)
  · rw [he]
    refine ⟨?_, fun hex => ?_, fun _ => ⟨rfl, List.Perm.refl _⟩⟩
    · simp only [List.map_cons, List.nodup_cons]
      refine ⟨?_, h⟩
      intro hm
      obtain ⟨c, hc, hce⟩ := List.mem_map.mp hm
      exact hno c hc hce
    · obtain ⟨c, hc, hce⟩ := hex
      exact absurd hce (hno c hc)
  · rw [he]
    refine ⟨?_, fun hex => ?_, fun _ => ⟨rfl, ?_⟩⟩
    · simp only [List.map_append, List.map_cons, List.map_nil]
      rw [List.nodup_append]
      refine ⟨h, List.nodup_singleton _, ?_⟩
      intro a ha hb
      simp only [List.mem_singleton] at hb
      obtain ⟨c, hc, hce⟩ := List.mem_map.mp ha
      exact hno c hc (hce.trans hb)
    · obtain ⟨c, hc, hce⟩ := hex
      exact absurd hce (hno c hc)
    · exact List.perm_append_singleton _ _

/-- Witness of C6: a second comrade of device 2 is discarded, a comrade of
device 3 is appended. -/
theorem link_comrade_distinct_witness :
    ([(⟨0, ⟨10, S_IFDIR⟩⟩ : hmdfs_dentry_comrade), ⟨2, ⟨12, S_IFDIR⟩⟩].map
      (fun c => c.dev_id)).Nodup ∧
    (link_comrade (fun _ => 1) [⟨0, ⟨10, S_IFDIR⟩⟩, ⟨2, ⟨12, S_IFDIR⟩⟩]
      ⟨2, ⟨22, S_IFDIR⟩⟩).2 = [⟨0, ⟨10, S_IFDIR⟩⟩, ⟨2, ⟨12, S_IFDIR⟩⟩] ∧
    (link_comrade (fun _ => 1) [⟨0, ⟨10, S_IFDIR⟩⟩, ⟨2, ⟨12, S_IFDIR⟩⟩]
      ⟨2, ⟨22, S_IFDIR⟩⟩).1 22 = 0 :=
  have h := link_comrade_distinct (fun _ => 1)
    [⟨0, ⟨10, S_IFDIR⟩⟩, ⟨2, ⟨12, S_IFDIR⟩⟩] ⟨2, ⟨22, S_IFDIR⟩⟩ (by decide)
  ⟨by decide, (h.2.1 ⟨⟨2, ⟨12, S_IFDIR⟩⟩, by decide, rfl⟩).1,
    by rw [(h.2.1 ⟨⟨2, ⟨12, S_IFDIR⟩⟩, by decide, rfl⟩).2]; rfl⟩

theorem link_comrade_tail_not_local (refs : Refs) (head : List hmdfs_dentry_comrade)
    (comrade : hmdfs_dentry_comrade) (h : ∀ c ∈ head.tail, c.dev_id ≠ 0) :
    ∀ c ∈ (link_comrade refs head comrade).2.tail, c.dev_id ≠ 0 := by
  rcases link_comrade_cases refs head comrade with ⟨_, he⟩ | ⟨hno, hl, he⟩ | ⟨_, hl, he⟩
  · rw [he]; exact h
  · rw [he]
    intro c hc
    simp only [List.tail_cons] at hc
    have := hno c hc
    rw [hl] at this
    exact this
  · rw [he]
    intro c hc
    cases head with
    | nil => simp at hc
    | cons a as =>
      simp only [List.cons_append, List.tail_cons, List.mem_append, List.mem_singleton] at hc
      rcases hc with hc | hc
      · exact h c (by simpa using hc)
      · rw [hc]; exact hl

theorem link_comrades_tail_not_local (refs : Refs) (head cs : List hmdfs_dentry_comrade)
    (h : ∀ c ∈ head.tail, c.dev_id ≠ 0) :
    ∀ c ∈ (link_comrades refs head cs).2.tail, c.dev_id ≠ 0 := by
  induction cs generalizing refs head with
  | nil => exact h
  | cons comrade rest ih =>
    simp only [link_comrades]
    exact ih _ _ (link_comrade_tail_not_local refs head comrade h)

/-- C7: after any sequence of `link_comrade` calls on an initially empty
list, a comrade of the local device (device id 0) in the list is the first
element of the list, and `hmdfs_get_fst_lo_d` returns its backing dentry. -/
theorem local_comrade_first (refs : Refs) (cs : List hmdfs_dentry_comrade)
    (type : Nat) (work_count : Int) (c : hmdfs_dentry_comrade)
    (hc : c ∈ (link_comrades refs [] cs).2) (hl : c.dev_id = (HMDFS_DEVID_LOCAL : Int)) :
    (link_comrades refs [] cs).2.head? = some c ∧
    (hmdfs_get_fst_lo_d (link_comrades refs [] cs).1
      ⟨type, work_count, (link_comrades refs [] cs).2⟩).2 = some c.lo_d := by
  have ht := link_comrades_tail_not_local refs [] cs (by simp)
  have hhead : (link_comrades refs [] cs).2.head? = some c := by
    cases hlist : (link_comrades refs [] cs).2 with
    | nil => rw [hlist] at hc; simp at hc
    | cons a as =>
      rw [hlist] at hc ht
      simp only [List.tail_cons] at ht
      rcases List.mem_cons.mp hc with rfl | hmem
      · rfl
      · exact absurd (by simpa [HMDFS_DEVID_LOCAL] using hl) (ht c hmem)
  refine ⟨hhead, ?_⟩
  simp [hmdfs_get_fst_lo_d, hhead]

/-- Witness of C7: comrades of the devices 2, 0 and 1 linked in this order;
the local comrade is first. -/
theorem local_comrade_first_witness :
    (⟨0, ⟨10, S_IFDIR⟩⟩ : hmdfs_dentry_comrade) ∈
      (link_comrades (fun _ => 1) []
        [⟨2, ⟨12, S_IFDIR⟩⟩, ⟨0, ⟨10, S_IFDIR⟩⟩, ⟨1, ⟨11, S_IFDIR⟩⟩]).2 ∧
    (link_comrades (fun _ => 1) []
      [⟨2, ⟨12, S_IFDIR⟩⟩, ⟨0, ⟨10, S_IFDIR⟩⟩, ⟨1, ⟨11, S_IFDIR⟩⟩]).2.head?
      = some ⟨0, ⟨10, S_IFDIR⟩⟩ ∧
    (hmdfs_get_fst_lo_d (link_comrades (fun _ => 1) []
        [⟨2, ⟨12, S_IFDIR⟩⟩, ⟨0, ⟨10, S_IFDIR⟩⟩, ⟨1, ⟨11, S_IFDIR⟩⟩]).1
      ⟨DT_DIR, 0, (link_comrades (fun _ => 1) []
        [⟨2, ⟨12, S_IFDIR⟩⟩, ⟨0, ⟨10, S_IFDIR⟩⟩, ⟨1, ⟨11, S_IFDIR⟩⟩]).2⟩).2
      = some ⟨10, S_IFDIR⟩ :=
  ⟨by decide,
    local_comrade_first (fun _ => 1)
      [⟨2, ⟨12, S_IFDIR⟩⟩, ⟨0, ⟨10, S_IFDIR⟩⟩, ⟨1, ⟨11, S_IFDIR⟩⟩] DT_DIR 0
      ⟨0, ⟨10, S_IFDIR⟩⟩ (by decide) rfl⟩

/-! ## The comrade list under lookup works -/

theorem link_comrade_nil (refs : Refs) (c : hmdfs_dentry_comrade) :
    (link_comrade refs [] c).2 = [c] := by
  simp only [link_comrade, redundant_comrade]
  by_cases h : comrade_is_local c = true
  · simp [h]
  · simp [h]

theorem link_comrade_mem (refs : Refs) (head : List hmdfs_dentry_comrade)
    (c x : hmdfs_dentry_comrade) (hx : x ∈ (link_comrade refs head c).2) :
    x ∈ head ∨ x = c := by
  rcases link_comrade_cases refs head c with ⟨_, he⟩ | ⟨_, _, he⟩ | ⟨_, _, he⟩
  · rw [he] at hx; exact Or.inl hx
  · rw [he] at hx
    rcases List.mem_cons.mp hx with h | h
    · exact Or.inr h
    · exact Or.inl h
  · rw [he] at hx
    rcases List.mem_append.mp hx with h | h
    · exact Or.inl h
    · exact Or.inr (by simpa using h)

theorem shape_of_work_count (mdi : hmdfs_dentry_info_merge) (n : Int)
    (h : ComradeListShape mdi) : ComradeListShape { mdi with work_count := n } := h

theorem work_body_shape (refs : Refs) (mdi : hmdfs_dentry_info_merge)
    (comrade : Except Int hmdfs_dentry_comrade) (h : ComradeListShape mdi) :
    ComradeListShape (merge_lookup_work_body refs mdi comrade).mdi := by
  cases comrade with
  | error e => exact h
  | ok c =>
    simp only [merge_lookup_work_body]
    by_cases h0 : mdi.type = DT_UNKNOWN
    · have hnil : mdi.comrade_list = [] := by
        rcases h with h | ⟨ht, _⟩ | ⟨ht, _⟩
        · exact h
        · rw [h0] at ht; exact absurd ht (by decide)
        · rw [h0] at ht; exact absurd ht (by decide)
      simp only [is_valid_comrade, h0, if_true, hnil, link_comrade_nil]
      by_cases hd : S_ISDIR (hmdfs_cm c) = true
      · right; left
        simp [hd]
      · right; right
        simp only [hd, if_false]
        exact ⟨by simp, c, rfl, by simpa using hd⟩
    · by_cases h1 : mdi.type = DT_DIR ∧ S_ISDIR (hmdfs_cm c) = true
      · simp only [is_valid_comrade, h0, h1, if_true, if_false, and_self]
        right; left
        refine ⟨h1.1, ?_⟩
        intro x hx
        have hx2 : x ∈ (link_comrade refs mdi.comrade_list c).2 := hx
        rcases link_comrade_mem refs mdi.comrade_list c x hx2 with hm | rfl
        · rcases h with h | ⟨_, hall⟩ | ⟨ht, _⟩
          · rw [h] at hm; simp at hm
          · exact hall x hm
          · rw [h1.1] at ht; exact absurd ht (by decide)
        · exact h1.2
      · by_cases h2 : mdi.type = DT_REG ∧ mdi.comrade_list.isEmpty = true ∧
            ¬ S_ISDIR (hmdfs_cm c) = true
        · have hnil : mdi.comrade_list = [] := by simpa using h2.2.1
          simp only [is_valid_comrade, h0, h1, h2, if_true, if_false, and_self,
            not_false_eq_true]
          right; right
          refine ⟨h2.1, c, ?_, by simpa using h2.2.2⟩
          show (link_comrade refs mdi.comrade_list c).2 = [c]
          rw [hnil, link_comrade_nil]
        · simp only [is_valid_comrade, h0, h1, h2, if_true, if_false]
          exact h

theorem run_works_shape (refs : Refs) (mdi : hmdfs_dentry_info_merge)
    (works : List (Int × LookupOutcome)) (h : ComradeListShape mdi) :
    ComradeListShape (run_works refs mdi works).2 := by
  induction works generalizing refs mdi with
  | nil => exact h
  | cons w rest ih =>
    obtain ⟨devid, out⟩ := w
    simp only [run_works]
    exact ih _ _ (work_body_shape _ _ _ h)

theorem not_isdir_of_isreg (mode : Nat) (h : S_ISREG mode = true) : S_ISDIR mode = false := by
  simp only [S_ISREG, S_ISDIR, beq_iff_eq] at h ⊢
  rw [h]
  decide

/-- C5: starting from a node with an empty comrade list, whatever its kind
and work counter, after any sequence of completed lookup works the comrade
list holds at most one comrade whose backing entry is a regular file, and a
regular-file comrade is the only comrade of the list; the same holds for
comrades whose backing entry is anything but a directory. -/
theorem comrade_list_one_regular (refs : Refs) (type : Nat) (work_count : Int)
    (works : List (Int × LookupOutcome)) :
    ((run_works refs ⟨type, work_count, []⟩ works).2.comrade_list.countP
      (fun c => S_ISREG (hmdfs_cm c))) ≤ 1 ∧
    (∀ c ∈ (run_works refs ⟨type, work_count, []⟩ works).2.comrade_list,
      S_ISREG (hmdfs_cm c) = true →
      (run_works refs ⟨type, work_count, []⟩ works).2.comrade_list = [c]) ∧
    (∀ c ∈ (run_works refs ⟨type, work_count, []⟩ works).2.comrade_list,
      S_ISDIR (hmdfs_cm c) = false →
      (run_works refs ⟨type, work_count, []⟩ works).2.comrade_list = [c]) := by
  have hs := run_works_shape refs ⟨type, work_count, []⟩ works (Or.inl rfl)
  have key : ∀ c ∈ (run_works refs ⟨type, work_count, []⟩ works).2.comrade_list,
      S_ISDIR (hmdfs_cm c) = false →
      (run_works refs ⟨type, work_count, []⟩ works).2.comrade_list = [c] := by
    intro c hc hnd
    rcases hs with h | ⟨_, hall⟩ | ⟨_, c0, hl, _⟩
    · rw [h] at hc; simp at hc
    · rw [hall c hc] at hnd; simp at hnd
    · rw [hl] at hc ⊢
      simp only [List.mem_singleton] at hc
      rw [hc]
  refine ⟨?_, fun c hc hr => key c hc (not_isdir_of_isreg _ hr), key⟩
  by_contra hgt
  have h2 : 1 < (run_works refs ⟨type, work_count, []⟩ works).2.comrade_list.countP
      (fun c => S_ISREG (hmdfs_cm c)) := by omega
  have hpos : 0 < (run_works refs ⟨type, work_count, []⟩ works).2.comrade_list.countP
      (fun c => S_ISREG (hmdfs_cm c)) := by omega
  obtain ⟨c, hc, hr⟩ := List.countP_pos_iff.mp hpos
  have hl := key c hc (not_isdir_of_isreg _ hr)
  rw [hl] at h2
  simp only [List.countP_cons, List.countP_nil] at h2
  split_ifs at h2
  all_goals omega

/-! ## The dispatcher claims -/

theorem merge_lookup_async_queue (st : DispatchState) (devid : Int) (name : List Char)
    (flags : Nat) (a b : Bool) :
    (merge_lookup_async st devid name flags a b).2 = st ∨
    (merge_lookup_async st devid name flags a b).2 =
      ⟨{ st.mdi with work_count := st.mdi.work_count + 1 },
        st.queue ++ [⟨devid, name, flags⟩]⟩ := by
  unfold merge_lookup_async
  cases a <;> cases b <;> simp

theorem dev_id_loop_range (name : List Char) (base i : Nat) :
    -2 ^ 31 ≤ dev_id_loop name base i ∧ dev_id_loop name base i < 2 ^ 31 := by
  cases i with
  | zero => simp [dev_id_loop]
  | succ k =>
    simp only [dev_id_loop, wrap32]
    constructor <;> omega

theorem real_dname_devid_range (m : Markers) (name : List Char) (devid0 : Int) (r : RealDname)
    (hdec : hmdfs_get_real_dname m name devid0 = some r) (hreg : r.type = DT_REG) :
    -2 ^ 31 ≤ r.devid ∧ r.devid < 2 ^ 31 := by
  unfold hmdfs_get_real_dname at hdec
  cases hc : check_filename m name name.length with
  | none => rw [hc] at hdec; simp at hdec
  | some type =>
    rw [hc] at hdec
    simp only at hdec
    by_cases ht : type = DT_REG
    · rw [if_pos ht] at hdec
      cases ht2 : conf_name_trans_reg m name with
      | none => rw [ht2] at hdec; simp at hdec
      | some v =>
        obtain ⟨rn, d⟩ := v
        rw [ht2] at hdec
        simp only [Option.some.injEq] at hdec
        unfold conf_name_trans_reg at ht2
        simp only at ht2
        split_ifs at ht2
        simp only [Option.some.injEq, Prod.mk.injEq] at ht2
        rw [← hdec]
        simp only
        rw [← ht2.2]
        exact dev_id_loop_range _ _ _
    · rw [if_neg ht] at hdec
      split_ifs at hdec <;>
        · simp only [Option.some.injEq] at hdec
          rw [← hdec] at hreg
          exact absurd hreg ht

theorem u64_to_int_of_eq (d : Int) (hd : -2 ^ 31 ≤ d ∧ d < 2 ^ 31) (n : Nat)
    (h : n % 2 ^ 64 = int_to_u64 d) : u64_to_int n = d := by
  unfold u64_to_int wrap32
  rw [h]
  unfold int_to_u64
  rw [Int.toNat_of_nonneg (Int.emod_nonneg _ (by norm_num))]
  omega

theorem int_to_u64_nonneg (d : Int) (h0 : 0 ≤ d) (hd : d < 2 ^ 31) :
    int_to_u64 d = d.toNat := by
  unfold int_to_u64
  congr 1
  omega

theorem dispatch_peers_mem (type : Nat) (devid : Int) (ppath rname : List Char) (flags : Nat)
    (alloc : LookupAlloc) (peers : List hmdfs_peer) (st : DispatchState)
    (w : merge_lookup_work)
    (hw : w ∈ (dispatch_peers type devid ppath rname flags alloc peers st).queue) :
    w ∈ st.queue ∨ ∃ peer ∈ peers,
      ¬ (type = DT_REG ∧ peer.device_id % 2 ^ 64 ≠ int_to_u64 devid) ∧
      w = ⟨u64_to_int peer.device_id, peer_cpath peer.cid ppath rname, flags⟩ := by
  induction peers generalizing st with
  | nil => exact Or.inl hw
  | cons peer rest ih =>
    simp only [dispatch_peers] at hw
    by_cases hskip : type = DT_REG ∧ peer.device_id % 2 ^ 64 ≠ int_to_u64 devid
    · rw [if_pos hskip] at hw
      rcases ih st hw with h | ⟨p, hp, h1, h2⟩
      · exact Or.inl h
      · exact Or.inr ⟨p, List.mem_cons_of_mem _ hp, h1, h2⟩
    · rw [if_neg hskip] at hw
      rcases ih _ hw with h | ⟨p, hp, h1, h2⟩
      · rcases merge_lookup_async_queue st (u64_to_int peer.device_id)
          (peer_cpath peer.cid ppath rname) flags
          (alloc.work_ok (u64_to_int peer.device_id)) (alloc.name_ok (u64_to_int peer.device_id))
          with he | he
        · rw [he] at h; exact Or.inl h
        · rw [he] at h
          simp only [List.mem_append, List.mem_singleton] at h
          rcases h with h | h
          · exact Or.inl h
          · exact Or.inr ⟨peer, List.mem_cons_self _ _, hskip, h⟩
      · exact Or.inr ⟨p, List.mem_cons_of_mem _ hp, h1, h2⟩

theorem dispatch_works_mem (type : Nat) (devid : Int) (ppath rname : List Char) (flags : Nat)
    (alloc : LookupAlloc) (peers : List hmdfs_peer) (mdi : hmdfs_dentry_info_merge)
    (w : merge_lookup_work)
    (hw : w ∈ (dispatch_works type devid ppath rname flags alloc peers ⟨mdi, []⟩).queue) :
    ((type ≠ DT_REG ∨ devid = 0) ∧ w = ⟨0, local_cpath ppath rname, flags⟩) ∨
    ∃ peer ∈ peers, ¬ (type = DT_REG ∧ peer.device_id % 2 ^ 64 ≠ int_to_u64 devid) ∧
      w = ⟨u64_to_int peer.device_id, peer_cpath peer.cid ppath rname, flags⟩ := by
  unfold dispatch_works at hw
  rcases dispatch_peers_mem _ _ _ _ _ _ _ _ _ hw with h | h
  · left
    by_cases hl : type ≠ DT_REG ∨ devid = 0
    · rw [if_pos hl] at h
      refine ⟨hl, ?_⟩
      rcases merge_lookup_async_queue ⟨mdi, []⟩ 0 (local_cpath ppath rname) flags
        (alloc.work_ok 0) (alloc.name_ok 0) with he | he
      · rw [he] at h; simp at h
      · rw [he] at h; simpa using h
    · rw [if_neg hl] at h; simp at h
  · exact Or.inr h

/-- C8 (as amended): when the name decodes as a regular file owned by
device D, every lookup work that `lookup_merge_normal` dispatches carries the
device id D: a work is either the work of a connected peer whose device id
equals D in the unsigned 64 bit comparison of the code (for D at least 0:
whose device id is D), or the work below `device_view/local`, and that one
is issued only when D is 0, the id of the local device. -/
theorem ownership_routing (m : Markers) (mdi : hmdfs_dentry_info_merge) (name : List Char)
    (ppath : Option (List Char)) (peers : List hmdfs_peer) (flags : Nat) (alloc : LookupAlloc)
    (r : RealDname) (st : DispatchState) (ret : Option Int)
    (hdec : hmdfs_get_real_dname m name (-1) = some r) (hreg : r.type = DT_REG)
    (hdisp : lookup_merge_normal_dispatch m mdi name ppath peers flags alloc = some (st, ret)) :
    (∀ w ∈ st.queue, w.devid = r.devid) ∧
    (∀ w ∈ st.queue,
      (r.devid = 0 ∧ ∃ pp, ppath = some pp ∧ w = ⟨0, local_cpath pp r.rname, flags⟩) ∨
      (∃ pp, ppath = some pp ∧ ∃ peer ∈ peers,
        peer.device_id % 2 ^ 64 = int_to_u64 r.devid ∧
        (0 ≤ r.devid → ((peer.device_id % 2 ^ 64 : Nat) : Int) = r.devid) ∧
        w = ⟨r.devid, peer_cpath peer.cid pp r.rname, flags⟩)) ∧
    (r.devid ≠ 0 → ∀ w ∈ st.queue, ∀ pp, w ≠ ⟨0, local_cpath pp r.rname, flags⟩) := by
  have hrange := real_dname_devid_range m name (-1) r hdec hreg
  have key : ∀ w ∈ st.queue,
      (r.devid = 0 ∧ ∃ pp, ppath = some pp ∧ w = ⟨0, local_cpath pp r.rname, flags⟩) ∨
      (∃ pp, ppath = some pp ∧ ∃ peer ∈ peers,
        peer.device_id % 2 ^ 64 = int_to_u64 r.devid ∧
        (0 ≤ r.devid → ((peer.device_id % 2 ^ 64 : Nat) : Int) = r.devid) ∧
        w = ⟨r.devid, peer_cpath peer.cid pp r.rname, flags⟩) := by
    intro w hw
    unfold lookup_merge_normal_dispatch at hdisp
    rw [hdec] at hdisp
    simp only at hdisp
    by_cases h1 : alloc.rname_ok = false
    · rw [if_pos h1] at hdisp
      simp only [Option.some.injEq, Prod.mk.injEq] at hdisp
      rw [← hdisp.1] at hw
      simp at hw
    · rw [if_neg h1] at hdisp
      cases ppath with
      | none =>
        simp only [Option.some.injEq, Prod.mk.injEq] at hdisp
        rw [← hdisp.1] at hw
        simp at hw
      | some pp =>
        simp only at hdisp
        by_cases h2 : alloc.cpath_ok = false
        · rw [if_pos h2] at hdisp
          simp only [Option.some.injEq, Prod.mk.injEq] at hdisp
          rw [← hdisp.1] at hw
          simp at hw
        · rw [if_neg h2] at hdisp
          simp only [Option.some.injEq, Prod.mk.injEq] at hdisp
          rw [← hdisp.1] at hw
          rcases dispatch_works_mem _ _ _ _ _ _ _ _ _ hw with ⟨hl, he⟩ | ⟨p, hp, hs, he⟩
          · left
            rcases hl with hl | hl
            · exact absurd hreg hl
            · exact ⟨hl, pp, rfl, he⟩
          · right
            have heq : p.device_id % 2 ^ 64 = int_to_u64 r.devid := by
              by_contra hne
              exact hs ⟨hreg, hne⟩
            refine ⟨pp, rfl, p, hp, heq, ?_, ?_⟩
            · intro h0
              rw [heq, int_to_u64_nonneg r.devid h0 hrange.2]
              exact Int.toNat_of_nonneg h0
            · rw [he, u64_to_int_of_eq r.devid hrange p.device_id heq]
  refine ⟨?_, key, ?_⟩
  · intro w hw
    rcases key w hw with ⟨h0, _, _, he⟩ | ⟨_, _, p, _, _, _, he⟩
    · rw [he, h0]
    · rw [he]
  · intro hne w hw pp hc
    rcases key w hw with ⟨h0, _⟩ | ⟨_, _, p, _, _, _, he⟩
    · exact hne h0
    · rw [he] at hc
      have : r.devid = 0 := by
        have := congrArg merge_lookup_work.devid hc
        simpa using this
      exact hne this

/-- Witness of C8: with the peers 1, 2 and 3 connected, the name
`x_conflict_dev3.txt` dispatches exactly one work, to device 3. -/
theorem ownership_routing_witness :
    hmdfs_get_real_dname sampleMarkers "x_conflict_dev3.txt".toList (-1)
      = some ⟨"x.txt".toList, 3, DT_REG⟩ ∧
    lookup_merge_normal_dispatch sampleMarkers init_hmdfs_dentry_info_merge
      "x_conflict_dev3.txt".toList (some "/docs".toList) samplePeers 0 allocAll
      = some (⟨⟨DT_REG, 1, []⟩, [⟨3, "device_view/cid3/docs/x.txt".toList, 0⟩]⟩, none) ∧
    (∀ w ∈ [(⟨3, "device_view/cid3/docs/x.txt".toList, 0⟩ : merge_lookup_work)],
      w.devid = 3) :=
  ⟨by decide, by decide,
    (ownership_routing sampleMarkers init_hmdfs_dentry_info_merge
      "x_conflict_dev3.txt".toList (some "/docs".toList) samplePeers 0 allocAll
      ⟨"x.txt".toList, 3, DT_REG⟩
      ⟨⟨DT_REG, 1, []⟩, [⟨3, "device_view/cid3/docs/x.txt".toList, 0⟩]⟩ none
      (by decide) rfl (by decide)).1⟩

/-- Counterexample to C8 as stated: the name `x_conflict_dev0.txt` decodes as
a regular file owned by device 0, and with the peers 1, 2 and 3 connected
`lookup_merge_normal` issues the local work, the one below
`device_view/local`; and the name `x_conflict_dev4294967295.txt` decodes as
a regular file owned by device -1, for which the peer with the device id
2^64-1 gets a work. -/
theorem ownership_routing_counterexample :
    (hmdfs_get_real_dname sampleMarkers "x_conflict_dev0.txt".toList (-1)
      = some ⟨"x.txt".toList, 0, DT_REG⟩ ∧
    lookup_merge_normal_dispatch sampleMarkers init_hmdfs_dentry_info_merge
      "x_conflict_dev0.txt".toList (some "/docs".toList) samplePeers 0 allocAll
      = some (⟨⟨DT_REG, 1, []⟩, [⟨0, "device_view/local/docs/x.txt".toList, 0⟩]⟩, none)) ∧
    (hmdfs_get_real_dname sampleMarkers "x_conflict_dev4294967295.txt".toList (-1)
      = some ⟨"x.txt".toList, -1, DT_REG⟩ ∧
    lookup_merge_normal_dispatch sampleMarkers init_hmdfs_dentry_info_merge
      "x_conflict_dev4294967295.txt".toList (some "/docs".toList) sampleTopPeers 0 allocAll
      = some (⟨⟨DT_REG, 1, []⟩, [⟨-1, "device_view/cid9/docs/x.txt".toList, 0⟩]⟩, none)) := by
  refine ⟨⟨by decide, by decide⟩, by decide, by decide⟩

theorem is_valid_comrade_work_count (mdi : hmdfs_dentry_info_merge) (mode : Nat) :
    (is_valid_comrade mdi mode).1.work_count = mdi.work_count := by
  unfold is_valid_comrade
  split_ifs <;> rfl

theorem work_body_count (refs : Refs) (mdi : hmdfs_dentry_info_merge)
    (comrade : Except Int hmdfs_dentry_comrade) :
    (merge_lookup_work_body refs mdi comrade).mdi.work_count = mdi.work_count - 1 := by
  cases comrade with
  | error e => rfl
  | ok c =>
    simp only [merge_lookup_work_body]
    split_ifs
    · simp [is_valid_comrade_work_count]
    · simp [is_valid_comrade_work_count]

theorem timespec64_le_refl (a : timespec64) : a.le a := by
  unfold timespec64.le
  right
  exact ⟨rfl, le_refl _⟩

theorem timespec64_le_trans (a b c : timespec64) (h1 : a.le b) (h2 : b.le c) : a.le c := by
  unfold timespec64.le at *
  omega

theorem time_compare_neg (a b : timespec64) (h : hmdfs_time_compare a b < 0) : a.le b := by
  unfold hmdfs_time_compare at h
  unfold timespec64.le
  split_ifs at h with h1 h2
  · omega
  · omega
  · omega

theorem time_compare_not_neg (a b : timespec64) (h : ¬ hmdfs_time_compare a b < 0) :
    b.le a := by
  unfold hmdfs_time_compare at h
  unfold timespec64.le
  split_ifs at h with h1 h2
  · omega
  · omega
  · omega

theorem update_inode_attr_loop_rest (d_inode : Dentry → Option inode_attr)
    (rest : List hmdfs_dentry_comrade) :
    ∀ inode : inode_attr,
    (update_inode_attr_loop d_inode false inode rest).i_size = inode.i_size ∧
    (update_inode_attr_loop d_inode false inode rest).i_atime = inode.i_atime ∧
    (update_inode_attr_loop d_inode false inode rest).i_ctime = inode.i_ctime ∧
    inode.i_mtime.le (update_inode_attr_loop d_inode false inode rest).i_mtime ∧
    (∀ c ∈ rest, ∀ li, d_inode c.lo_d = some li →
      li.i_mtime.le (update_inode_attr_loop d_inode false inode rest).i_mtime) ∧
    ((update_inode_attr_loop d_inode false inode rest).i_mtime = inode.i_mtime ∨
      ∃ c ∈ rest, ∃ li, d_inode c.lo_d = some li ∧
        (update_inode_attr_loop d_inode false inode rest).i_mtime = li.i_mtime) := by
  induction rest with
  | nil =>
    intro inode
    simp [update_inode_attr_loop, timespec64_le_refl]
  | cons c rest ih =>
    intro inode
    simp only [update_inode_attr_loop]
    cases hli : d_inode c.lo_d with
    | none =>
      simp only
      obtain ⟨h1, h2, h3, h4, h5, h6⟩ := ih inode
      refine ⟨h1, h2, h3, h4, ?_, ?_⟩
      · intro x hx li hx2
        rcases List.mem_cons.mp hx with rfl | hm
        · rw [hli] at hx2; simp at hx2
        · exact h5 x hm li hx2
      · rcases h6 with h | ⟨x, hx, li, h, h'⟩
        · exact Or.inl h
        · exact Or.inr ⟨x, List.mem_cons_of_mem _ hx, li, h, h'⟩
    | some li0 =>
      simp only [Bool.false_eq_true, if_false]
      by_cases hcmp : hmdfs_time_compare inode.i_mtime li0.i_mtime < 0
      · rw [if_pos hcmp]
        obtain ⟨h1, h2, h3, h4, h5, h6⟩ := ih { inode with i_mtime := li0.i_mtime }
        refine ⟨h1, h2, h3, ?_, ?_, ?_⟩
        · exact timespec64_le_trans _ _ _ (time_compare_neg _ _ hcmp) h4
        · intro x hx li hx2
          rcases List.mem_cons.mp hx with rfl | hm
          · rw [hli] at hx2
            cases hx2
            exact h4
          · exact h5 x hm li hx2
        · right
          rcases h6 with h | ⟨x, hx, li, h, h'⟩
          · exact ⟨c, List.mem_cons_self _ _, li0, hli, h⟩
          · exact ⟨x, List.mem_cons_of_mem _ hx, li, h, h'⟩
      · rw [if_neg hcmp]
        obtain ⟨h1, h2, h3, h4, h5, h6⟩ := ih inode
        refine ⟨h1, h2, h3, h4, ?_, ?_⟩
        · intro x hx li hx2
          rcases List.mem_cons.mp hx with rfl | hm
          · rw [hli] at hx2
            cases hx2
            exact timespec64_le_trans _ _ _ (time_compare_not_neg _ _ hcmp) h4
          · exact h5 x hm li hx2
        · rcases h6 with h | ⟨x, hx, li, h, h'⟩
          · exact Or.inl h
          · exact Or.inr ⟨x, List.mem_cons_of_mem _ hx, li, h, h'⟩

/-- C12: when the first comrade of a node has a backing inode,
`update_inode_attr` gives the merged inode the size, access time and change
time of that inode, and a modification time that is the maximum of the
modification times of the backing inodes of all comrades: it is not earlier
than any of them and it is the modification time of one of them. -/
theorem update_inode_attr_first_and_max (d_inode : Dentry → Option inode_attr)
    (inode : inode_attr) (cdi : hmdfs_dentry_info_merge) (fst_comrade : hmdfs_dentry_comrade)
    (li : inode_attr) (hfst : cdi.comrade_list.head? = some fst_comrade)
    (hli : d_inode fst_comrade.lo_d = some li) :
    (update_inode_attr d_inode inode cdi).i_size = li.i_size ∧
    (update_inode_attr d_inode inode cdi).i_atime = li.i_atime ∧
    (update_inode_attr d_inode inode cdi).i_ctime = li.i_ctime ∧
    (∀ c ∈ cdi.comrade_list, ∀ lc, d_inode c.lo_d = some lc →
      lc.i_mtime.le (update_inode_attr d_inode inode cdi).i_mtime) ∧
    (∃ c ∈ cdi.comrade_list, ∃ lc, d_inode c.lo_d = some lc ∧
      (update_inode_attr d_inode inode cdi).i_mtime = lc.i_mtime) := by
  obtain ⟨t, wc, l⟩ := cdi
  cases l with
  | nil => simp at hfst
  | cons c0 rest =>
    simp only [List.head?_cons, Option.some.injEq] at hfst
    subst hfst
    simp only [update_inode_attr, update_inode_attr_loop, hli, if_true]
    obtain ⟨h1, h2, h3, h4, h5, h6⟩ := update_inode_attr_loop_rest d_inode rest
      { inode with i_atime := li.i_atime, i_ctime := li.i_ctime,
                   i_mtime := li.i_mtime, i_size := li.i_size }
    refine ⟨h1, h2, h3, ?_, ?_⟩
    · intro x hx lc hx2
      rcases List.mem_cons.mp hx with rfl | hm
      · rw [hli] at hx2
        cases hx2
        exact h4
      · exact h5 x hm lc hx2
    · rcases h6 with h | ⟨x, hx, lc, h, h'⟩
      · exact ⟨c0, List.mem_cons_self _ _, li, hli, h⟩
      · exact ⟨x, List.mem_cons_of_mem _ hx, lc, h, h'⟩

/-- Witness of C12: a node with the comrades of device 0 (size 7, modified
at 80.5) and device 2 (size 99, modified at 95): the merged inode has size
7, the access and change times of the first comrade, and the modification
time 95. -/
theorem update_inode_attr_first_and_max_witness :
    ((⟨DT_DIR, 0, [⟨0, ⟨10, S_IFDIR⟩⟩, ⟨2, ⟨12, S_IFDIR⟩⟩]⟩ :
        hmdfs_dentry_info_merge).comrade_list.head? = some ⟨0, ⟨10, S_IFDIR⟩⟩ ∧
      sampleInodes ⟨10, S_IFDIR⟩ = some ⟨⟨100, 0⟩, ⟨90, 0⟩, ⟨80, 5⟩, 7⟩) ∧
    (update_inode_attr sampleInodes ⟨⟨0, 0⟩, ⟨0, 0⟩, ⟨0, 0⟩, 0⟩
      ⟨DT_DIR, 0, [⟨0, ⟨10, S_IFDIR⟩⟩, ⟨2, ⟨12, S_IFDIR⟩⟩]⟩).i_size = 7 ∧
    update_inode_attr sampleInodes ⟨⟨0, 0⟩, ⟨0, 0⟩, ⟨0, 0⟩, 0⟩
      ⟨DT_DIR, 0, [⟨0, ⟨10, S_IFDIR⟩⟩, ⟨2, ⟨12, S_IFDIR⟩⟩]⟩
      = ⟨⟨100, 0⟩, ⟨90, 0⟩, ⟨95, 0⟩, 7⟩ :=
  ⟨⟨rfl, by decide⟩,
    (update_inode_attr_first_and_max sampleInodes ⟨⟨0, 0⟩, ⟨0, 0⟩, ⟨0, 0⟩, 0⟩
      ⟨DT_DIR, 0, [⟨0, ⟨10, S_IFDIR⟩⟩, ⟨2, ⟨12, S_IFDIR⟩⟩]⟩ ⟨0, ⟨10, S_IFDIR⟩⟩
      ⟨⟨100, 0⟩, ⟨90, 0⟩, ⟨80, 5⟩, 7⟩ rfl (by decide)).1,
    by decide⟩

/-! ## Removal -/

theorem rmdir_loop_zero_iff (vfs_rmdir : Dentry → Int) (l : List hmdfs_dentry_comrade) :
    (do_rmdir_merge_loop vfs_rmdir l).1 = 0 ↔ ∀ c ∈ l, vfs_rmdir c.lo_d = 0 := by
  induction l with
  | nil => simp [do_rmdir_merge_loop]
  | cons c rest ih =>
    simp only [do_rmdir_merge_loop]
    by_cases h : vfs_rmdir c.lo_d = 0
    · simp [h, ih]
    · simp [h]

theorem rmdir_loop_all (vfs_rmdir : Dentry → Int) (l : List hmdfs_dentry_comrade)
    (h : ∀ c ∈ l, vfs_rmdir c.lo_d = 0) :
    (do_rmdir_merge_loop vfs_rmdir l).2 = l.map (fun c => c.lo_d) := by
  induction l with
  | nil => simp [do_rmdir_merge_loop]
  | cons c rest ih =>
    simp only [do_rmdir_merge_loop]
    have hc := h c (List.mem_cons_self _ _)
    simp [hc, ih (fun x hx => h x (List.mem_cons_of_mem _ hx))]

theorem rmdir_loop_first_failure (vfs_rmdir : Dentry → Int)
    (pre : List hmdfs_dentry_comrade) (c : hmdfs_dentry_comrade)
    (post : List hmdfs_dentry_comrade) (hpre : ∀ x ∈ pre, vfs_rmdir x.lo_d = 0)
    (hc : vfs_rmdir c.lo_d ≠ 0) :
    do_rmdir_merge_loop vfs_rmdir (pre ++ c :: post)
      = (vfs_rmdir c.lo_d, (pre ++ [c]).map (fun x => x.lo_d)) := by
  induction pre with
  | nil => simp [do_rmdir_merge_loop, hc]
  | cons p pre ih =>
    have hp := hpre p (List.mem_cons_self _ _)
    have ih2 := ih (fun x hx => hpre x (List.mem_cons_of_mem _ hx))
    simp [do_rmdir_merge_loop, hp, ih2]

theorem unlink_loop_zero_iff (lookup_one_len : Dentry → Except Int Dentry)
    (vfs_unlink : Dentry → Int) (l : List hmdfs_dentry_comrade)
    (herr : ∀ d e, lookup_one_len d = .error e → e ≠ 0) :
    (do_unlink_merge_loop lookup_one_len vfs_unlink l).ret = 0 ↔
      ∀ c ∈ l, unlink_comrade_result lookup_one_len vfs_unlink c = 0 := by
  induction l with
  | nil => simp [do_unlink_merge_loop]
  | cons c rest ih =>
    simp only [do_unlink_merge_loop, List.mem_cons, forall_eq_or_imp, unlink_comrade_result]
    cases hl : lookup_one_len c.lo_d with
    | error e =>
      have he := herr _ _ hl
      simp [he]
    | ok d =>
      simp only
      by_cases h : vfs_unlink d = 0
      · simp [h, ih, unlink_comrade_result]
      · simp [h]

theorem unlink_loop_all (lookup_one_len : Dentry → Except Int Dentry)
    (vfs_unlink : Dentry → Int) (l : List hmdfs_dentry_comrade)
    (h : ∀ c ∈ l, unlink_comrade_result lookup_one_len vfs_unlink c = 0)
    (herr : ∀ d e, lookup_one_len d = .error e → e ≠ 0) :
    (do_unlink_merge_loop lookup_one_len vfs_unlink l).lookups = l.map (fun c => c.lo_d) ∧
    (do_unlink_merge_loop lookup_one_len vfs_unlink l).unlinks.length = l.length := by
  induction l with
  | nil => simp [do_unlink_merge_loop]
  | cons c rest ih =>
    have hc := h c (List.mem_cons_self _ _)
    obtain ⟨ih1, ih2⟩ := ih (fun x hx => h x (List.mem_cons_of_mem _ hx))
    simp only [do_unlink_merge_loop]
    unfold unlink_comrade_result at hc
    cases hl : lookup_one_len c.lo_d with
    | error e =>
      rw [hl] at hc
      exact absurd hc (herr _ _ hl)
    | ok d =>
      rw [hl] at hc
      simp only at hc
      simp [hc, ih1, ih2]

theorem unlink_loop_first_failure (lookup_one_len : Dentry → Except Int Dentry)
    (vfs_unlink : Dentry → Int) (pre : List hmdfs_dentry_comrade) (c : hmdfs_dentry_comrade)
    (post : List hmdfs_dentry_comrade)
    (hpre : ∀ x ∈ pre, unlink_comrade_result lookup_one_len vfs_unlink x = 0)
    (hc : unlink_comrade_result lookup_one_len vfs_unlink c ≠ 0)
    (herr : ∀ d e, lookup_one_len d = .error e → e ≠ 0) :
    (do_unlink_merge_loop lookup_one_len vfs_unlink (pre ++ c :: post)).ret
      = unlink_comrade_result lookup_one_len vfs_unlink c ∧
    (do_unlink_merge_loop lookup_one_len vfs_unlink (pre ++ c :: post)).lookups
      = (pre ++ [c]).map (fun x => x.lo_d) ∧
    (do_unlink_merge_loop lookup_one_len vfs_unlink (pre ++ c :: post)).unlinks.length
      = pre.length + (match lookup_one_len c.lo_d with
          | .ok _ => 1
          | .error _ => 0) := by
  induction pre with
  | nil =>
    simp only [List.nil_append, do_unlink_merge_loop, unlink_comrade_result] at hc ⊢
    cases hl : lookup_one_len c.lo_d with
    | error e => simp
    | ok d =>
      rw [hl] at hc
      simp only at hc
      simp [hc]
  | cons p pre ih =>
    have hp := hpre p (List.mem_cons_self _ _)
    obtain ⟨i1, i2, i3⟩ := ih (fun x hx => hpre x (List.mem_cons_of_mem _ hx))
    unfold unlink_comrade_result at hp
    cases hl : lookup_one_len p.lo_d with
    | error e =>
      rw [hl] at hp
      exact absurd hp (herr _ _ hl)
    | ok d =>
      rw [hl] at hp
      simp only at hp
      have e : do_unlink_merge_loop lookup_one_len vfs_unlink ((p :: pre) ++ c :: post)
          = ⟨(do_unlink_merge_loop lookup_one_len vfs_unlink (pre ++ c :: post)).ret,
             p.lo_d :: (do_unlink_merge_loop lookup_one_len vfs_unlink (pre ++ c :: post)).lookups,
             d :: (do_unlink_merge_loop lookup_one_len vfs_unlink (pre ++ c :: post)).unlinks⟩ := by
        show do_unlink_merge_loop lookup_one_len vfs_unlink (p :: (pre ++ c :: post)) = _
        simp [do_unlink_merge_loop, hl, hp]
      rw [e]
      refine ⟨i1, ?_, ?_⟩
      · simp [i2]
      · simp only [List.length_cons, i3]
        omega

/-- C16: `do_rmdir_merge` and `do_unlink_merge` apply the backing removal to
the comrades in list order and stop at the first comrade whose removal (or,
for unlink, whose lookup) fails: they return that comrade's error, the
comrades after it are not touched, the comrades before it were removed; and
they return 0 iff the removal of every comrade succeeded. An error of
`lookup_one_len` is not 0, as for every `ERR_PTR`. -/
theorem remove_stops_at_first_failure (vfs_rmdir : Dentry → Int)
    (lookup_one_len : Dentry → Except Int Dentry) (vfs_unlink : Dentry → Int)
    (dim : hmdfs_dentry_info_merge)
    (herr : ∀ d e, lookup_one_len d = .error e → e ≠ 0) :
    ((do_rmdir_merge vfs_rmdir dim).1 = 0 ↔ ∀ c ∈ dim.comrade_list, vfs_rmdir c.lo_d = 0) ∧
    ((∀ c ∈ dim.comrade_list, vfs_rmdir c.lo_d = 0) →
      (do_rmdir_merge vfs_rmdir dim).2 = dim.comrade_list.map (fun c => c.lo_d)) ∧
    (∀ pre c post, dim.comrade_list = pre ++ c :: post →
      (∀ x ∈ pre, vfs_rmdir x.lo_d = 0) → vfs_rmdir c.lo_d ≠ 0 →
      (do_rmdir_merge vfs_rmdir dim).1 = vfs_rmdir c.lo_d ∧
      (do_rmdir_merge vfs_rmdir dim).2 = (pre ++ [c]).map (fun x => x.lo_d)) ∧
    ((do_unlink_merge lookup_one_len vfs_unlink dim).ret = 0 ↔
      ∀ c ∈ dim.comrade_list, unlink_comrade_result lookup_one_len vfs_unlink c = 0) ∧
    ((∀ c ∈ dim.comrade_list, unlink_comrade_result lookup_one_len vfs_unlink c = 0) →
      (do_unlink_merge lookup_one_len vfs_unlink dim).lookups
        = dim.comrade_list.map (fun c => c.lo_d) ∧
      (do_unlink_merge lookup_one_len vfs_unlink dim).unlinks.length
        = dim.comrade_list.length) ∧
    (∀ pre c post, dim.comrade_list = pre ++ c :: post →
      (∀ x ∈ pre, unlink_comrade_result lookup_one_len vfs_unlink x = 0) →
      unlink_comrade_result lookup_one_len vfs_unlink c ≠ 0 →
      (do_unlink_merge lookup_one_len vfs_unlink dim).ret
        = unlink_comrade_result lookup_one_len vfs_unlink c ∧
      (do_unlink_merge lookup_one_len vfs_unlink dim).lookups
        = (pre ++ [c]).map (fun x => x.lo_d) ∧
      (do_unlink_merge lookup_one_len vfs_unlink dim).unlinks.length
        = pre.length + (match lookup_one_len c.lo_d with
            | .ok _ => 1
            | .error _ => 0)) := by
  refine ⟨rmdir_loop_zero_iff _ _, rmdir_loop_all _ _, ?_,
    unlink_loop_zero_iff _ _ _ herr, fun h => unlink_loop_all _ _ _ h herr, ?_⟩
  · intro pre c post hl hpre hc
    unfold do_rmdir_merge
    rw [hl, rmdir_loop_first_failure vfs_rmdir pre c post hpre hc]
    exact ⟨rfl, rfl⟩
  · intro pre c post hl hpre hc
    unfold do_unlink_merge
    rw [hl]
    exact unlink_loop_first_failure _ _ pre c post hpre hc herr

/-- Witness of C16: the node has comrades of the devices 0, 1 and 2 and the
removal fails for device 1: `do_rmdir_merge` returns that error after
calling `vfs_rmdir` for the devices 0 and 1 only, and so does
`do_unlink_merge`. -/
theorem remove_stops_at_first_failure_witness :
    (∀ d e, sampleLookupOneLen d = .error e → e ≠ 0) ∧
    do_rmdir_merge sampleRmdir sampleNode012 = (-39, [⟨10, S_IFDIR⟩, ⟨11, S_IFDIR⟩]) ∧
    (do_unlink_merge sampleLookupOneLen sampleUnlink sampleNode012).ret = -5 ∧
    (do_unlink_merge sampleLookupOneLen sampleUnlink sampleNode012).lookups
      = [⟨10, S_IFDIR⟩, ⟨11, S_IFDIR⟩] :=
  have herr : ∀ d e, sampleLookupOneLen d = .error e → e ≠ 0 := by
    intro d e h
    simp [sampleLookupOneLen] at h
  have h := remove_stops_at_first_failure sampleRmdir sampleLookupOneLen sampleUnlink
    sampleNode012 herr
  have h1 := h.2.2.1 [⟨0, ⟨10, S_IFDIR⟩⟩] ⟨1, ⟨11, S_IFDIR⟩⟩ [⟨2, ⟨12, S_IFDIR⟩⟩] rfl
    (by decide) (by decide)
  have h2 := h.2.2.2.2.2 [⟨0, ⟨10, S_IFDIR⟩⟩] ⟨1, ⟨11, S_IFDIR⟩⟩ [⟨2, ⟨12, S_IFDIR⟩⟩] rfl
    (by decide) (by decide)
  ⟨herr, Prod.ext h1.1 h1.2, h2.1, h2.2.1⟩

/-! ## Revalidation -/

theorem revalidate_loop_zero_iff (has_op : Dentry → Bool) (d_revalidate : Dentry → Nat → Int)
    (flags : Nat) (l : List hmdfs_dentry_comrade) :
    ∀ ret : Int, d_revalidate_merge_loop has_op d_revalidate flags ret l = 0 ↔
      ((∃ c ∈ l, has_op c.lo_d = true ∧ d_revalidate c.lo_d flags = 0) ∨
        (ret = 0 ∧ ∀ c ∈ l, has_op c.lo_d = false)) := by
  induction l with
  | nil =>
    intro ret
    simp [d_revalidate_merge_loop]
  | cons c rest ih =>
    intro ret
    simp only [d_revalidate_merge_loop]
    by_cases hop : has_op c.lo_d = true
    · rw [if_pos hop]
      by_cases hz : d_revalidate c.lo_d flags = 0
      · simp only [hz, if_true, true_iff]
        exact Or.inl ⟨c, List.mem_cons_self _ _, hop, hz⟩
      · simp only [hz, if_false]
        rw [ih]
        constructor
        · rintro (⟨x, hx, h1, h2⟩ | ⟨h0, _⟩)
          · exact Or.inl ⟨x, List.mem_cons_of_mem _ hx, h1, h2⟩
          · exact absurd h0 hz
        · rintro (⟨x, hx, h1, h2⟩ | ⟨_, hall⟩)
          · rcases List.mem_cons.mp hx with rfl | hm
            · exact absurd h2 hz
            · exact Or.inl ⟨x, hm, h1, h2⟩
          · have := hall c (List.mem_cons_self _ _)
            rw [hop] at this
            exact absurd this (by decide)
    · have hf : has_op c.lo_d = false := by simpa using hop
      rw [if_neg hop, ih]
      constructor
      · rintro (⟨x, hx, h1, h2⟩ | ⟨h0, hall⟩)
        · exact Or.inl ⟨x, List.mem_cons_of_mem _ hx, h1, h2⟩
        · refine Or.inr ⟨h0, ?_⟩
          intro x hx
          rcases List.mem_cons.mp hx with rfl | hm
          · exact hf
          · exact hall x hm
      · rintro (⟨x, hx, h1, h2⟩ | ⟨h0, hall⟩)
        · rcases List.mem_cons.mp hx with rfl | hm
          · rw [hf] at h1
            exact absurd h1 (by decide)
          · exact Or.inl ⟨x, hm, h1, h2⟩
        · exact Or.inr ⟨h0, fun x hx => hall x (List.mem_cons_of_mem _ hx)⟩

theorem revalidate_loop_binary (has_op : Dentry → Bool) (d_revalidate : Dentry → Nat → Int)
    (flags : Nat) (l : List hmdfs_dentry_comrade)
    (hbin : ∀ c ∈ l, has_op c.lo_d = true →
      (d_revalidate c.lo_d flags = 0 ∨ d_revalidate c.lo_d flags = 1)) :
    ∀ ret : Int, (ret = 0 ∨ ret = 1) →
      (d_revalidate_merge_loop has_op d_revalidate flags ret l = 0 ∨
        d_revalidate_merge_loop has_op d_revalidate flags ret l = 1) := by
  induction l with
  | nil =>
    intro ret hret
    exact hret
  | cons c rest ih =>
    intro ret hret
    simp only [d_revalidate_merge_loop]
    have ih2 := ih (fun x hx => hbin x (List.mem_cons_of_mem _ hx))
    by_cases hop : has_op c.lo_d = true
    · rw [if_pos hop]
      by_cases hz : d_revalidate c.lo_d flags = 0
      · simp [hz]
      · simp only [hz, if_false]
        exact ih2 _ (hbin c (List.mem_cons_self _ _) hop)
    · rw [if_neg hop]
      exact ih2 _ hret

/-- C20: for lookup flags without the RCU, create, rename-target and reval
bits and a node with an inode that is not of the always-trusted (cloud)
type, `d_revalidate_merge` returns 0 iff the backing revalidation of at
least one comrade returns 0 (invalid); when the backing revalidations report
only invalid (0) or valid (1) it returns 1 otherwise. A node of the cloud
type is reported valid (1) whatever its comrades report. -/
theorem revalidation_verdict (cloud : Nat) (has_op : Dentry → Bool)
    (d_revalidate : Dentry → Nat → Int) (t : Nat) (dim : hmdfs_dentry_info_merge)
    (flags : Nat) (hrcu : flags &&& LOOKUP_RCU = 0)
    (hint : flags &&& (LOOKUP_CREATE ||| LOOKUP_RENAME_TARGET ||| LOOKUP_REVAL) = 0) :
    (t ≠ cloud →
      (d_revalidate_merge cloud has_op d_revalidate (some t) dim flags = 0 ↔
        ∃ c ∈ dim.comrade_list, has_op c.lo_d = true ∧ d_revalidate c.lo_d flags = 0) ∧
      ((∀ c ∈ dim.comrade_list, has_op c.lo_d = true →
          (d_revalidate c.lo_d flags = 0 ∨ d_revalidate c.lo_d flags = 1)) →
        (¬ ∃ c ∈ dim.comrade_list, has_op c.lo_d = true ∧ d_revalidate c.lo_d flags = 0) →
        d_revalidate_merge cloud has_op d_revalidate (some t) dim flags = 1)) ∧
    d_revalidate_merge cloud has_op d_revalidate (some cloud) dim flags = 1 := by
  have h1 : ¬ (flags &&& LOOKUP_RCU ≠ 0) := by simp [hrcu]
  have h2 : ¬ (flags &&& (LOOKUP_CREATE ||| LOOKUP_RENAME_TARGET ||| LOOKUP_REVAL) ≠ 0) := by
    simp [hint]
  constructor
  · intro ht
    have e : d_revalidate_merge cloud has_op d_revalidate (some t) dim flags
        = d_revalidate_merge_loop has_op d_revalidate flags 1 dim.comrade_list := by
      unfold d_revalidate_merge
      rw [if_neg h1, if_neg h2]
      simp [ht]
    rw [e]
    have hz := revalidate_loop_zero_iff has_op d_revalidate flags dim.comrade_list 1
    constructor
    · rw [hz]
      constructor
      · rintro (h | ⟨h, _⟩)
        · exact h
        · exact absurd h (by decide)
      · intro h
        exact Or.inl h
    · intro hbin hno
      rcases revalidate_loop_binary has_op d_revalidate flags dim.comrade_list hbin 1
        (Or.inr rfl) with h | h
      · rw [hz] at h
        rcases h with h | ⟨h, _⟩
        · exact absurd h hno
        · exact absurd h (by decide)
      · exact h
  · unfold d_revalidate_merge
    rw [if_neg h1, if_neg h2]
    simp

/-- Witness of C20: with the lookup flags 0, a node of inode type 3 (the
cloud type being 7) whose comrade of device 1 is reported invalid is stale;
a node of the cloud type is valid. -/
theorem revalidation_verdict_witness :
    ((0 : Nat) &&& LOOKUP_RCU = 0 ∧
      (0 : Nat) &&& (LOOKUP_CREATE ||| LOOKUP_RENAME_TARGET ||| LOOKUP_REVAL) = 0) ∧
    d_revalidate_merge 7 (fun _ => true) sampleRevalidate (some 3) sampleNode012 0 = 0 ∧
    d_revalidate_merge 7 (fun _ => true) sampleRevalidate (some 7) sampleNode012 0 = 1 :=
  have h := revalidation_verdict 7 (fun _ => true) sampleRevalidate 3 sampleNode012 0
    (by decide) (by decide)
  ⟨⟨by decide, by decide⟩,
    ((h.1 (by decide)).1).mpr ⟨⟨1, ⟨11, S_IFDIR⟩⟩, by decide, rfl, by decide⟩,
    h.2⟩

/-! ## Rename -/

/-- The dentry returned by `hmdfs_get_lo_d` does not depend on the
reference counts. -/
theorem get_lo_d_snd (refs : Refs) (dim : hmdfs_dentry_info_merge) (dev_id : Int) :
    (hmdfs_get_lo_d refs dim dev_id).2 = comrade_lo_d dim dev_id := by
  unfold comrade_lo_d hmdfs_get_lo_d
  cases dim.comrade_list.find? (fun comrade => comrade.dev_id == dev_id) <;> rfl

/-- A node has a comrade of a device exactly when `hmdfs_get_lo_d` finds
one. -/
theorem comrade_lo_d_isSome (dim : hmdfs_dentry_info_merge) (dev_id : Int) :
    (comrade_lo_d dim dev_id).isSome = dim.comrade_list.any (fun p => p.dev_id == dev_id) := by
  unfold comrade_lo_d hmdfs_get_lo_d
  cases h : dim.comrade_list.find? (fun comrade => comrade.dev_id == dev_id) with
  | none =>
    simp only [Option.isSome_none]
    rw [List.find?_eq_none] at h
    symm
    rw [Bool.eq_false_iff]
    intro hany
    rw [List.any_eq_true] at hany
    obtain ⟨x, hx, hp⟩ := hany
    exact h x hx hp
  | some c =>
    simp only [Option.isSome_some]
    symm
    rw [List.any_eq_true]
    exact ⟨c, List.mem_of_find?_eq_some h, List.find?_some (p := fun (comrade : hmdfs_dentry_comrade) => comrade.dev_id == dev_id) h⟩

/-- The loop of `do_rename_merge` skips a comrade whose device has no
comrade in the destination parent. -/
theorem rename_loop_skip (fs : LowerFs) (old_mode : Nat) (pmdi : hmdfs_dentry_info_merge)
    (new_name : List Char) (flags : Nat) (c : hmdfs_dentry_comrade)
    (rest : List hmdfs_dentry_comrade) (ret : Int) (st : RenameState)
    (h : comrade_lo_d pmdi c.dev_id = none) :
    do_rename_merge_loop fs old_mode pmdi new_name flags (c :: rest) ret st =
      do_rename_merge_loop fs old_mode pmdi new_name flags rest ret st := by
  have h2 := get_lo_d_snd st.refs pmdi c.dev_id
  rw [h] at h2
  rcases hg : hmdfs_get_lo_d st.refs pmdi c.dev_id with ⟨refs1, o⟩
  rw [hg] at h2
  simp only at h2
  subst h2
  rw [do_rename_merge_loop, hg]

/-- The loop of `do_rename_merge` at a comrade whose device has a comrade
in the destination parent, when the path of the new entry is created: one
`vfs_rename` is called and the loop goes on. -/
theorem rename_loop_step (fs : LowerFs) (old_mode : Nat) (pmdi : hmdfs_dentry_info_merge)
    (new_name : List Char) (flags : Nat) (c : hmdfs_dentry_comrade)
    (rest : List hmdfs_dentry_comrade) (ret : Int) (st : RenameState)
    (lo : Dentry) (p : List Char) (n : Dentry × Dentry)
    (h : comrade_lo_d pmdi c.dev_id = some lo)
    (hp : fs.dentry_path_raw lo = .ok p)
    (hlen : ¬ (fs.real_dst.length + p.length + new_name.length + 2 > PATH_MAX))
    (hk : fs.kern_path_create
      (snprintf PATH_MAX (fs.real_dst ++ p ++ "/".toList ++ new_name)) (S_ISDIR old_mode)
        = .ok n) :
    ∃ ret1 st1,
      do_rename_merge_loop fs old_mode pmdi new_name flags (c :: rest) ret st =
        do_rename_merge_loop fs old_mode pmdi new_name flags rest ret1 st1 ∧
      st1.renames = st.renames ++ [(c.lo_d, n.1)] ∧
      (fs.vfs_rename c.lo_d n.1 flags = 0 → fs.comrade_ok n.2 = true → ret1 = 0) := by
  have h2 := get_lo_d_snd st.refs pmdi c.dev_id
  rw [h] at h2
  rcases hg : hmdfs_get_lo_d st.refs pmdi c.dev_id with ⟨refs1, o⟩
  rw [hg] at h2
  simp only at h2
  subst h2
  obtain ⟨n1, n2⟩ := n
  rw [do_rename_merge_loop, hg]
  simp only [hp, hk, if_neg hlen]
  cases hok : fs.comrade_ok n2 with
  | false =>
    simp only [alloc_comrade, Bool.false_eq_true, if_false]
    exact ⟨_, _, rfl, rfl, fun _ hc => absurd hc (by simp)⟩
  | true =>
    simp only [alloc_comrade, if_true]
    exact ⟨_, _, rfl, rfl, fun hr _ => hr⟩

/-- The renames of the loop of `do_rename_merge` when the path of every
new entry is created: one per comrade whose device has a comrade in the
destination parent, in list order. -/
theorem rename_loop_renames (fs : LowerFs) (old_mode : Nat) (pmdi : hmdfs_dentry_info_merge)
    (new_name : List Char) (flags : Nat) :
    ∀ (l : List hmdfs_dentry_comrade) (ret : Int) (st : RenameState),
    (∀ c ∈ l, ∀ lo, comrade_lo_d pmdi c.dev_id = some lo →
      ∃ p n, fs.dentry_path_raw lo = .ok p ∧
        ¬ (fs.real_dst.length + p.length + new_name.length + 2 > PATH_MAX) ∧
        fs.kern_path_create
          (snprintf PATH_MAX (fs.real_dst ++ p ++ "/".toList ++ new_name)) (S_ISDIR old_mode)
            = .ok n) →
    ((do_rename_merge_loop fs old_mode pmdi new_name flags l ret st).2.renames.map Prod.fst =
      st.renames.map Prod.fst ++
        (l.filter (fun c => pmdi.comrade_list.any (fun p => p.dev_id == c.dev_id))).map
          (fun c => c.lo_d)) ∧
    ((∀ c ∈ l, ∀ new, fs.vfs_rename c.lo_d new flags = 0) → (∀ d, fs.comrade_ok d = true) →
      ret = 0 → (do_rename_merge_loop fs old_mode pmdi new_name flags l ret st).1 = 0) ∧
    ((∀ c ∈ l, pmdi.comrade_list.any (fun p => p.dev_id == c.dev_id) = false) →
      do_rename_merge_loop fs old_mode pmdi new_name flags l ret st = (ret, st)) := by
  intro l
  induction l with
  | nil =>
    intro ret st _
    simp [do_rename_merge_loop]
  | cons c rest ih =>
    intro ret st hpath
    have hrest : ∀ c ∈ rest, ∀ lo, comrade_lo_d pmdi c.dev_id = some lo →
        ∃ p n, fs.dentry_path_raw lo = .ok p ∧
          ¬ (fs.real_dst.length + p.length + new_name.length + 2 > PATH_MAX) ∧
          fs.kern_path_create
            (snprintf PATH_MAX (fs.real_dst ++ p ++ "/".toList ++ new_name))
              (S_ISDIR old_mode) = .ok n :=
      fun c hc => hpath c (List.mem_cons_of_mem _ hc)
    cases hm : comrade_lo_d pmdi c.dev_id with
    | none =>
      have hany : pmdi.comrade_list.any (fun p => p.dev_id == c.dev_id) = false := by
        rw [← comrade_lo_d_isSome, hm]; rfl
      rw [rename_loop_skip fs old_mode pmdi new_name flags c rest ret st hm]
      obtain ⟨i1, i2, i3⟩ := ih ret st hrest
      refine ⟨?_, fun hv => i2 (fun c hc => hv c (List.mem_cons_of_mem _ hc)), ?_⟩
      · rw [i1, List.filter_cons_of_neg (by simp [hany])]
      · intro hall
        exact i3 (fun c hc => hall c (List.mem_cons_of_mem _ hc))
    | some lo =>
      have hany : pmdi.comrade_list.any (fun p => p.dev_id == c.dev_id) = true := by
        rw [← comrade_lo_d_isSome, hm]; rfl
      obtain ⟨p, n, hp, hlen, hk⟩ := hpath c (List.mem_cons_self _ _) lo hm
      obtain ⟨ret1, st1, e, hren, hret⟩ :=
        rename_loop_step fs old_mode pmdi new_name flags c rest ret st lo p n hm hp hlen hk
      rw [e]
      obtain ⟨i1, i2, _⟩ := ih ret1 st1 hrest
      refine ⟨?_, ?_, ?_⟩
      · rw [i1, hren, List.filter_cons_of_pos (by simp [hany])]
        simp
      · intro hv hc _
        exact i2 (fun c hc => hv c (List.mem_cons_of_mem _ hc)) hc
          (hret (hv c (List.mem_cons_self _ _) _) (hc _))
      · intro hall
        have := hall c (List.mem_cons_self _ _)
        rw [hany] at this
        exact absurd this (by simp)
/-- The backing renames of the loop of `do_rename_merge` are renames of
comrades whose device has a comrade in the destination parent, in list
order, whatever the backing store answers. -/
theorem rename_loop_sublist (fs : LowerFs) (old_mode : Nat) (pmdi : hmdfs_dentry_info_merge)
    (new_name : List Char) (flags : Nat) :
    ∀ (l : List hmdfs_dentry_comrade) (ret : Int) (st : RenameState),
    ∃ s, (do_rename_merge_loop fs old_mode pmdi new_name flags l ret st).2.renames.map Prod.fst
        = st.renames.map Prod.fst ++ s ∧
      s.Sublist ((l.filter (fun c => pmdi.comrade_list.any (fun p => p.dev_id == c.dev_id))).map
        (fun c => c.lo_d)) := by
  intro l
  induction l with
  | nil =>
    intro ret st
    exact ⟨[], by simp [do_rename_merge_loop], by simp⟩
  | cons c rest ih =>
    intro ret st
    cases hm : comrade_lo_d pmdi c.dev_id with
    | none =>
      have hany : pmdi.comrade_list.any (fun p => p.dev_id == c.dev_id) = false := by
        rw [← comrade_lo_d_isSome, hm]; rfl
      rw [rename_loop_skip fs old_mode pmdi new_name flags c rest ret st hm,
        List.filter_cons_of_neg (by simp [hany])]
      exact ih ret st
    | some lo =>
      have hany : pmdi.comrade_list.any (fun p => p.dev_id == c.dev_id) = true := by
        rw [← comrade_lo_d_isSome, hm]; rfl
      have h2 := get_lo_d_snd st.refs pmdi c.dev_id
      rw [hm] at h2
      rcases hg : hmdfs_get_lo_d st.refs pmdi c.dev_id with ⟨refs1, o⟩
      rw [hg] at h2
      simp only at h2
      subst h2
      rw [do_rename_merge_loop, hg, List.filter_cons_of_pos (by simp [hany]), List.map_cons]
      simp only
      cases hp : fs.dentry_path_raw lo with
      | error err =>
        simp only
        obtain ⟨s, h1, h2⟩ := ih err { st with refs := dput refs1 lo }
        exact ⟨s, h1, h2.cons _⟩
      | ok p =>
        simp only
        by_cases hlen : fs.real_dst.length + p.length + new_name.length + 2 > PATH_MAX
        · rw [if_pos hlen]
          exact ⟨[], by simp, by simp⟩
        · rw [if_neg hlen]
          cases hk : fs.kern_path_create
              (snprintf PATH_MAX (fs.real_dst ++ p ++ "/".toList ++ new_name))
              (S_ISDIR old_mode) with
          | error err => exact ⟨[], by simp, by simp⟩
          | ok n =>
            obtain ⟨n1, n2⟩ := n
            simp only
            cases hok : fs.comrade_ok n2 with
            | false =>
              simp only [alloc_comrade, Bool.false_eq_true, if_false]
              obtain ⟨s, h1, h2⟩ := ih (-ENOMEM)
                { refs := dput refs1 lo, new_dim := st.new_dim,
                  renames := st.renames ++ [(c.lo_d, n1)] }
              refine ⟨c.lo_d :: s, ?_, h2.cons₂ _⟩
              rw [h1]
              simp
            | true =>
              simp only [alloc_comrade, if_true]
              obtain ⟨s, h1, h2⟩ := ih (fs.vfs_rename c.lo_d n1 flags)
                { refs := (link_comrade_unlocked (dget (dput refs1 lo) n2) st.new_dim
                    ⟨c.dev_id, n2⟩).1,
                  new_dim := (link_comrade_unlocked (dget (dput refs1 lo) n2) st.new_dim
                    ⟨c.dev_id, n2⟩).2,
                  renames := st.renames ++ [(c.lo_d, n1)] }
              refine ⟨c.lo_d :: s, ?_, h2.cons₂ _⟩
              rw [h1]
              simp

/-- C18 (as amended): called with flags that hold nothing but
`RENAME_NOREPLACE`, `do_rename_merge` calls `vfs_rename` only for comrades
of the old dentry whose device has a comrade in the destination parent, in
list order; when the buffers are allocated and the path of the new backing
entry can be printed, fits in `PATH_MAX` and is created below every
destination comrade concerned, it calls `vfs_rename` for exactly these
comrades, and returns 0 when these renames succeed and the new comrades are
allocated; when no device is on both sides it returns 0 and changes
nothing; and the loop passes over a comrade whose device has no comrade in
the destination parent without touching the return value or the state. -/
theorem rename_only_common_devices (fs : LowerFs) (bufs_ok : Bool)
    (dim : hmdfs_dentry_info_merge) (old_mode : Nat) (pmdi : hmdfs_dentry_info_merge)
    (new_name : List Char) (flags : Nat) (st : RenameState)
    (hflags : flags &&& (0xFFFFFFFF ^^^ RENAME_NOREPLACE) = 0) :
    (∃ s, (do_rename_merge fs bufs_ok dim old_mode pmdi new_name flags st).2.renames.map
          Prod.fst = st.renames.map Prod.fst ++ s ∧
      s.Sublist ((dim.comrade_list.filter
        (fun c => pmdi.comrade_list.any (fun p => p.dev_id == c.dev_id))).map
        (fun c => c.lo_d))) ∧
    (bufs_ok = true →
      (∀ c ∈ dim.comrade_list, ∀ lo, comrade_lo_d pmdi c.dev_id = some lo →
        ∃ p n, fs.dentry_path_raw lo = .ok p ∧
          ¬ (fs.real_dst.length + p.length + new_name.length + 2 > PATH_MAX) ∧
          fs.kern_path_create
            (snprintf PATH_MAX (fs.real_dst ++ p ++ "/".toList ++ new_name))
              (S_ISDIR old_mode) = .ok n) →
      ((do_rename_merge fs bufs_ok dim old_mode pmdi new_name flags st).2.renames.map Prod.fst =
        st.renames.map Prod.fst ++
          (dim.comrade_list.filter
            (fun c => pmdi.comrade_list.any (fun p => p.dev_id == c.dev_id))).map
            (fun c => c.lo_d)) ∧
      ((∀ c ∈ dim.comrade_list, ∀ new, fs.vfs_rename c.lo_d new flags = 0) →
        (∀ d, fs.comrade_ok d = true) →
        (do_rename_merge fs bufs_ok dim old_mode pmdi new_name flags st).1 = 0)) ∧
    (bufs_ok = true →
      (∀ c ∈ dim.comrade_list,
        pmdi.comrade_list.any (fun p => p.dev_id == c.dev_id) = false) →
      do_rename_merge fs bufs_ok dim old_mode pmdi new_name flags st = (0, st)) ∧
    (∀ (c : hmdfs_dentry_comrade) (rest : List hmdfs_dentry_comrade) (ret : Int)
        (st2 : RenameState),
      pmdi.comrade_list.any (fun p => p.dev_id == c.dev_id) = false →
      do_rename_merge_loop fs old_mode pmdi new_name flags (c :: rest) ret st2 =
        do_rename_merge_loop fs old_mode pmdi new_name flags rest ret st2) := by
  refine ⟨?_, ?_, ?_, ?_⟩
  · unfold do_rename_merge
    rw [if_neg (by simp [hflags])]
    by_cases hb : bufs_ok = false
    · rw [if_pos hb]
      exact ⟨[], by simp, by simp⟩
    · rw [if_neg hb]
      exact rename_loop_sublist fs old_mode pmdi new_name flags dim.comrade_list 0 st
  · intro hb hpath
    subst hb
    have e : do_rename_merge fs true dim old_mode pmdi new_name flags st =
        do_rename_merge_loop fs old_mode pmdi new_name flags dim.comrade_list 0 st := by
      unfold do_rename_merge
      rw [if_neg (by simp [hflags]), if_neg (by simp)]
    rw [e]
    obtain ⟨h1, h2, _⟩ :=
      rename_loop_renames fs old_mode pmdi new_name flags dim.comrade_list 0 st hpath
    exact ⟨h1, fun hv hc => h2 hv hc rfl⟩
  · intro hb hnone
    subst hb
    have e : do_rename_merge fs true dim old_mode pmdi new_name flags st =
        do_rename_merge_loop fs old_mode pmdi new_name flags dim.comrade_list 0 st := by
      unfold do_rename_merge
      rw [if_neg (by simp [hflags]), if_neg (by simp)]
    rw [e]
    have hskip : ∀ (l : List hmdfs_dentry_comrade),
        (∀ c ∈ l, pmdi.comrade_list.any (fun p => p.dev_id == c.dev_id) = false) →
        do_rename_merge_loop fs old_mode pmdi new_name flags l 0 st = (0, st) := by
      intro l
      induction l with
      | nil => intro _; simp [do_rename_merge_loop]
      | cons c rest ih =>
        intro hall
        have hm : comrade_lo_d pmdi c.dev_id = none := by
          have := comrade_lo_d_isSome pmdi c.dev_id
          rw [hall c (List.mem_cons_self _ _)] at this
          exact Option.not_isSome_iff_eq_none.mp (by simp [this])
        rw [rename_loop_skip fs old_mode pmdi new_name flags c rest 0 st hm]
        exact ih (fun c hc => hall c (List.mem_cons_of_mem _ hc))
    exact hskip dim.comrade_list hnone
  · intro c rest ret st2 hany
    have hm : comrade_lo_d pmdi c.dev_id = none := by
      have := comrade_lo_d_isSome pmdi c.dev_id
      rw [hany] at this
      exact Option.not_isSome_iff_eq_none.mp (by simp [this])
    exact rename_loop_skip fs old_mode pmdi new_name flags c rest ret st2 hm

/-- Witness of C18: a directory with comrades on the devices 0 and 2 is
renamed into a parent with a comrade on the device 0 only: the one backing
rename is that of the comrade of device 0, and 0 is returned. -/
theorem rename_only_common_devices_witness :
    ((0 : Nat) &&& (0xFFFFFFFF ^^^ RENAME_NOREPLACE) = 0) ∧
    (do_rename_merge sampleRenameFs true sampleDirNode02ok S_IFDIR sampleParent0 "b".toList 0
      sampleRenameState).2.renames.map Prod.fst = [⟨11, S_IFDIR⟩] ∧
    (do_rename_merge sampleRenameFs true sampleDirNode02ok S_IFDIR sampleParent0 "b".toList 0
      sampleRenameState).1 = 0 :=
  have hpath : ∀ c ∈ sampleDirNode02ok.comrade_list, ∀ lo,
      comrade_lo_d sampleParent0 c.dev_id = some lo →
      ∃ p n, sampleRenameFs.dentry_path_raw lo = .ok p ∧
        ¬ (sampleRenameFs.real_dst.length + p.length + "b".toList.length + 2 > PATH_MAX) ∧
        sampleRenameFs.kern_path_create
          (snprintf PATH_MAX (sampleRenameFs.real_dst ++ p ++ "/".toList ++ "b".toList))
            (S_ISDIR S_IFDIR) = .ok n := by
    intro c hc lo hlo
    simp only [sampleDirNode02ok, List.mem_cons, List.mem_singleton, List.not_mem_nil,
      or_false] at hc
    rcases hc with rfl | rfl
    · have hlo2 : lo = ⟨20, S_IFDIR⟩ := by
        have : comrade_lo_d sampleParent0 0 = some ⟨20, S_IFDIR⟩ := by decide
        rw [this] at hlo
        exact (Option.some.inj hlo).symm
      subst hlo2
      exact ⟨"/local/docs".toList, (⟨117, 0⟩, ⟨217, S_IFDIR⟩), rfl, by decide, rfl⟩
    · have : comrade_lo_d sampleParent0 2 = none := by decide
      rw [this] at hlo
      exact absurd hlo (by simp)
  have h := (rename_only_common_devices sampleRenameFs true sampleDirNode02ok S_IFDIR
    sampleParent0 "b".toList 0 sampleRenameState (by decide)).2.1 rfl hpath
  have hv : ∀ c ∈ sampleDirNode02ok.comrade_list, ∀ new,
      sampleRenameFs.vfs_rename c.lo_d new 0 = 0 := by
    intro c hc new
    simp only [sampleDirNode02ok, List.mem_cons, List.mem_singleton, List.not_mem_nil,
      or_false] at hc
    rcases hc with rfl | rfl <;> rfl
  ⟨by decide, h.1.trans (by decide), h.2 hv (fun _ => rfl)⟩

/-- Counterexample to C18 as stated: a directory with comrades on the
devices 0 and 2 is renamed into a parent with comrades on both devices.
When `dentry_path_raw` fails for the parent's backing dentry of device 0,
the comrade of device 0 is passed over, only that of device 2 is renamed,
and 0 is returned; with the flag `RENAME_EXCHANGE`, or without the path
buffers, or when `kern_path_create` fails, no comrade is renamed and an
error is returned. -/
theorem rename_only_common_devices_counterexample :
    (sampleParentNoPath.comrade_list.any (fun p => p.dev_id == 0) = true ∧
      (do_rename_merge sampleRenameFs true sampleDirNode02ok S_IFDIR sampleParentNoPath
        "b".toList 0 sampleRenameState).1 = 0 ∧
      (do_rename_merge sampleRenameFs true sampleDirNode02ok S_IFDIR sampleParentNoPath
        "b".toList 0 sampleRenameState).2.renames = [(⟨12, S_IFDIR⟩, ⟨116, 0⟩)] ∧
      (do_rename_merge sampleRenameFs true sampleDirNode02ok S_IFDIR sampleParentNoPath
        "b".toList 0 sampleRenameState).2.new_dim.comrade_list = [⟨2, ⟨216, S_IFDIR⟩⟩]) ∧
    (sampleParent02.comrade_list.any (fun p => p.dev_id == 0) = true ∧
      sampleParent02.comrade_list.any (fun p => p.dev_id == 2) = true ∧
      (do_rename_merge sampleRenameFs true sampleDirNode02ok S_IFDIR sampleParent02
        "b".toList 2 sampleRenameState).1 = -EINVAL ∧
      (do_rename_merge sampleRenameFs true sampleDirNode02ok S_IFDIR sampleParent02
        "b".toList 2 sampleRenameState).2.renames = [] ∧
      (do_rename_merge sampleRenameFs false sampleDirNode02ok S_IFDIR sampleParent02
        "b".toList 0 sampleRenameState).1 = -ENOMEM ∧
      (do_rename_merge sampleRenameFs false sampleDirNode02ok S_IFDIR sampleParent02
        "b".toList 0 sampleRenameState).2.renames = [] ∧
      (do_rename_merge sampleRenameFsNoCreate true sampleDirNode02ok S_IFDIR sampleParent02
        "b".toList 0 sampleRenameState).1 = -ENOENT ∧
      (do_rename_merge sampleRenameFsNoCreate true sampleDirNode02ok S_IFDIR sampleParent02
        "b".toList 0 sampleRenameState).2.renames = []) := by
  refine ⟨⟨by decide, by decide, by decide, by decide⟩, by decide, by decide, by decide,
    by decide, by decide, by decide, by decide, by decide⟩

/-- C17: a directory with comrades on the devices 0 and 2 is renamed into a
parent with comrades on both, and the backing rename of the comrade of
device 0 fails with `-EIO`: `do_rename_merge` does not stop, it renames the
comrade of device 2 as well, attaches a new comrade of device 0 to the
destination node and returns 0, the result of the last rename. -/
theorem rename_goes_on_after_failure :
    sampleRenameFs.vfs_rename ⟨10, S_IFDIR⟩ ⟨117, 0⟩ 0 = - EIO ∧
    (do_rename_merge sampleRenameFs true sampleDirNode02 S_IFDIR sampleParent02 "b".toList 0
      sampleRenameState).1 = 0 ∧
    (do_rename_merge sampleRenameFs true sampleDirNode02 S_IFDIR sampleParent02 "b".toList 0
      sampleRenameState).2.renames
        = [(⟨10, S_IFDIR⟩, ⟨117, 0⟩), (⟨12, S_IFDIR⟩, ⟨116, 0⟩)] ∧
    (do_rename_merge sampleRenameFs true sampleDirNode02 S_IFDIR sampleParent02 "b".toList 0
      sampleRenameState).2.new_dim.comrade_list
        = [⟨0, ⟨217, S_IFDIR⟩⟩, ⟨2, ⟨216, S_IFDIR⟩⟩] := by
  refine ⟨by decide, by decide, by decide, by decide⟩

/-- C19: `hmdfs_rename_merge` rejects every rename whose two parent
directories are of different inode types or have different paths: it
returns an error, `do_rename_merge` is not reached and nothing is renamed.
The error is `-EPERM` when both names are of the common type (and, for
parents of the same type, the two path buffers are allocated), and
`-EACCES` when one of the names is not. When `do_rename_merge` is reached,
both names are common, the inode types are equal and the two parent paths
are equal. -/
theorem cross_directory_rename (nt : NameTypes) (fs : LowerFs) (old_name new_name : List Char)
    (old_type new_type : Nat) (old_buf_ok new_buf_ok : Bool)
    (old_alias new_alias : Option (Except Int (List Char))) (bufs_ok : Bool)
    (dim : hmdfs_dentry_info_merge) (old_mode : Nat) (pmdi : hmdfs_dentry_info_merge)
    (flags : Nat) (st : RenameState) :
    ((old_type ≠ new_type ∨
        ∃ op np, old_alias = some (.ok op) ∧ new_alias = some (.ok np) ∧ op ≠ np) →
      ∃ r, hmdfs_rename_merge nt fs old_name new_name old_type new_type old_buf_ok new_buf_ok
          old_alias new_alias bufs_ok dim old_mode pmdi flags st = some r ∧
        r.ret ≠ 0 ∧ r.reached = false ∧ r.st = st ∧
        (nt.hmdfs_file_type old_name = nt.HMDFS_TYPE_COMMON →
          nt.hmdfs_file_type new_name = nt.HMDFS_TYPE_COMMON →
          (old_type ≠ new_type ∨ (old_buf_ok = true ∧ new_buf_ok = true)) →
          r.ret = -EPERM) ∧
        ((nt.hmdfs_file_type old_name ≠ nt.HMDFS_TYPE_COMMON ∨
            nt.hmdfs_file_type new_name ≠ nt.HMDFS_TYPE_COMMON) → r.ret = -EACCES)) ∧
    (∀ r, hmdfs_rename_merge nt fs old_name new_name old_type new_type old_buf_ok new_buf_ok
          old_alias new_alias bufs_ok dim old_mode pmdi flags st = some r →
      r.reached = true →
      nt.hmdfs_file_type old_name = nt.HMDFS_TYPE_COMMON ∧
      nt.hmdfs_file_type new_name = nt.HMDFS_TYPE_COMMON ∧
      old_type = new_type ∧
      ∃ p, old_alias = some (.ok p) ∧ new_alias = some (.ok p)) := by
  constructor
  · intro hdiff
    unfold hmdfs_rename_merge
    by_cases hn : nt.hmdfs_file_type old_name ≠ nt.HMDFS_TYPE_COMMON ∨
        nt.hmdfs_file_type new_name ≠ nt.HMDFS_TYPE_COMMON
    · rw [if_pos hn]
      refine ⟨_, rfl, by simp [EACCES], rfl, rfl, ?_, fun _ => rfl⟩
      intro h1 h2
      rcases hn with hn | hn
      · exact absurd h1 hn
      · exact absurd h2 hn
    · rw [if_neg hn]
      by_cases ht : old_type ≠ new_type
      · rw [if_pos ht]
        exact ⟨_, rfl, by simp [EPERM], rfl, rfl, fun _ _ _ => rfl, fun h => absurd h hn⟩
      · rw [if_neg ht]
        rcases hdiff with hd | ⟨op, np, ho, hnw, hne⟩
        · exact absurd hd ht
        · subst ho hnw
          by_cases hb : old_buf_ok = false ∨ new_buf_ok = false
          · rw [if_pos hb]
            refine ⟨_, rfl, by simp [ENOMEM], rfl, rfl, ?_, fun h => absurd h hn⟩
            intro _ _ h3
            rcases h3 with h3 | ⟨h3, h4⟩
            · exact absurd h3 ht
            · rcases hb with hb | hb
              · rw [hb] at h3; exact absurd h3 (by simp)
              · rw [hb] at h4; exact absurd h4 (by simp)
          · rw [if_neg hb]
            simp only [if_pos hne]
            exact ⟨_, rfl, by simp [EPERM], rfl, rfl, fun _ _ _ => rfl, fun h => absurd h hn⟩
  · intro r hr hreach
    unfold hmdfs_rename_merge at hr
    by_cases hn : nt.hmdfs_file_type old_name ≠ nt.HMDFS_TYPE_COMMON ∨
        nt.hmdfs_file_type new_name ≠ nt.HMDFS_TYPE_COMMON
    · rw [if_pos hn] at hr
      have := Option.some.inj hr
      subst this
      exact absurd hreach (by simp)
    · rw [if_neg hn] at hr
      have hn1 : nt.hmdfs_file_type old_name = nt.HMDFS_TYPE_COMMON := by
        by_contra h; exact hn (Or.inl h)
      have hn2 : nt.hmdfs_file_type new_name = nt.HMDFS_TYPE_COMMON := by
        by_contra h; exact hn (Or.inr h)
      by_cases ht : old_type ≠ new_type
      · rw [if_pos ht] at hr
        have := Option.some.inj hr
        subst this
        exact absurd hreach (by simp)
      · rw [if_neg ht] at hr
        have ht2 : old_type = new_type := by
          by_contra h; exact ht h
        by_cases hb : old_buf_ok = false ∨ new_buf_ok = false
        · rw [if_pos hb] at hr
          have := Option.some.inj hr
          subst this
          exact absurd hreach (by simp)
        · rw [if_neg hb] at hr
          cases new_alias with
          | none =>
            have := Option.some.inj hr
            subst this
            exact absurd hreach (by simp)
          | some new_res =>
            cases old_alias with
            | none =>
              have := Option.some.inj hr
              subst this
              exact absurd hreach (by simp)
            | some old_res =>
              cases old_res with
              | error e => cases new_res <;> simp at hr
              | ok op =>
                cases new_res with
                | error e => simp at hr
                | ok np =>
                  simp only at hr
                  by_cases hne : op ≠ np
                  · rw [if_pos hne] at hr
                    have := Option.some.inj hr
                    subst this
                    exact absurd hreach (by simp)
                  · have hpe : op = np := by
                      by_contra h; exact hne h
                    exact ⟨hn1, hn2, ht2, op, rfl, by rw [hpe]⟩

/-- Witness of C19: the rename of `a` to `b` between parents of the inode
types 1 and 2 is rejected with `-EPERM` and nothing is renamed; between
parents of the same type and the same path `/docs` it reaches
`do_rename_merge`. -/
theorem cross_directory_rename_witness :
    (hmdfs_rename_merge sampleTypes sampleRenameFs "a".toList "b".toList 1 2 true true
      (some (.ok "/docs".toList)) (some (.ok "/docs".toList)) true sampleNode02ok S_IFREG
      sampleParent0 0 sampleRenameState).map (fun r => (r.ret, r.reached, r.st.renames))
        = some (-EPERM, false, []) ∧
    (hmdfs_rename_merge sampleTypes sampleRenameFs "a".toList "b".toList 1 1 true true
      (some (.ok "/docs".toList)) (some (.ok "/docs".toList)) true sampleNode02ok S_IFREG
      sampleParent0 0 sampleRenameState).map (fun r => (r.ret, r.reached))
        = some (0, true) :=
  have h := cross_directory_rename sampleTypes sampleRenameFs "a".toList "b".toList 1 2 true
    true (some (.ok "/docs".toList)) (some (.ok "/docs".toList)) true sampleNode02ok S_IFREG
    sampleParent0 0 sampleRenameState
  have h1 := h.1 (Or.inl (by decide))
  ⟨by
    obtain ⟨r, hr, _, hreach, hst, hperm, _⟩ := h1
    rw [hr]
    have hp := hperm (by decide) (by decide) (Or.inl (by decide))
    simp [hp, hreach, hst, sampleRenameState],
   by decide⟩

/-- Counterexample to C19: the name `a_conflict_dev2.txt` is not of the
common type; its rename to `b` between parents of the different inode types
1 and 2 is rejected with `-EACCES`, not with `-EPERM`. -/
theorem cross_directory_rename_counterexample :
    sampleTypes.hmdfs_file_type "a_conflict_dev2.txt".toList ≠ sampleTypes.HMDFS_TYPE_COMMON ∧
    (1 : Nat) ≠ 2 ∧
    (hmdfs_rename_merge sampleTypes sampleRenameFs "a_conflict_dev2.txt".toList "b".toList 1 2
      true true (some (.ok "/docs".toList)) (some (.ok "/docs".toList)) true sampleNode02ok
      S_IFREG sampleParent0 0 sampleRenameState).map (fun r => r.ret) = some (-EACCES) ∧
    -EACCES ≠ -EPERM := by
  refine ⟨by decide, by decide, by decide, by decide⟩

/-! ## Creation -/

/-- The calls and the result of `hmdfs_do_ops_merge`. -/
theorem do_ops_spec (fs : LowerFs) (i_nlink : Nat) (lo_d_child path_dentry : Dentry)
    (para : hmdfs_recursive_para) (st : CreateState) :
    (hmdfs_do_ops_merge fs i_nlink lo_d_child path_dentry para st).2.2.calls =
      st.calls ++ (level_call para (lo_d_child, path_dentry)).toList ∧
    ((hmdfs_do_ops_merge fs i_nlink lo_d_child path_dentry para st).1 = 0 →
      level_result fs para (lo_d_child, path_dentry) = 0 ∧
      (level_call para (lo_d_child, path_dentry)).isSome = true) ∧
    (para.is_last = false →
      (hmdfs_do_ops_merge fs i_nlink lo_d_child path_dentry para st).2.1 = i_nlink) := by
  obtain ⟨is_last, opcode, mode, want_excl⟩ := para
  cases is_last with
  | false =>
    simp [hmdfs_do_ops_merge, level_call, level_result]
  | true =>
    cases opcode with
    | F_MKDIR_MERGE =>
      simp only [hmdfs_do_ops_merge, level_call, level_result, leaf_call, leaf_result,
        do_mkdir_merge, if_true]
      by_cases h1 : fs.vfs_mkdir path_dentry lo_d_child mode = 0
      · by_cases h2 : fs.fill_inode_merge lo_d_child = 0
        · simp [h1, h2]
        · simp [h1, h2]
      · simp [h1]
    | F_CREATE_MERGE =>
      simp only [hmdfs_do_ops_merge, level_call, level_result, leaf_call, leaf_result,
        do_create_merge, if_true]
      by_cases h1 : fs.vfs_create path_dentry lo_d_child mode want_excl = 0
      · by_cases h2 : fs.fill_inode_merge lo_d_child = 0
        · simp [h1, h2]
        · simp [h1, h2]
      · simp [h1]
    | F_OTHER =>
      simp [hmdfs_do_ops_merge, level_call, level_result, leaf_call, leaf_result, EINVAL]

/-- The value returned by `hmdfs_do_ops_merge`: 0 exactly when the backing
call of the level returns 0 and, at the last level, `fill_inode_merge` does;
a nonzero result of the backing call is returned as it is. -/
theorem do_ops_result (fs : LowerFs) (i_nlink : Nat) (lo_d_child path_dentry : Dentry)
    (para : hmdfs_recursive_para) (st : CreateState) :
    ((hmdfs_do_ops_merge fs i_nlink lo_d_child path_dentry para st).1 = 0 ↔
      level_result fs para (lo_d_child, path_dentry) = 0 ∧
      (para.is_last = true → fs.fill_inode_merge lo_d_child = 0)) ∧
    (level_result fs para (lo_d_child, path_dentry) ≠ 0 →
      (hmdfs_do_ops_merge fs i_nlink lo_d_child path_dentry para st).1
        = level_result fs para (lo_d_child, path_dentry)) := by
  obtain ⟨is_last, opcode, mode, want_excl⟩ := para
  cases is_last with
  | false =>
    simp [hmdfs_do_ops_merge, level_result]
  | true =>
    cases opcode with
    | F_MKDIR_MERGE =>
      simp only [hmdfs_do_ops_merge, level_result, leaf_result, do_mkdir_merge, if_true]
      by_cases h1 : fs.vfs_mkdir path_dentry lo_d_child mode = 0
      · by_cases h2 : fs.fill_inode_merge lo_d_child = 0
        · simp [h1, h2]
        · simp [h1, h2]
      · simp [h1]
    | F_CREATE_MERGE =>
      simp only [hmdfs_do_ops_merge, level_result, leaf_result, do_create_merge, if_true]
      by_cases h1 : fs.vfs_create path_dentry lo_d_child mode want_excl = 0
      · by_cases h2 : fs.fill_inode_merge lo_d_child = 0
        · simp [h1, h2]
        · simp [h1, h2]
      · simp [h1]
    | F_OTHER =>
      simp [hmdfs_do_ops_merge, level_result, leaf_result, EINVAL]

/-- A dentry without local comrade gets the new local comrade at the head
of its list. -/
theorem link_local_comrade (refs : Refs) (d : MergeDentry) (lo_d : Dentry)
    (h : has_local d = false) :
    ({ d with dim := (link_comrade_unlocked refs d.dim ⟨HMDFS_DEVID_LOCAL, lo_d⟩).2 }
      : MergeDentry) = attach_local d lo_d := by
  have hnone : ∀ c ∈ d.dim.comrade_list, c.dev_id ≠ (HMDFS_DEVID_LOCAL : Int) := by
    intro c hc heq
    have : has_local d = true := by
      unfold has_local
      rw [comrade_lo_d_isSome, List.any_eq_true]
      exact ⟨c, hc, by simp [heq]⟩
    rw [h] at this
    exact absurd this (by simp)
  have hr : redundant_comrade (HMDFS_DEVID_LOCAL : Int) d.dim.comrade_list = false := by
    rw [Bool.eq_false_iff]
    intro hred
    obtain ⟨c, hc, he⟩ := (redundant_comrade_iff _ _).mp hred
    exact hnone c hc he
  simp [link_comrade_unlocked, link_comrade, hr, comrade_is_local, attach_local]

/-- The local comrade of a dentry to which one was attached. -/
theorem attach_local_lo_d (refs : Refs) (d : MergeDentry) (lo_d : Dentry) :
    hmdfs_get_lo_d refs (attach_local d lo_d).dim HMDFS_DEVID_LOCAL
      = (dget refs lo_d, some lo_d) := by
  simp [hmdfs_get_lo_d, attach_local]

/-- One level of creation: `hmdfs_create_lower_dentry` makes at most the
backing call of the level; when it returns 0 it has made that call with the
result 0 for the dentry that `kern_path_create` returned below the backing
parent, and has attached it to the child as local comrade; when it fails
the child is unchanged. When the path buffers are allocated and the path of
the new entry is printed, fits and is created, the backing call of the
level is made, 0 is returned exactly when that call and, at the last level,
`fill_inode_merge` return 0 and the comrade is allocated, and a nonzero
result of the backing call is returned as it is. -/
theorem lower_dentry_spec (fs : LowerFs) (herr : fs.errors_nonzero) (i_nlink : Nat)
    (d_child : MergeDentry) (lo_d_parent : Dentry) (is_dir : Bool)
    (para : hmdfs_recursive_para) (st : CreateState) (hchild : has_local d_child = false) :
    ∃ (p : Dentry × Dentry) (ls : List LowerCall),
      (hmdfs_create_lower_dentry fs i_nlink d_child lo_d_parent is_dir para st).st.calls
        = st.calls ++ ls ∧
      ls <+: (level_call para p).toList ∧
      ((hmdfs_create_lower_dentry fs i_nlink d_child lo_d_parent is_dir para st).ret = 0 →
        ls = (level_call para p).toList ∧ (level_call para p).isSome = true ∧
        (hmdfs_create_lower_dentry fs i_nlink d_child lo_d_parent is_dir para st).d_child
          = attach_local d_child p.1 ∧
        level_result fs para p = 0 ∧
        ∃ path_name, fs.dentry_path_raw lo_d_parent = .ok path_name ∧
          fs.kern_path_create (fs.real_dst ++ path_name ++ "/".toList ++ d_child.d_name) is_dir
            = .ok p) ∧
      ((hmdfs_create_lower_dentry fs i_nlink d_child lo_d_parent is_dir para st).ret ≠ 0 →
        (hmdfs_create_lower_dentry fs i_nlink d_child lo_d_parent is_dir para st).d_child
          = d_child) ∧
      (para.is_last = false →
        (hmdfs_create_lower_dentry fs i_nlink d_child lo_d_parent is_dir para st).i_nlink
          = i_nlink) ∧
      (∀ (path_name : List Char) (n : Dentry × Dentry),
        fs.path_bufs_ok lo_d_parent = true →
        fs.dentry_path_raw lo_d_parent = .ok path_name →
        ¬ (fs.real_dst.length + path_name.length + d_child.d_name.length + 2 > PATH_MAX) →
        fs.kern_path_create (fs.real_dst ++ path_name ++ "/".toList ++ d_child.d_name) is_dir
          = .ok n →
        p = n ∧ ls = (level_call para n).toList ∧
        ((hmdfs_create_lower_dentry fs i_nlink d_child lo_d_parent is_dir para st).ret = 0 ↔
          level_result fs para n = 0 ∧
          (para.is_last = true → fs.fill_inode_merge n.1 = 0) ∧
          fs.comrade_ok n.1 = true) ∧
        (level_result fs para n ≠ 0 →
          (hmdfs_create_lower_dentry fs i_nlink d_child lo_d_parent is_dir para st).ret
            = level_result fs para n)) := by
  have dflt : Dentry × Dentry := (⟨0, 0⟩, ⟨0, 0⟩)
  unfold hmdfs_create_lower_dentry
  by_cases hb : fs.path_bufs_ok lo_d_parent = false
  · rw [if_pos hb]
    exact ⟨dflt, [], by simp, List.nil_prefix, fun h => absurd h (by simp [ENOMEM]),
      fun _ => rfl, fun _ => rfl,
      fun _ _ h1 _ _ _ => absurd (hb.symm.trans h1) (by simp)⟩
  rw [if_neg hb]
  cases hp : fs.dentry_path_raw lo_d_parent with
  | error e =>
    exact ⟨dflt, [], by simp, List.nil_prefix, fun h => absurd h (herr.1 _ _ hp),
      fun _ => rfl, fun _ => rfl, fun _ _ _ h2 _ _ => by cases h2⟩
  | ok path_name =>
    simp only
    by_cases hl : fs.real_dst.length + path_name.length + d_child.d_name.length + 2 > PATH_MAX
    · rw [if_pos hl]
      exact ⟨dflt, [], by simp, List.nil_prefix, fun h => absurd h (by simp [ENAMETOOLONG]),
        fun _ => rfl, fun _ => rfl,
        fun _ _ _ h2 h3 _ => by
          injection h2 with h2
          subst h2
          exact absurd hl h3⟩
    rw [if_neg hl]
    cases hk : fs.kern_path_create
        (fs.real_dst ++ path_name ++ "/".toList ++ d_child.d_name) is_dir with
    | error e =>
      exact ⟨dflt, [], by simp, List.nil_prefix, fun h => absurd h (herr.2 _ _ _ hk),
        fun _ => rfl, fun _ => rfl,
        fun _ _ _ h2 _ h4 => by
          injection h2 with h2
          subst h2
          rw [hk] at h4
          cases h4⟩
    | ok n =>
      obtain ⟨lo_d_child, path_dentry⟩ := n
      obtain ⟨hc, hres, hn⟩ := do_ops_spec fs i_nlink lo_d_child path_dentry para st
      obtain ⟨hiff, hprop⟩ := do_ops_result fs i_nlink lo_d_child path_dentry para st
      have hinj : ∀ (path_name2 : List Char) (n2 : Dentry × Dentry),
          Except.ok path_name = (Except.ok path_name2 : Except Int (List Char)) →
          fs.kern_path_create (fs.real_dst ++ path_name2 ++ "/".toList ++ d_child.d_name)
            is_dir = .ok n2 → (lo_d_child, path_dentry) = n2 := by
        intro path_name2 n2 h2 h4
        injection h2 with h2
        subst h2
        rw [hk] at h4
        injection h4
      simp only
      by_cases hz : (hmdfs_do_ops_merge fs i_nlink lo_d_child path_dentry para st).1 = 0
      · obtain ⟨hres1, hres2⟩ := hres hz
        rw [if_neg (not_not.mpr hz)]
        cases hok : fs.comrade_ok lo_d_child with
        | false =>
          simp only [alloc_comrade, Bool.false_eq_true, if_false]
          refine ⟨(lo_d_child, path_dentry), _, hc, List.prefix_refl _,
            fun h => absurd h (by simp [ENOMEM]), fun _ => by first | rfl | trivial, hn, ?_⟩
          intro path_name2 n2 _ h2 _ h4
          have he := hinj path_name2 n2 h2 h4
          subst he
          refine ⟨rfl, rfl, ?_, fun h => absurd hres1 h⟩
          constructor
          · intro h
            exact absurd h (by simp [ENOMEM])
          · intro h
            rw [hok] at h
            exact absurd h.2.2 (by simp)
        | true =>
          simp only [alloc_comrade, if_true]
          refine ⟨(lo_d_child, path_dentry), _, hc, List.prefix_refl _, ?_,
            fun h => absurd hz h, hn, ?_⟩
          · intro _
            exact ⟨rfl, hres2, link_local_comrade _ d_child lo_d_child hchild, hres1,
              path_name, rfl, hk⟩
          · intro path_name2 n2 _ h2 _ h4
            have he := hinj path_name2 n2 h2 h4
            subst he
            refine ⟨rfl, rfl, ?_, fun h => absurd hres1 h⟩
            constructor
            · intro _
              exact ⟨hres1, (hiff.mp hz).2, hok⟩
            · intro _
              exact hz
      · rw [if_pos hz]
        refine ⟨(lo_d_child, path_dentry), _, hc, List.prefix_refl _, fun h => absurd h hz,
          fun _ => rfl, hn, ?_⟩
        intro path_name2 n2 _ h2 _ h4
        have he := hinj path_name2 n2 h2 h4
        subst he
        refine ⟨rfl, rfl, ?_, hprop⟩
        constructor
        · intro h
          exact absurd h hz
        · intro h
          exact absurd (hiff.mpr ⟨h.1, h.2.1⟩) hz

/-- C13: when the length of the backing root plus the backing path of the
local parent plus the name of the child plus 2 exceeds `PATH_MAX`,
`hmdfs_create_lower_dentry` fails and changes nothing: no backing call is
made and the child, with its comrade list, is as before. With the two path
buffers allocated, the value returned is `-ENAMETOOLONG`. -/
theorem create_path_length_bound (fs : LowerFs) (i_nlink : Nat) (d_child : MergeDentry)
    (lo_d_parent : Dentry) (is_dir : Bool) (para : hmdfs_recursive_para) (st : CreateState)
    (path_name : List Char)
    (hpath : fs.dentry_path_raw lo_d_parent = .ok path_name)
    (hlen : fs.real_dst.length + path_name.length + d_child.d_name.length + 2 > PATH_MAX) :
    ((hmdfs_create_lower_dentry fs i_nlink d_child lo_d_parent is_dir para st).ret ≠ 0 ∧
      (hmdfs_create_lower_dentry fs i_nlink d_child lo_d_parent is_dir para st).st.calls
        = st.calls ∧
      (hmdfs_create_lower_dentry fs i_nlink d_child lo_d_parent is_dir para st).d_child
        = d_child ∧
      (hmdfs_create_lower_dentry fs i_nlink d_child lo_d_parent is_dir para st).i_nlink
        = i_nlink) ∧
    (fs.path_bufs_ok lo_d_parent = true →
      (hmdfs_create_lower_dentry fs i_nlink d_child lo_d_parent is_dir para st).ret
        = -ENAMETOOLONG) := by
  unfold hmdfs_create_lower_dentry
  by_cases hb : fs.path_bufs_ok lo_d_parent = false
  · rw [if_pos hb]
    refine ⟨⟨by simp [ENOMEM], rfl, rfl, rfl⟩, ?_⟩
    intro h
    rw [hb] at h
    exact absurd h (by simp)
  · rw [if_neg hb]
    simp only [hpath, if_pos hlen]
    simp [ENAMETOOLONG]

/-- Witness of C13: the local parent lies at a path of 4091 characters
below the root `/mnt`, and the child is `x`: 4 + 4091 + 1 + 2 exceeds
`PATH_MAX`, the creation returns `-ENAMETOOLONG`, makes no backing call and
leaves the comrade list of the child empty. -/
theorem create_path_length_bound_witness :
    (sampleCreateFs.real_dst.length + longPath.length + (sampleNew "x".toList).d_name.length + 2
      > PATH_MAX) ∧
    (hmdfs_create_lower_dentry sampleCreateFs 2 (sampleNew "x".toList) ⟨40, S_IFDIR⟩ true
      (hmdfs_init_recursive_para .F_MKDIR_MERGE 493 false) sampleCreateState).ret
        = -ENAMETOOLONG ∧
    (hmdfs_create_lower_dentry sampleCreateFs 2 (sampleNew "x".toList) ⟨40, S_IFDIR⟩ true
      (hmdfs_init_recursive_para .F_MKDIR_MERGE 493 false) sampleCreateState).st.calls = [] ∧
    (hmdfs_create_lower_dentry sampleCreateFs 2 (sampleNew "x".toList) ⟨40, S_IFDIR⟩ true
      (hmdfs_init_recursive_para .F_MKDIR_MERGE 493 false) sampleCreateState).d_child.dim.comrade_list
        = [] :=
  have hlen : sampleCreateFs.real_dst.length + longPath.length +
      (sampleNew "x".toList).d_name.length + 2 > PATH_MAX := by
    simp only [sampleCreateFs, longPath, sampleNew, List.length_cons, List.length_replicate,
      PATH_MAX]
    decide
  have h := create_path_length_bound sampleCreateFs 2 (sampleNew "x".toList) ⟨40, S_IFDIR⟩ true
    (hmdfs_init_recursive_para .F_MKDIR_MERGE 493 false) sampleCreateState longPath rfl hlen
  ⟨hlen, h.2 rfl, h.1.2.1, by rw [h.1.2.2.1]; rfl⟩

/-- A dentry without local comrade: `hmdfs_get_lo_d` returns `NULL` and
takes no reference. -/
theorem get_lo_d_no_local (refs : Refs) (d : MergeDentry) (h : has_local d = false) :
    hmdfs_get_lo_d refs d.dim HMDFS_DEVID_LOCAL = (refs, none) := by
  unfold has_local comrade_lo_d hmdfs_get_lo_d at h
  unfold hmdfs_get_lo_d
  cases hf : d.dim.comrade_list.find? (fun comrade => comrade.dev_id == (HMDFS_DEVID_LOCAL : Int))
    with
  | none => rfl
  | some c =>
    rw [hf] at h
    simp at h

/-- A dentry with a local comrade: `hmdfs_get_lo_d` returns its backing
dentry. -/
theorem get_lo_d_local (refs : Refs) (d : MergeDentry) (h : has_local d = true) :
    ∃ refs1 lo, hmdfs_get_lo_d refs d.dim HMDFS_DEVID_LOCAL = (refs1, some lo) := by
  unfold has_local comrade_lo_d hmdfs_get_lo_d at h
  unfold hmdfs_get_lo_d
  cases hf : d.dim.comrade_list.find? (fun comrade => comrade.dev_id == (HMDFS_DEVID_LOCAL : Int))
    with
  | none =>
    rw [hf] at h
    simp at h
  | some c => exact ⟨_, _, rfl⟩

/-- The missing ancestors of a chain whose first dentry has no local
comrade. -/
theorem missing_ancestors_cons (d : MergeDentry) (up : List MergeDentry)
    (h : has_local d = false) :
    missing_ancestors (d :: up) = d :: missing_ancestors up ∧
    (d :: up).dropWhile (fun a => !has_local a) = up.dropWhile (fun a => !has_local a) := by
  simp [missing_ancestors, List.takeWhile_cons, List.dropWhile_cons, h]

/-- The missing ancestors of a chain whose first dentry has a local
comrade. -/
theorem missing_ancestors_local (d : MergeDentry) (up : List MergeDentry)
    (h : has_local d = true) :
    missing_ancestors (d :: up) = [] ∧
    (d :: up).dropWhile (fun a => !has_local a) = d :: up := by
  simp [missing_ancestors, List.takeWhile_cons, List.dropWhile_cons, h]

/-- The calls for one more missing ancestor come last. -/
theorem ancestor_calls_cons (d : MergeDentry) (missing : List MergeDentry) (p : Dentry × Dentry)
    (dc : List (Dentry × Dentry)) :
    ancestor_calls (d :: missing) (p :: dc) =
      ancestor_calls missing dc ++ [LowerCall.mkdir false p.2 p.1 d.i_mode] := by
  simp [ancestor_calls]

/-- The end of `create_lo_d_parent_recur`: at most the `vfs_mkdir` of the
child below the local comrade of the parent. -/
theorem parent_tail_spec (fs : LowerFs) (herr : fs.errors_nonzero) (d_parent : MergeDentry)
    (up : List MergeDentry) (d_child : MergeDentry) (mode : Nat) (para : hmdfs_recursive_para)
    (lo_d_parent : Dentry) (st : CreateState) (hchild : has_local d_child = false) :
    (create_lo_d_parent_tail fs d_parent up d_child mode para lo_d_parent st).para.opcode
      = para.opcode ∧
    (create_lo_d_parent_tail fs d_parent up d_child mode para lo_d_parent st).para.want_excl
      = para.want_excl ∧
    (create_lo_d_parent_tail fs d_parent up d_child mode para lo_d_parent st).up
      = d_parent :: up ∧
    ∃ p : Dentry × Dentry,
      (((create_lo_d_parent_tail fs d_parent up d_child mode para lo_d_parent st).ret ≠ 0 ∧
        (create_lo_d_parent_tail fs d_parent up d_child mode para lo_d_parent st).d_child
          = d_child ∧
        ∃ cs, (create_lo_d_parent_tail fs d_parent up d_child mode para lo_d_parent st).st.calls
            = st.calls ++ cs ∧ cs <+: [LowerCall.mkdir false p.2 p.1 mode]) ∨
       ((create_lo_d_parent_tail fs d_parent up d_child mode para lo_d_parent st).ret = 0 ∧
        (create_lo_d_parent_tail fs d_parent up d_child mode para lo_d_parent st).st.calls
          = st.calls ++ [LowerCall.mkdir false p.2 p.1 mode] ∧
        (create_lo_d_parent_tail fs d_parent up d_child mode para lo_d_parent st).d_child
          = attach_local d_child p.1 ∧
        fs.vfs_mkdir p.2 p.1 mode = 0)) := by
  obtain ⟨p, ls, hcalls, hpre, hok, hfail, hn, _⟩ :=
    lower_dentry_spec fs herr d_parent.i_nlink d_child lo_d_parent true
      { para with is_last := false, mode := mode } st hchild
  have hlc : level_call { para with is_last := false, mode := mode } p
      = some (LowerCall.mkdir false p.2 p.1 mode) := by
    simp [level_call]
  have hlr : level_result fs { para with is_last := false, mode := mode } p
      = fs.vfs_mkdir p.2 p.1 mode := by
    simp [level_result]
  rw [hlc] at hpre hok
  rw [hlr] at hok
  simp only [Option.toList_some] at hpre hok
  refine ⟨rfl, rfl, ?_, p, ?_⟩
  · simp only [create_lo_d_parent_tail]
    rw [hn rfl]
  · by_cases hz : (hmdfs_create_lower_dentry fs d_parent.i_nlink d_child lo_d_parent true
        { para with is_last := false, mode := mode } st).ret = 0
    · right
      obtain ⟨h1, _, h3, h4, _⟩ := hok hz
      refine ⟨hz, ?_, h3, h4⟩
      simp only [create_lo_d_parent_tail]
      rw [hcalls, h1]
    · left
      refine ⟨hz, hfail hz, ls, ?_, hpre⟩
      simp only [create_lo_d_parent_tail]
      rw [hcalls]

/-- The end of `create_lo_d_parent_recur` with a backing store that
refuses nothing returns 0. -/
theorem parent_tail_progress (fs : LowerFs) (herr : fs.errors_nonzero) (d_parent : MergeDentry)
    (up : List MergeDentry) (d_child : MergeDentry) (mode : Nat) (para : hmdfs_recursive_para)
    (lo_d_parent : Dentry) (st : CreateState) (hchild : has_local d_child = false)
    (names : List (List Char)) (hco : fs.cooperates names) (hname : d_child.d_name ∈ names) :
    (create_lo_d_parent_tail fs d_parent up d_child mode para lo_d_parent st).ret = 0 := by
  obtain ⟨c1, c2, c3, c4, c5⟩ := hco
  obtain ⟨path_name, hp, hfit⟩ := c2 lo_d_parent
  obtain ⟨n, hk⟩ := c3 (fs.real_dst ++ path_name ++ "/".toList ++ d_child.d_name) true
  obtain ⟨p, ls, _, _, _, _, _, hprog⟩ :=
    lower_dentry_spec fs herr d_parent.i_nlink d_child lo_d_parent true
      { para with is_last := false, mode := mode } st hchild
  obtain ⟨_, _, hiff, _⟩ := hprog path_name n (c1 _) hp (hfit _ hname) hk
  simp only [create_lo_d_parent_tail]
  rw [hiff]
  refine ⟨?_, fun h => absurd h (by simp), c5 _⟩
  simp [level_result, c4]

theorem cooperates_mono (fs : LowerFs) (names names2 : List (List Char))
    (h : ∀ n ∈ names2, n ∈ names) (hco : fs.cooperates names) : fs.cooperates names2 := by
  obtain ⟨c1, c2, c3, c4, c5⟩ := hco
  refine ⟨c1, ?_, c3, c4, c5⟩
  intro lo
  obtain ⟨p, hp, hfit⟩ := c2 lo
  exact ⟨p, hp, fun n hn => hfit n (h n hn)⟩

/-- The recursion that materialises the ancestors: when some ancestor has
a local comrade and error pointers are not zero, `create_lo_d_parent_recur`
returns. Either it fails, the child is unchanged and the calls made are the
first of the `vfs_mkdir` of the missing ancestors, topmost first, followed
by that of the child; or it returns 0 after all these calls have returned
0, each missing ancestor and the child having got its new backing dentry as
local comrade. -/
theorem parent_recur_spec (fs : LowerFs) (herr : fs.errors_nonzero) :
    ∀ (up : List MergeDentry) (d_child : MergeDentry) (mode : Nat)
      (para : hmdfs_recursive_para) (st : CreateState),
    (∃ a ∈ up, has_local a = true) → has_local d_child = false →
    ∃ r, create_lo_d_parent_recur fs up d_child mode para st = some r ∧
      r.para.opcode = para.opcode ∧ r.para.want_excl = para.want_excl ∧
      (fs.cooperates (d_child.d_name :: (missing_ancestors up).map (fun a => a.d_name)) →
        r.ret = 0) ∧
      ∃ (dc : List (Dentry × Dentry)) (p : Dentry × Dentry),
        dc.length = (missing_ancestors up).length ∧
        ((r.ret ≠ 0 ∧ r.d_child = d_child ∧
          ∃ cs, r.st.calls = st.calls ++ cs ∧
            cs <+: ancestor_calls (missing_ancestors up) dc ++
              [LowerCall.mkdir false p.2 p.1 mode]) ∨
         (r.ret = 0 ∧
          r.st.calls = st.calls ++ ancestor_calls (missing_ancestors up) dc ++
            [LowerCall.mkdir false p.2 p.1 mode] ∧
          r.up = List.zipWith (fun a q => attach_local a q.1) (missing_ancestors up) dc ++
            up.dropWhile (fun a => !has_local a) ∧
          r.d_child = attach_local d_child p.1 ∧
          (∀ x ∈ (missing_ancestors up).zip dc, fs.vfs_mkdir x.2.2 x.2.1 x.1.i_mode = 0) ∧
          fs.vfs_mkdir p.2 p.1 mode = 0)) := by
  intro up
  induction up with
  | nil =>
    intro _ _ _ _ h
    obtain ⟨a, ha, _⟩ := h
    exact absurd ha (List.not_mem_nil a)
  | cons d_parent up ih =>
    intro d_child mode para st hroot hchild
    by_cases hl : has_local d_parent = true
    · obtain ⟨refs1, lo, hg⟩ := get_lo_d_local st.refs d_parent hl
      obtain ⟨hm, hd⟩ := missing_ancestors_local d_parent up hl
      obtain ⟨t1, t2, t3, p, t4⟩ :=
        parent_tail_spec fs herr d_parent up d_child mode para lo { st with refs := refs1 }
          hchild
      refine ⟨_, by rw [create_lo_d_parent_recur, hg], t1, t2,
        fun hco => parent_tail_progress fs herr d_parent up d_child mode para lo
          { st with refs := refs1 } hchild _ hco (List.mem_cons_self _ _),
        [], p, by rw [hm]; rfl, ?_⟩
      rw [hm, hd]
      simp only [ancestor_calls, List.zipWith_nil_left, List.reverse_nil, List.append_nil,
        List.nil_append, List.zip_nil_left, List.not_mem_nil, false_implies, implies_true,
        true_and]
      rcases t4 with ⟨a1, a2, a3⟩ | ⟨b1, b2, b3, b4⟩
      · exact Or.inl ⟨a1, a2, a3⟩
      · exact Or.inr ⟨b1, b2, t3, b3, b4⟩
    · have hl2 : has_local d_parent = false := by
        cases h : has_local d_parent
        · rfl
        · exact absurd h hl
      have hg := get_lo_d_no_local st.refs d_parent hl2
      obtain ⟨hm, hd⟩ := missing_ancestors_cons d_parent up hl2
      have hroot2 : ∃ a ∈ up, has_local a = true := by
        obtain ⟨a, ha, hal⟩ := hroot
        rcases List.mem_cons.mp ha with rfl | ha2
        · exact absurd hal hl
        · exact ⟨a, ha2, hal⟩
      obtain ⟨r1, hr1, ho1, hw1, hco1, dc1, p1, hlen1, hcase1⟩ :=
        ih d_parent d_parent.i_mode para { st with refs := st.refs } hroot2 hl2
      have hsub : fs.cooperates (d_child.d_name ::
            (missing_ancestors (d_parent :: up)).map (fun a => a.d_name)) →
          fs.cooperates (d_parent.d_name :: (missing_ancestors up).map (fun a => a.d_name)) := by
        intro hco
        refine cooperates_mono fs _ _ ?_ hco
        intro n hn
        rw [hm]
        exact List.mem_cons_of_mem _ (by simpa using hn)
      rcases hcase1 with ⟨f1, _, cs1, f3, f4⟩ | ⟨s1, s2, s3, s4, s5, s6⟩
      · refine ⟨⟨r1.ret, r1.d_child :: r1.up, d_child, r1.para, r1.st⟩, ?_, ho1, hw1,
          fun hco => absurd (hco1 (hsub hco)) f1,
          p1 :: dc1, p1, ?_, Or.inl ⟨f1, rfl, cs1, f3, ?_⟩⟩
        · rw [create_lo_d_parent_recur, hg]
          simp only [hr1, if_pos f1]
        · rw [hm]
          simp [hlen1]
        · rw [hm, ancestor_calls_cons]
          exact List.IsPrefix.trans f4 (List.prefix_append _ _)
      · have hg2 := attach_local_lo_d r1.st.refs d_parent p1.1
        rw [← s4] at hg2
        obtain ⟨t1, t2, t3, p, t4⟩ :=
          parent_tail_spec fs herr r1.d_child r1.up d_child mode r1.para p1.1
            { r1.st with refs := dget r1.st.refs p1.1 } hchild
        refine ⟨_, ?_, t1.trans ho1, t2.trans hw1,
          fun hco => parent_tail_progress fs herr r1.d_child r1.up d_child mode r1.para p1.1
            { r1.st with refs := dget r1.st.refs p1.1 } hchild _ hco (List.mem_cons_self _ _),
          p1 :: dc1, p, ?_, ?_⟩
        · rw [create_lo_d_parent_recur, hg]
          simp only [hr1, if_neg (not_not.mpr s1), hg2]
        · rw [hm]
          simp [hlen1]
        · rw [hm, hd, ancestor_calls_cons]
          rcases t4 with ⟨a1, a2, cs, a3, a4⟩ | ⟨b1, b2, b3, b4⟩
          · left
            refine ⟨a1, a2, ancestor_calls (missing_ancestors up) dc1 ++
              [LowerCall.mkdir false p1.2 p1.1 d_parent.i_mode] ++ cs, ?_, ?_⟩
            · rw [a3]
              simp only [s2, List.append_assoc]
            · exact (List.prefix_append_right_inj _).mpr a4
          · right
            refine ⟨b1, ?_, ?_, b3, ?_, b4⟩
            · rw [b2]
              simp only [s2, List.append_assoc]
            · rw [t3, s3, s4]
              simp
            · intro x hx
              simp only [List.zip_cons_cons, List.mem_cons] at hx
              rcases hx with rfl | hx
              · exact s6
              · exact s5 x hx

/-- The end of `create_lo_d_child`: at most the backing call of the leaf,
with the operation of `rec_op_para` and the saved mode, below the local
comrade of the parent. -/
theorem child_tail_spec (fs : LowerFs) (herr : fs.errors_nonzero) (i_nlink : Nat)
    (up : List MergeDentry) (d_child : MergeDentry) (is_dir : Bool) (d_child_mode : Nat)
    (para : hmdfs_recursive_para) (lo_d_parent : Dentry) (st : CreateState)
    (hchild : has_local d_child = false) :
    (create_lo_d_child_tail fs i_nlink up d_child is_dir d_child_mode para lo_d_parent st).up
      = up ∧
    ∃ (leaf : Dentry × Dentry) (ls : List LowerCall),
      (create_lo_d_child_tail fs i_nlink up d_child is_dir d_child_mode para lo_d_parent
        st).st.calls = st.calls ++ ls ∧
      ls <+: (leaf_call para.opcode d_child_mode para.want_excl leaf).toList ∧
      ((create_lo_d_child_tail fs i_nlink up d_child is_dir d_child_mode para lo_d_parent
        st).ret ≠ 0 →
        (create_lo_d_child_tail fs i_nlink up d_child is_dir d_child_mode para lo_d_parent
          st).d_child = d_child) ∧
      ((create_lo_d_child_tail fs i_nlink up d_child is_dir d_child_mode para lo_d_parent
        st).ret = 0 →
        ls = (leaf_call para.opcode d_child_mode para.want_excl leaf).toList ∧
        (leaf_call para.opcode d_child_mode para.want_excl leaf).isSome = true ∧
        (create_lo_d_child_tail fs i_nlink up d_child is_dir d_child_mode para lo_d_parent
          st).d_child = attach_local d_child leaf.1 ∧
        leaf_result fs para.opcode d_child_mode para.want_excl leaf = 0 ∧
        ∃ path_name, fs.dentry_path_raw lo_d_parent = .ok path_name ∧
          fs.kern_path_create (fs.real_dst ++ path_name ++ "/".toList ++ d_child.d_name) is_dir
            = .ok leaf) ∧
      (∀ (path_name : List Char) (n : Dentry × Dentry),
        fs.path_bufs_ok lo_d_parent = true →
        fs.dentry_path_raw lo_d_parent = .ok path_name →
        ¬ (fs.real_dst.length + path_name.length + d_child.d_name.length + 2 > PATH_MAX) →
        fs.kern_path_create (fs.real_dst ++ path_name ++ "/".toList ++ d_child.d_name) is_dir
          = .ok n →
        leaf = n ∧ ls = (leaf_call para.opcode d_child_mode para.want_excl n).toList ∧
        ((create_lo_d_child_tail fs i_nlink up d_child is_dir d_child_mode para lo_d_parent
            st).ret = 0 ↔
          leaf_result fs para.opcode d_child_mode para.want_excl n = 0 ∧
          fs.fill_inode_merge n.1 = 0 ∧ fs.comrade_ok n.1 = true) ∧
        (leaf_result fs para.opcode d_child_mode para.want_excl n ≠ 0 →
          (create_lo_d_child_tail fs i_nlink up d_child is_dir d_child_mode para lo_d_parent
            st).ret = leaf_result fs para.opcode d_child_mode para.want_excl n)) := by
  obtain ⟨p, ls, hcalls, hpre, hok, hfail, _, hprog⟩ :=
    lower_dentry_spec fs herr i_nlink d_child lo_d_parent is_dir
      { para with is_last := true, mode := d_child_mode } st hchild
  have hlc : ∀ q, level_call { para with is_last := true, mode := d_child_mode } q
      = leaf_call para.opcode d_child_mode para.want_excl q := by
    intro q
    simp [level_call]
  have hlr : ∀ q, level_result fs { para with is_last := true, mode := d_child_mode } q
      = leaf_result fs para.opcode d_child_mode para.want_excl q := by
    intro q
    simp [level_result]
  rw [hlc] at hpre hok
  rw [hlr] at hok
  refine ⟨rfl, p, ls, ?_, hpre, hfail, hok, ?_⟩
  · simp only [create_lo_d_child_tail]
    rw [hcalls]
  · intro path_name n h1 h2 h3 h4
    obtain ⟨g1, g2, g3, g4⟩ := hprog path_name n h1 h2 h3 h4
    rw [hlc] at g2
    rw [hlr] at g3 g4
    refine ⟨g1, g2, ?_, g4⟩
    simp only [create_lo_d_child_tail]
    rw [g3]
    simp

/-- C14: for a new child below a chain of ancestors of which one has a
local comrade (error pointers of the backing store being nonzero),
`create_lo_d_child` returns. The backing calls it makes are, in this order,
one `vfs_mkdir` for every ancestor before the first one with a local
comrade, the topmost first, each with the mode of that ancestor, and then
the call of the leaf with the operation and mode of the caller. Either an
ancestor fails: then the error of `create_lo_d_parent_recur` is returned,
the calls are the first of the calls of the ancestors, and the child is
unchanged. Or all calls of the ancestors have returned 0 and each of them
has its new backing dentry as local comrade: then at most the call of the
leaf follows, and when 0 is returned that call was made, below the local
comrade of the parent, and has returned 0, and its new backing dentry is
the local comrade of the child; and when the path buffers are allocated and
the path of the leaf is printed, fits and is created below the local comrade
of the parent, exactly the call of the leaf follows, 0 is returned exactly
when that call and `fill_inode_merge` return 0 and the comrade is allocated,
and a nonzero result of that call is returned as it is. When the parent has
a local comrade there is no call for an ancestor. With a backing store that
refuses nothing to the ancestors and the child, all the calls of the
ancestors and the call of the leaf are made. -/
theorem recursive_creation_order (fs : LowerFs) (herr : fs.errors_nonzero) (i_nlink : Nat)
    (up : List MergeDentry) (d_child : MergeDentry) (is_dir : Bool)
    (para : hmdfs_recursive_para) (st : CreateState)
    (hroot : ∃ a ∈ up, has_local a = true) (hchild : has_local d_child = false) :
    ∃ r, create_lo_d_child fs i_nlink up d_child is_dir para st = some r ∧
      ∃ (dc : List (Dentry × Dentry)) (leaf : Dentry × Dentry),
        dc.length = (missing_ancestors up).length ∧
        ((missing_ancestors up ≠ [] ∧ r.ret ≠ 0 ∧ r.d_child = d_child ∧
          (∃ d_parent up1 rr, up = d_parent :: up1 ∧
            create_lo_d_parent_recur fs up1 d_parent d_parent.i_mode para st = some rr ∧
            r.ret = rr.ret) ∧
          ∃ cs, r.st.calls = st.calls ++ cs ∧
            cs <+: ancestor_calls (missing_ancestors up) dc) ∨
         ((∀ x ∈ (missing_ancestors up).zip dc, fs.vfs_mkdir x.2.2 x.2.1 x.1.i_mode = 0) ∧
          r.up = List.zipWith (fun a q => attach_local a q.1) (missing_ancestors up) dc ++
            up.dropWhile (fun a => !has_local a) ∧
          ∃ ls, r.st.calls = st.calls ++ ancestor_calls (missing_ancestors up) dc ++ ls ∧
            ls <+: (leaf_call para.opcode para.mode para.want_excl leaf).toList ∧
            (r.ret ≠ 0 → r.d_child = d_child) ∧
            (r.ret = 0 →
              ls = (leaf_call para.opcode para.mode para.want_excl leaf).toList ∧
              (leaf_call para.opcode para.mode para.want_excl leaf).isSome = true ∧
              r.d_child = attach_local d_child leaf.1 ∧
              leaf_result fs para.opcode para.mode para.want_excl leaf = 0 ∧
              ∃ parent lo path_name, r.up.head? = some parent ∧
                comrade_lo_d parent.dim HMDFS_DEVID_LOCAL = some lo ∧
                fs.dentry_path_raw lo = .ok path_name ∧
                fs.kern_path_create
                  (fs.real_dst ++ path_name ++ "/".toList ++ d_child.d_name) is_dir
                    = .ok leaf) ∧
            (∀ (parent : MergeDentry) (lo : Dentry) (path_name : List Char)
                (n : Dentry × Dentry),
              r.up.head? = some parent →
              comrade_lo_d parent.dim HMDFS_DEVID_LOCAL = some lo →
              fs.path_bufs_ok lo = true →
              fs.dentry_path_raw lo = .ok path_name →
              ¬ (fs.real_dst.length + path_name.length + d_child.d_name.length + 2
                  > PATH_MAX) →
              fs.kern_path_create
                (fs.real_dst ++ path_name ++ "/".toList ++ d_child.d_name) is_dir = .ok n →
              leaf = n ∧
              ls = (leaf_call para.opcode para.mode para.want_excl n).toList ∧
              (r.ret = 0 ↔
                leaf_result fs para.opcode para.mode para.want_excl n = 0 ∧
                fs.fill_inode_merge n.1 = 0 ∧ fs.comrade_ok n.1 = true) ∧
              (leaf_result fs para.opcode para.mode para.want_excl n ≠ 0 →
                r.ret = leaf_result fs para.opcode para.mode para.want_excl n)))) ∧
        (fs.cooperates (d_child.d_name :: (missing_ancestors up).map (fun a => a.d_name)) →
          (∀ x ∈ (missing_ancestors up).zip dc, fs.vfs_mkdir x.2.2 x.2.1 x.1.i_mode = 0) ∧
          r.up = List.zipWith (fun a q => attach_local a q.1) (missing_ancestors up) dc ++
            up.dropWhile (fun a => !has_local a) ∧
          r.st.calls = st.calls ++ ancestor_calls (missing_ancestors up) dc ++
            (leaf_call para.opcode para.mode para.want_excl leaf).toList ∧
          (r.ret = 0 ↔
            leaf_result fs para.opcode para.mode para.want_excl leaf = 0 ∧
            fs.fill_inode_merge leaf.1 = 0)) := by
  cases up with
  | nil =>
    obtain ⟨a, ha, _⟩ := hroot
    exact absurd ha (List.not_mem_nil a)
  | cons d_parent up =>
    by_cases hl : has_local d_parent = true
    · obtain ⟨refs1, lo, hg⟩ := get_lo_d_local st.refs d_parent hl
      have hlo : comrade_lo_d d_parent.dim HMDFS_DEVID_LOCAL = some lo := by
        rw [← get_lo_d_snd st.refs, hg]
      obtain ⟨hm, hd⟩ := missing_ancestors_local d_parent up hl
      obtain ⟨t1, leaf, ls, t2, t3, t4, t5, t6⟩ :=
        child_tail_spec fs herr i_nlink (d_parent :: up) d_child is_dir para.mode para lo
          { st with refs := refs1 } hchild
      have hP : ∀ (parent : MergeDentry) (lo2 : Dentry) (path_name : List Char)
          (n : Dentry × Dentry),
          (create_lo_d_child_tail fs i_nlink (d_parent :: up) d_child is_dir para.mode para lo
            { st with refs := refs1 }).up.head? = some parent →
          comrade_lo_d parent.dim HMDFS_DEVID_LOCAL = some lo2 →
          fs.path_bufs_ok lo2 = true →
          fs.dentry_path_raw lo2 = .ok path_name →
          ¬ (fs.real_dst.length + path_name.length + d_child.d_name.length + 2 > PATH_MAX) →
          fs.kern_path_create
            (fs.real_dst ++ path_name ++ "/".toList ++ d_child.d_name) is_dir = .ok n →
          leaf = n ∧
          ls = (leaf_call para.opcode para.mode para.want_excl n).toList ∧
          ((create_lo_d_child_tail fs i_nlink (d_parent :: up) d_child is_dir para.mode para lo
              { st with refs := refs1 }).ret = 0 ↔
            leaf_result fs para.opcode para.mode para.want_excl n = 0 ∧
            fs.fill_inode_merge n.1 = 0 ∧ fs.comrade_ok n.1 = true) ∧
          (leaf_result fs para.opcode para.mode para.want_excl n ≠ 0 →
            (create_lo_d_child_tail fs i_nlink (d_parent :: up) d_child is_dir para.mode para lo
              { st with refs := refs1 }).ret
              = leaf_result fs para.opcode para.mode para.want_excl n) := by
        intro parent lo2 path_name n hh hlo2 h1 h2 h3 h4
        rw [t1] at hh
        simp only [List.head?_cons, Option.some.injEq] at hh
        subst hh
        rw [hlo] at hlo2
        simp only [Option.some.injEq] at hlo2
        subst hlo2
        exact t6 path_name n h1 h2 h3 h4
      refine ⟨_, by rw [create_lo_d_child, hg], [], leaf, by rw [hm]; rfl, Or.inr ?_, ?_⟩
      · rw [hm, hd]
        refine ⟨by simp, by rw [t1]; rfl, ls, by simp [ancestor_calls, t2], t3, t4, ?_, hP⟩
        intro hz
        obtain ⟨u1, u2, u3, u4, path_name, u5, u6⟩ := t5 hz
        exact ⟨u1, u2, u3, u4, d_parent, lo, path_name, by rw [t1]; rfl, hlo, u5, u6⟩
      · intro hco
        obtain ⟨c1, c2, c3, c4, c5⟩ := hco
        obtain ⟨path_name, hp, hfit⟩ := c2 lo
        obtain ⟨n, hk⟩ := c3 (fs.real_dst ++ path_name ++ "/".toList ++ d_child.d_name) is_dir
        obtain ⟨g1, g2, g3, _⟩ := t6 path_name n (c1 _) hp (hfit _ (List.mem_cons_self _ _)) hk
        subst g1
        rw [hm, hd]
        refine ⟨by simp, by rw [t1]; rfl, by simp [ancestor_calls, t2, g2], ?_⟩
        rw [g3]
        simp [c5]
    · have hl2 : has_local d_parent = false := by
        cases h : has_local d_parent
        · rfl
        · exact absurd h hl
      have hg := get_lo_d_no_local st.refs d_parent hl2
      obtain ⟨hm, hd⟩ := missing_ancestors_cons d_parent up hl2
      have hroot2 : ∃ a ∈ up, has_local a = true := by
        obtain ⟨a, ha, hal⟩ := hroot
        rcases List.mem_cons.mp ha with rfl | ha2
        · exact absurd hal hl
        · exact ⟨a, ha2, hal⟩
      obtain ⟨r1, hr1, ho1, hw1, hco1, dc1, p1, hlen1, hcase1⟩ :=
        parent_recur_spec fs herr up d_parent d_parent.i_mode para { st with refs := st.refs }
          hroot2 hl2
      have hsub : fs.cooperates (d_child.d_name ::
            (missing_ancestors (d_parent :: up)).map (fun a => a.d_name)) →
          fs.cooperates (d_parent.d_name :: (missing_ancestors up).map (fun a => a.d_name)) := by
        intro hco
        refine cooperates_mono fs _ _ ?_ hco
        intro n hn
        rw [hm]
        exact List.mem_cons_of_mem _ (by simpa using hn)
      rcases hcase1 with ⟨f1, _, cs1, f3, f4⟩ | ⟨s1, s2, s3, s4, s5, s6⟩
      · refine ⟨⟨r1.ret, i_nlink, r1.d_child :: r1.up, d_child, r1.para, r1.st⟩, ?_,
          p1 :: dc1, p1, ?_,
          Or.inl ⟨by rw [hm]; simp, f1, rfl, ⟨d_parent, up, r1, rfl, hr1, rfl⟩, cs1, f3, ?_⟩,
          fun hco => absurd (hco1 (hsub hco)) f1⟩
        · rw [create_lo_d_child, hg]
          simp only [hr1, if_pos f1]
        · rw [hm]
          simp [hlen1]
        · rw [hm, ancestor_calls_cons]
          exact f4
      · have hg2 := attach_local_lo_d r1.st.refs d_parent p1.1
        rw [← s4] at hg2
        have hlo : comrade_lo_d r1.d_child.dim HMDFS_DEVID_LOCAL = some p1.1 := by
          rw [← get_lo_d_snd r1.st.refs, hg2]
        obtain ⟨t1, leaf, ls, t2, t3, t4, t5, t6⟩ :=
          child_tail_spec fs herr i_nlink (r1.d_child :: r1.up) d_child is_dir para.mode
            r1.para p1.1 { r1.st with refs := dget r1.st.refs p1.1 } hchild
        rw [ho1, hw1] at t3 t5 t6
        have hzip : ∀ x ∈ (missing_ancestors (d_parent :: up)).zip (p1 :: dc1),
            fs.vfs_mkdir x.2.2 x.2.1 x.1.i_mode = 0 := by
          rw [hm]
          intro x hx
          simp only [List.zip_cons_cons, List.mem_cons] at hx
          rcases hx with rfl | hx
          · exact s6
          · exact s5 x hx
        have hup : (create_lo_d_child_tail fs i_nlink (r1.d_child :: r1.up) d_child is_dir
              para.mode r1.para p1.1 { r1.st with refs := dget r1.st.refs p1.1 }).up =
            List.zipWith (fun a q => attach_local a q.1) (missing_ancestors (d_parent :: up))
              (p1 :: dc1) ++ (d_parent :: up).dropWhile (fun a => !has_local a) := by
          rw [t1, hm, hd, s3, s4]
          simp
        have hP : ∀ (parent : MergeDentry) (lo2 : Dentry) (path_name : List Char)
            (n : Dentry × Dentry),
            (create_lo_d_child_tail fs i_nlink (r1.d_child :: r1.up) d_child is_dir para.mode
              r1.para p1.1 { r1.st with refs := dget r1.st.refs p1.1 }).up.head? = some parent →
            comrade_lo_d parent.dim HMDFS_DEVID_LOCAL = some lo2 →
            fs.path_bufs_ok lo2 = true →
            fs.dentry_path_raw lo2 = .ok path_name →
            ¬ (fs.real_dst.length + path_name.length + d_child.d_name.length + 2 > PATH_MAX) →
            fs.kern_path_create
              (fs.real_dst ++ path_name ++ "/".toList ++ d_child.d_name) is_dir = .ok n →
            leaf = n ∧
            ls = (leaf_call para.opcode para.mode para.want_excl n).toList ∧
            ((create_lo_d_child_tail fs i_nlink (r1.d_child :: r1.up) d_child is_dir para.mode
                r1.para p1.1 { r1.st with refs := dget r1.st.refs p1.1 }).ret = 0 ↔
              leaf_result fs para.opcode para.mode para.want_excl n = 0 ∧
              fs.fill_inode_merge n.1 = 0 ∧ fs.comrade_ok n.1 = true) ∧
            (leaf_result fs para.opcode para.mode para.want_excl n ≠ 0 →
              (create_lo_d_child_tail fs i_nlink (r1.d_child :: r1.up) d_child is_dir para.mode
                r1.para p1.1 { r1.st with refs := dget r1.st.refs p1.1 }).ret
                = leaf_result fs para.opcode para.mode para.want_excl n) := by
          intro parent lo2 path_name n hh hlo2 h1 h2 h3 h4
          rw [t1] at hh
          simp only [List.head?_cons, Option.some.injEq] at hh
          subst hh
          rw [hlo] at hlo2
          simp only [Option.some.injEq] at hlo2
          subst hlo2
          exact t6 path_name n h1 h2 h3 h4
        have hcalls : (create_lo_d_child_tail fs i_nlink (r1.d_child :: r1.up) d_child is_dir
              para.mode r1.para p1.1 { r1.st with refs := dget r1.st.refs p1.1 }).st.calls =
            st.calls ++ ancestor_calls (missing_ancestors (d_parent :: up)) (p1 :: dc1)
              ++ ls := by
          rw [t2, hm, ancestor_calls_cons]
          simp only [s2, List.append_assoc]
        refine ⟨_, ?_, p1 :: dc1, leaf, ?_, Or.inr ⟨hzip, hup, ls, hcalls, t3, t4, ?_, hP⟩, ?_⟩
        · rw [create_lo_d_child, hg]
          simp only [hr1, if_neg (not_not.mpr s1), hg2]
        · rw [hm]
          simp [hlen1]
        · intro hz
          obtain ⟨u1, u2, u3, u4, path_name, u5, u6⟩ := t5 hz
          exact ⟨u1, u2, u3, u4, r1.d_child, p1.1, path_name, by rw [t1]; rfl, hlo, u5, u6⟩
        · intro hco
          obtain ⟨c1, c2, c3, c4, c5⟩ := hco
          obtain ⟨path_name, hp, hfit⟩ := c2 p1.1
          obtain ⟨n, hk⟩ :=
            c3 (fs.real_dst ++ path_name ++ "/".toList ++ d_child.d_name) is_dir
          obtain ⟨g1, g2, g3, _⟩ :=
            t6 path_name n (c1 _) hp (hfit _ (List.mem_cons_self _ _)) hk
          subst g1
          refine ⟨hzip, hup, by rw [hcalls, g2], ?_⟩
          rw [g3]
          simp [c5]

/-- The error pointers of the backing store of the examples are not
zero. -/
theorem sampleCreateFs_errors : sampleCreateFs.errors_nonzero := by
  refine ⟨?_, ?_⟩
  · intro d e h
    simp only [sampleCreateFs] at h
    split_ifs at h
    · injection h with h
      subst h
      decide
  · intro abs is_dir e h
    simp [sampleCreateFs] at h

/-- The error pointers of the backing store that prints every path are not
zero. -/
theorem sampleCreateFsOk_errors : sampleCreateFsOk.errors_nonzero := by
  refine ⟨?_, ?_⟩
  · intro d e h
    simp [sampleCreateFsOk] at h
  · intro abs is_dir e h
    simp [sampleCreateFsOk, sampleCreateFs] at h

/-- The backing store that prints every path refuses nothing to the
directories `a` and `b` and the file `c`. -/
theorem sampleCreateFsOk_cooperates :
    sampleCreateFsOk.cooperates ["c".toList, "b".toList, "a".toList] := by
  refine ⟨fun _ => rfl, ?_, fun _ _ => ⟨_, rfl⟩, fun _ _ _ => rfl, fun _ => rfl⟩
  intro lo
  refine ⟨"/local".toList, rfl, ?_⟩
  intro n hn
  simp only [List.mem_cons, List.mem_singleton, List.not_mem_nil, or_false] at hn
  rcases hn with rfl | rfl | rfl <;> decide

set_option maxRecDepth 20000 in
/-- Witness of C14: the file `c` is created below the directories `b` and
`a`, which only the device 2 has, under a root with a local comrade: the
backing calls are the `vfs_mkdir` of `a` with the mode of `a`, that of `b`
with the mode of `b` and then the `vfs_create` of `c` with the mode 420 of
the caller; 0 is returned and `b`, `a` and `c` have a local comrade. With
the backing store that prints every path the creation returns 0 as well. -/
theorem recursive_creation_order_witness :
    (∃ a ∈ [sampleDirB, sampleDirA, sampleRoot], has_local a = true) ∧
    has_local (sampleNew "c".toList) = false ∧
    (create_lo_d_child sampleCreateFs 2 [sampleDirB, sampleDirA, sampleRoot]
      (sampleNew "c".toList) false (hmdfs_init_recursive_para .F_CREATE_MERGE 420 true)
      sampleCreateState).isSome = true ∧
    (create_lo_d_child sampleCreateFs 2 [sampleDirB, sampleDirA, sampleRoot]
      (sampleNew "c".toList) false (hmdfs_init_recursive_para .F_CREATE_MERGE 420 true)
      sampleCreateState).map
        (fun r => (r.ret, r.st.calls, r.up.map (fun a => a.dim.comrade_list),
          r.d_child.dim.comrade_list))
      = some (0,
          [LowerCall.mkdir false ⟨212, S_IFDIR⟩ ⟨112, 0⟩ (S_IFDIR + 448),
            LowerCall.mkdir false ⟨214, S_IFDIR⟩ ⟨114, 0⟩ (S_IFDIR + 488),
            LowerCall.create ⟨216, S_IFDIR⟩ ⟨116, 0⟩ 420 true],
          [[⟨0, ⟨114, 0⟩⟩, ⟨2, ⟨54, S_IFDIR⟩⟩], [⟨0, ⟨112, 0⟩⟩, ⟨2, ⟨52, S_IFDIR⟩⟩],
            [⟨0, ⟨30, S_IFDIR⟩⟩]],
          [⟨0, ⟨116, 0⟩⟩]) ∧
    (∃ r, create_lo_d_child sampleCreateFsOk 2 [sampleDirB, sampleDirA, sampleRoot]
      (sampleNew "c".toList) false (hmdfs_init_recursive_para .F_CREATE_MERGE 420 true)
      sampleCreateState = some r ∧ r.ret = 0 ∧ r.st.calls.length = 3) :=
  have hroot : ∃ a ∈ [sampleDirB, sampleDirA, sampleRoot], has_local a = true :=
    ⟨sampleRoot, by simp, by decide⟩
  have hchild : has_local (sampleNew "c".toList) = false := by decide
  have h := recursive_creation_order sampleCreateFs sampleCreateFs_errors 2
    [sampleDirB, sampleDirA, sampleRoot] (sampleNew "c".toList) false
    (hmdfs_init_recursive_para .F_CREATE_MERGE 420 true) sampleCreateState hroot hchild
  have h2 := recursive_creation_order sampleCreateFsOk sampleCreateFsOk_errors 2
    [sampleDirB, sampleDirA, sampleRoot] (sampleNew "c".toList) false
    (hmdfs_init_recursive_para .F_CREATE_MERGE 420 true) sampleCreateState hroot hchild
  have hnames : (sampleNew "c".toList).d_name ::
      (missing_ancestors [sampleDirB, sampleDirA, sampleRoot]).map (fun a => a.d_name)
        = ["c".toList, "b".toList, "a".toList] := by decide
  ⟨hroot, hchild, by
    obtain ⟨r, hr, _⟩ := h
    rw [hr]
    rfl, by decide, by
    obtain ⟨r, hr, dc, leaf, hlen, _, hco⟩ := h2
    rw [hnames] at hco
    obtain ⟨_, _, k3, k4⟩ := hco sampleCreateFsOk_cooperates
    refine ⟨r, hr, k4.mpr ⟨rfl, rfl⟩, ?_⟩
    have hm : (missing_ancestors [sampleDirB, sampleDirA, sampleRoot]).length = 2 := by decide
    rw [hm] at hlen
    rw [k3]
    simp [ancestor_calls, hlen, hm, sampleCreateState, leaf_call, hmdfs_init_recursive_para]⟩
/-- C15 (as amended): for a name that is not of the common type,
`hmdfs_mkdir_merge`, `hmdfs_rmdir_merge`, `hmdfs_unlink_merge` and
`hmdfs_rename_merge` (for the old or the new name) return `-EACCES`, make no
backing call and change no comrade list. `hmdfs_create_merge` has no test
of its own and leaves the name to the backing store: whatever the name,
when `rec_op_para` and the path buffers are allocated, the parent has a
local comrade and the path of the new entry fits and can be created, it
calls `vfs_create` for the new backing dentry and nothing else, and when
that call is refused it returns the error of the call and leaves the dentry
without comrade. -/
theorem conflict_names_refused :
    (∀ (nt : NameTypes) (fs : LowerFs) (para_ok : Bool) (i_nlink : Nat)
        (up : List MergeDentry) (dentry : MergeDentry) (mode : Nat) (st : CreateState),
      nt.hmdfs_file_type dentry.d_name ≠ nt.HMDFS_TYPE_COMMON →
      hmdfs_mkdir_merge nt fs para_ok i_nlink up dentry mode st
        = some ⟨-EACCES, i_nlink, up, dentry, st, true⟩) ∧
    (∀ (nt : NameTypes) (vfs_rmdir : Dentry → Int) (name : List Char)
        (dim : hmdfs_dentry_info_merge),
      nt.hmdfs_file_type name ≠ nt.HMDFS_TYPE_COMMON →
      hmdfs_rmdir_merge nt vfs_rmdir name dim = ⟨-EACCES, [], [], false, false⟩) ∧
    (∀ (nt : NameTypes) (lookup_one_len : Dentry → Except Int Dentry)
        (vfs_unlink : Dentry → Int) (name : List Char) (dim : hmdfs_dentry_info_merge),
      nt.hmdfs_file_type name ≠ nt.HMDFS_TYPE_COMMON →
      hmdfs_unlink_merge nt lookup_one_len vfs_unlink name dim
        = ⟨-EACCES, [], [], false, false⟩) ∧
    (∀ (nt : NameTypes) (fs : LowerFs) (old_name new_name : List Char)
        (old_type new_type : Nat) (old_buf_ok new_buf_ok : Bool)
        (old_alias new_alias : Option (Except Int (List Char))) (bufs_ok : Bool)
        (dim : hmdfs_dentry_info_merge) (old_mode : Nat) (pmdi : hmdfs_dentry_info_merge)
        (flags : Nat) (st : RenameState),
      (nt.hmdfs_file_type old_name ≠ nt.HMDFS_TYPE_COMMON ∨
        nt.hmdfs_file_type new_name ≠ nt.HMDFS_TYPE_COMMON) →
      hmdfs_rename_merge nt fs old_name new_name old_type new_type old_buf_ok new_buf_ok
        old_alias new_alias bufs_ok dim old_mode pmdi flags st
          = some ⟨-EACCES, st, false, false, false⟩) ∧
    (∀ (fs : LowerFs) (i_nlink : Nat) (d_parent : MergeDentry) (up : List MergeDentry)
        (dentry : MergeDentry) (mode : Nat) (want_excl : Bool) (st : CreateState)
        (lo : Dentry) (path_name : List Char) (n : Dentry × Dentry),
      comrade_lo_d d_parent.dim HMDFS_DEVID_LOCAL = some lo →
      fs.path_bufs_ok lo = true →
      fs.dentry_path_raw lo = .ok path_name →
      ¬ (fs.real_dst.length + path_name.length + dentry.d_name.length + 2 > PATH_MAX) →
      fs.kern_path_create (fs.real_dst ++ path_name ++ "/".toList ++ dentry.d_name) false
        = .ok n →
      ∃ r, hmdfs_create_merge fs true i_nlink (d_parent :: up) dentry mode want_excl st
          = some r ∧
        r.st.calls = st.calls ++ [LowerCall.create n.2 n.1 mode want_excl] ∧
        (fs.vfs_create n.2 n.1 mode want_excl ≠ 0 →
          r.ret = fs.vfs_create n.2 n.1 mode want_excl ∧ r.dentry = dentry)) := by
  refine ⟨?_, ?_, ?_, ?_, ?_⟩
  · intro nt fs para_ok i_nlink up dentry mode st h
    unfold hmdfs_mkdir_merge
    rw [if_pos h]
  · intro nt vfs_rmdir name dim h
    unfold hmdfs_rmdir_merge
    rw [if_pos h]
  · intro nt lookup_one_len vfs_unlink name dim h
    unfold hmdfs_unlink_merge
    rw [if_pos h]
  · intro nt fs old_name new_name old_type new_type old_buf_ok new_buf_ok old_alias new_alias
      bufs_ok dim old_mode pmdi flags st h
    unfold hmdfs_rename_merge
    rw [if_pos h]
  · intro fs i_nlink d_parent up dentry mode want_excl st lo path_name n hlo hb hp hlen hk
    obtain ⟨n1, n2⟩ := n
    have hg : hmdfs_get_lo_d st.refs d_parent.dim HMDFS_DEVID_LOCAL
        = ((hmdfs_get_lo_d st.refs d_parent.dim HMDFS_DEVID_LOCAL).1, some lo) := by
      rw [← hlo, ← get_lo_d_snd st.refs]
    unfold hmdfs_create_merge
    rw [if_neg (by simp)]
    rw [create_lo_d_child, hg]
    simp only [Option.map_some', create_lo_d_child_tail, hmdfs_create_lower_dentry, hb,
      Bool.true_eq_false, if_false, hp, if_neg hlen, hk, hmdfs_do_ops_merge,
      hmdfs_init_recursive_para, if_true, do_create_merge]
    by_cases hv : fs.vfs_create n2 n1 mode want_excl = 0
    · refine ⟨_, rfl, ?_, fun h => absurd hv h⟩
      by_cases hf : fs.fill_inode_merge n1 = 0
      · simp only [hv, hf, ne_eq, not_true_eq_false, if_false]
        cases hc : fs.comrade_ok n1 <;> simp [alloc_comrade]
      · simp [hv, hf]
    · refine ⟨_, rfl, ?_, fun _ => ?_⟩
      · simp [hv]
      · simp [hv]

set_option maxRecDepth 20000 in
/-- Counterexample to C15 as stated: the name `a_conflict_dev2.txt` is not
of the common type, and the backing store refuses to create it with
`-EACCES`. `hmdfs_create_merge` returns `-EACCES`, but only after calling
`vfs_create` for it below the local comrade of the parent; and below the
directories `b` and `a`, which have no local comrade, it first makes both in
the backing store and attaches them as local comrades. -/
theorem conflict_names_refused_counterexample :
    sampleTypes.hmdfs_file_type (sampleNew "a_conflict_dev2.txt".toList).d_name
      ≠ sampleTypes.HMDFS_TYPE_COMMON ∧
    (hmdfs_create_merge sampleCreateFsRefuse true 2 [sampleRoot]
      (sampleNew "a_conflict_dev2.txt".toList) 420 false sampleCreateState).map
        (fun r => (r.ret, r.st.calls, r.dentry.dim.comrade_list))
      = some (-EACCES, [LowerCall.create ⟨230, S_IFDIR⟩ ⟨130, 0⟩ 420 false], []) ∧
    (hmdfs_create_merge sampleCreateFsRefuse true 2 [sampleDirB, sampleDirA, sampleRoot]
      (sampleNew "a_conflict_dev2.txt".toList) 420 false sampleCreateState).map
        (fun r => (r.ret, r.st.calls, r.up.map (fun a => a.dim.comrade_list)))
      = some (-EACCES,
          [LowerCall.mkdir false ⟨212, S_IFDIR⟩ ⟨112, 0⟩ (S_IFDIR + 448),
            LowerCall.mkdir false ⟨214, S_IFDIR⟩ ⟨114, 0⟩ (S_IFDIR + 488),
            LowerCall.create ⟨234, S_IFDIR⟩ ⟨134, 0⟩ 420 false],
          [[⟨0, ⟨114, 0⟩⟩, ⟨2, ⟨54, S_IFDIR⟩⟩], [⟨0, ⟨112, 0⟩⟩, ⟨2, ⟨52, S_IFDIR⟩⟩],
            [⟨0, ⟨30, S_IFDIR⟩⟩]]) ∧
    [sampleDirB, sampleDirA, sampleRoot].map (fun a => a.dim.comrade_list)
      = [[⟨2, ⟨54, S_IFDIR⟩⟩], [⟨2, ⟨52, S_IFDIR⟩⟩], [⟨0, ⟨30, S_IFDIR⟩⟩]] := by
  refine ⟨by decide, by decide, by decide, by decide⟩

/-! ## The flags word of a zram table entry -/

/-- The macro `BIT(nr)` for a bit of the word. -/
theorem BIT_eq (cfg : ZramConfig) (nr : Nat) (h : nr < cfg.BITS_PER_LONG) :
    BIT cfg nr = 2 ^ nr := by
  unfold BIT
  rw [Nat.one_shiftLeft]
  exact Nat.mod_eq_of_lt (Nat.pow_lt_pow_right (by decide) h)

/-- The mask `BIT(shift) - 1` for a shift inside the word. -/
theorem size_mask_eq (cfg : ZramConfig) (s : Nat) (h : s < cfg.BITS_PER_LONG) :
    (BIT cfg s + 2 ^ cfg.BITS_PER_LONG - 1) % 2 ^ cfg.BITS_PER_LONG = 2 ^ s - 1 := by
  rw [BIT_eq cfg s h]
  have h1 : 0 < 2 ^ s := Nat.two_pow_pos _
  have h2 : 2 ^ s < 2 ^ cfg.BITS_PER_LONG := Nat.pow_lt_pow_right (by decide) h
  have e : 2 ^ s + 2 ^ cfg.BITS_PER_LONG - 1 = (2 ^ s - 1) + 2 ^ cfg.BITS_PER_LONG := by omega
  rw [e, Nat.add_mod_right]
  exact Nat.mod_eq_of_lt (by omega)

/-- A bit at or above `n` of a number below `2 ^ n` is clear. -/
theorem testBit_of_lt_two_pow (x n i : Nat) (h : x < 2 ^ n) (hi : n ≤ i) :
    x.testBit i = false :=
  Nat.testBit_lt_two_pow (Nat.lt_of_lt_of_le h (Nat.pow_le_pow_right (by decide) hi))

/-- The test `x & 2^f` is the test of the bit `f`. -/
theorem and_two_pow_ne_zero (x f : Nat) : (x &&& 2 ^ f != 0) = x.testBit f := by
  rw [Nat.and_two_pow]
  have h1 : 0 < 2 ^ f := Nat.two_pow_pos _
  cases h : x.testBit f
  · simp
  · simp

/-- The bits of the word that `zram_set_obj_size` stores. -/
theorem set_size_testBit (w s W size i : Nat) (hw : w < 2 ^ W) :
    ((((w >>> s) <<< s) % 2 ^ W) ||| size).testBit i
      = ((decide (s ≤ i) && w.testBit i) || size.testBit i) := by
  rw [Nat.testBit_or, Nat.testBit_mod_two_pow, Nat.testBit_shiftLeft, Nat.testBit_shiftRight]
  by_cases hs : s ≤ i
  · have e : s + (i - s) = i := by omega
    rw [e]
    by_cases hi : i < W
    · simp [hs, hi]
    · have : w.testBit i = false := testBit_of_lt_two_pow w W i hw (by omega)
      simp [this]
  · simp [hs]

/-- The size shift is not above the first page flag. -/
theorem obj_size_shift_le (cfg : ZramConfig) : obj_size_shift cfg ≤ ZRAM_FLAG_SHIFT cfg := by
  unfold obj_size_shift ZRAM_FLAG_SHIFT
  cases cfg.group
  · simp
  · simp [ZRAM_SIZE_SHIFT, ZRAM_GRPID_SHIFT]

/-- The entry at the index after `zram_set_obj_size`. -/
theorem set_obj_size_at (cfg : ZramConfig) (table : Nat → zram_table_entry) (index size : Nat) :
    (zram_set_obj_size cfg table index size index).flags
      = ((((table index).flags >>> obj_size_shift cfg) <<< obj_size_shift cfg)
          % 2 ^ cfg.BITS_PER_LONG) ||| size := by
  simp [zram_set_obj_size]

/-- The entry at the index after `zram_set_flag`. -/
theorem set_flag_at (cfg : ZramConfig) (table : Nat → zram_table_entry) (index flag : Nat) :
    (zram_set_flag cfg table index flag index).flags = (table index).flags ||| BIT cfg flag := by
  simp [zram_set_flag]

/-- The entry at the index after `zram_clear_flag`. -/
theorem clear_flag_at (cfg : ZramConfig) (table : Nat → zram_table_entry) (index flag : Nat) :
    (zram_clear_flag cfg table index flag index).flags
      = (table index).flags &&& ((2 ^ cfg.BITS_PER_LONG - 1) ^^^ BIT cfg flag) := by
  simp [zram_clear_flag]

/-- The bits of the flags word after `zram_set_flag` of a bit of the
word. -/
theorem set_flag_testBit (cfg : ZramConfig) (table : Nat → zram_table_entry)
    (index flag i : Nat) (hf : flag < cfg.BITS_PER_LONG) :
    (zram_set_flag cfg table index flag index).flags.testBit i
      = ((table index).flags.testBit i || decide (flag = i)) := by
  rw [set_flag_at, BIT_eq cfg flag hf, Nat.testBit_or, Nat.testBit_two_pow]

/-- The bits of the flags word after `zram_clear_flag` of a bit of the
word. -/
theorem clear_flag_testBit (cfg : ZramConfig) (table : Nat → zram_table_entry)
    (index flag i : Nat) (hf : flag < cfg.BITS_PER_LONG)
    (hw : (table index).flags < 2 ^ cfg.BITS_PER_LONG) :
    (zram_clear_flag cfg table index flag index).flags.testBit i
      = ((table index).flags.testBit i && !decide (flag = i)) := by
  rw [clear_flag_at, BIT_eq cfg flag hf, Nat.testBit_and, Nat.testBit_xor,
    Nat.testBit_two_pow_sub_one, Nat.testBit_two_pow]
  by_cases hi : i < cfg.BITS_PER_LONG
  · by_cases he : flag = i <;> simp [hi, he]
  · have : (table index).flags.testBit i = false :=
      testBit_of_lt_two_pow _ _ i hw (by omega)
    simp [this]

/-- The object size read from a flags word: its bits below the shift. -/
theorem get_obj_size_testBit (cfg : ZramConfig) (table : Nat → zram_table_entry)
    (index i : Nat) (hs : obj_size_shift cfg < cfg.BITS_PER_LONG) :
    (zram_get_obj_size cfg table index).testBit i
      = ((table index).flags.testBit i && decide (i < obj_size_shift cfg)) := by
  unfold zram_get_obj_size
  rw [size_mask_eq cfg _ hs, Nat.testBit_and, Nat.testBit_two_pow_sub_one]

/-- The test of a flag of the word is the test of its bit. -/
theorem test_flag_eq (cfg : ZramConfig) (table : Nat → zram_table_entry) (index flag : Nat)
    (hf : flag < cfg.BITS_PER_LONG) :
    zram_test_flag cfg table index flag = (table index).flags.testBit flag := by
  unfold zram_test_flag
  rw [BIT_eq cfg flag hf, and_two_pow_ne_zero]

/-- C28: for a flags word of `unsigned long`, a size below `2 ^ shift`
(`shift` being `ZRAM_FLAG_SHIFT`, or `ZRAM_SIZE_SHIFT` with groups) and a
page flag (an enumerator from `ZRAM_LOCK` up to `__NR_ZRAM_PAGEFLAGS`, which
the build keeps inside the word): `zram_get_obj_size` after
`zram_set_obj_size` returns the size, and `zram_set_obj_size` leaves every
bit at or above the shift as it was; `zram_set_flag` and `zram_clear_flag`
leave the object size, every other bit of the word and every other flag as
they were, and make `zram_test_flag` return true, respectively false, for
the flag. -/
theorem zram_size_flag_packing (cfg : ZramConfig) (table : Nat → zram_table_entry)
    (index size flag : Nat)
    (hword : (table index).flags < 2 ^ cfg.BITS_PER_LONG)
    (hnr : __NR_ZRAM_PAGEFLAGS cfg ≤ cfg.BITS_PER_LONG)
    (hsize : size < 2 ^ obj_size_shift cfg)
    (hflag : ZRAM_LOCK cfg ≤ flag ∧ flag < __NR_ZRAM_PAGEFLAGS cfg) :
    zram_get_obj_size cfg (zram_set_obj_size cfg table index size) index = size ∧
    (∀ i, obj_size_shift cfg ≤ i →
      (zram_set_obj_size cfg table index size index).flags.testBit i
        = (table index).flags.testBit i) ∧
    (zram_get_obj_size cfg (zram_set_flag cfg table index flag) index
        = zram_get_obj_size cfg table index ∧
      (∀ i, i ≠ flag →
        (zram_set_flag cfg table index flag index).flags.testBit i
          = (table index).flags.testBit i) ∧
      (∀ g, g ≠ flag → g < cfg.BITS_PER_LONG →
        zram_test_flag cfg (zram_set_flag cfg table index flag) index g
          = zram_test_flag cfg table index g) ∧
      zram_test_flag cfg (zram_set_flag cfg table index flag) index flag = true) ∧
    (zram_get_obj_size cfg (zram_clear_flag cfg table index flag) index
        = zram_get_obj_size cfg table index ∧
      (∀ i, i ≠ flag →
        (zram_clear_flag cfg table index flag index).flags.testBit i
          = (table index).flags.testBit i) ∧
      (∀ g, g ≠ flag → g < cfg.BITS_PER_LONG →
        zram_test_flag cfg (zram_clear_flag cfg table index flag) index g
          = zram_test_flag cfg table index g) ∧
      zram_test_flag cfg (zram_clear_flag cfg table index flag) index flag = false) := by
  have hf : flag < cfg.BITS_PER_LONG := Nat.lt_of_lt_of_le hflag.2 hnr
  have hsf : obj_size_shift cfg ≤ flag :=
    Nat.le_trans (obj_size_shift_le cfg) hflag.1
  have hs : obj_size_shift cfg < cfg.BITS_PER_LONG := Nat.lt_of_le_of_lt hsf hf
  refine ⟨?_, ?_, ⟨?_, ?_, ?_, ?_⟩, ⟨?_, ?_, ?_, ?_⟩⟩
  · apply Nat.eq_of_testBit_eq
    intro i
    rw [get_obj_size_testBit cfg _ index i hs, set_obj_size_at,
      set_size_testBit _ _ _ _ _ hword]
    by_cases hi : i < obj_size_shift cfg
    · have : ¬ obj_size_shift cfg ≤ i := by omega
      simp [hi, this]
    · have : size.testBit i = false :=
        testBit_of_lt_two_pow size _ i hsize (by omega)
      simp [hi, this]
  · intro i hi
    rw [set_obj_size_at, set_size_testBit _ _ _ _ _ hword]
    have : size.testBit i = false := testBit_of_lt_two_pow size _ i hsize hi
    simp [hi, this]
  · apply Nat.eq_of_testBit_eq
    intro i
    rw [get_obj_size_testBit cfg _ index i hs, get_obj_size_testBit cfg _ index i hs,
      set_flag_testBit cfg table index flag i hf]
    by_cases hi : i < obj_size_shift cfg
    · have : ¬ flag = i := by omega
      simp [this]
    · simp [hi]
  · intro i hi
    rw [set_flag_testBit cfg table index flag i hf]
    have : ¬ flag = i := fun h => hi h.symm
    simp [this]
  · intro g hg hgw
    rw [test_flag_eq cfg _ index g hgw, test_flag_eq cfg _ index g hgw,
      set_flag_testBit cfg table index flag g hf]
    have : ¬ flag = g := fun h => hg h.symm
    simp [this]
  · rw [test_flag_eq cfg _ index flag hf, set_flag_testBit cfg table index flag flag hf]
    simp
  · apply Nat.eq_of_testBit_eq
    intro i
    rw [get_obj_size_testBit cfg _ index i hs, get_obj_size_testBit cfg _ index i hs,
      clear_flag_testBit cfg table index flag i hf hword]
    by_cases hi : i < obj_size_shift cfg
    · have : ¬ flag = i := by omega
      simp [this]
    · simp [hi]
  · intro i hi
    rw [clear_flag_testBit cfg table index flag i hf hword]
    have : ¬ flag = i := fun h => hi h.symm
    simp [this]
  · intro g hg hgw
    rw [test_flag_eq cfg _ index g hgw, test_flag_eq cfg _ index g hgw,
      clear_flag_testBit cfg table index flag g hf hword]
    have : ¬ flag = g := fun h => hg h.symm
    simp [this]
  · rw [test_flag_eq cfg _ index flag hf, clear_flag_testBit cfg table index flag flag hf hword]
    simp

/-- Witness of C28: without groups, with pages of 4096 bytes and words of 64
bits, the flags word 100 + 2^14 + 2^45 takes the size 4096, which is read
back, and the flag `ZRAM_LOCK` (bit 13) is set and cleared; with groups the
flag `ZRAM_LOCK` is the bit 40. -/
theorem zram_size_flag_packing_witness :
    ((sampleZramTable 3).flags < 2 ^ sampleZramConfig.BITS_PER_LONG ∧
      __NR_ZRAM_PAGEFLAGS sampleZramConfig ≤ sampleZramConfig.BITS_PER_LONG ∧
      4096 < 2 ^ obj_size_shift sampleZramConfig ∧
      ZRAM_LOCK sampleZramConfig ≤ 13 ∧ 13 < __NR_ZRAM_PAGEFLAGS sampleZramConfig) ∧
    zram_get_obj_size sampleZramConfig (zram_set_obj_size sampleZramConfig sampleZramTable 3 4096)
      3 = 4096 ∧
    zram_test_flag sampleZramConfig (zram_set_flag sampleZramConfig sampleZramTable 3 13) 3 13
      = true ∧
    zram_test_flag sampleZramConfig (zram_clear_flag sampleZramConfig sampleZramTable 3 13) 3 13
      = false ∧
    zram_get_obj_size sampleZramConfig (zram_set_flag sampleZramConfig sampleZramTable 3 13) 3
      = 100 :=
  have h := zram_size_flag_packing sampleZramConfig sampleZramTable 3 4096 13
    (by decide) (by decide) (by decide) ⟨by decide, by decide⟩
  ⟨⟨by decide, by decide, by decide, by decide, by decide⟩, h.1, h.2.2.1.2.2.2, h.2.2.2.2.2.2,
    h.2.2.1.1.trans (by decide)⟩

/-! ## Release of a node -/

/-- The loop of `clear_comrades_locked` gives every comrade of the list to
`kfree` and takes one reference from the backing dentry of each. -/
theorem clear_loop_spec (l : List hmdfs_dentry_comrade) :
    ∀ refs : Refs,
    (clear_comrades_locked_loop refs l).2 = l ∧
    ∀ i, (clear_comrades_locked_loop refs l).1 i
      = refs i - (l.countP (fun c => c.lo_d.id = i) : Int) := by
  induction l with
  | nil =>
    intro refs
    simp [clear_comrades_locked_loop]
  | cons cc rest ih =>
    intro refs
    obtain ⟨h1, h2⟩ := ih (dput refs cc.lo_d)
    refine ⟨by simp [clear_comrades_locked_loop, h1], ?_⟩
    intro i
    simp only [clear_comrades_locked_loop]
    rw [h2 i, List.countP_cons]
    by_cases he : cc.lo_d.id = i
    · simp only [dput, he, if_true, decide_True]
      push_cast
      omega
    · have he2 : ¬ i = cc.lo_d.id := fun h => he h.symm
      simp only [dput, he2, if_false, he, decide_False]
      push_cast
      omega

/-- The wait for pending lookup work ends only with the counter at zero,
after the works of a first part of the list have completed. -/
theorem wait_no_lookup_work_spec (answer : merge_lookup_work → LookupOutcome) :
    ∀ (works : List merge_lookup_work) (refs : Refs) (cdi : hmdfs_dentry_info_merge)
      (res : Refs × hmdfs_dentry_info_merge × List merge_lookup_work),
    wait_no_lookup_work answer refs cdi works = some res →
    res.2.1.work_count = 0 ∧
    ∃ done, works = done ++ res.2.2 ∧
      run_works refs cdi (done.map (fun w => (w.devid, answer w))) = (res.1, res.2.1) := by
  intro works
  induction works with
  | nil =>
    intro refs cdi res h
    simp only [wait_no_lookup_work] at h
    by_cases hw : has_merge_lookup_work cdi = true
    · simp [hw] at h
    · simp only [hw, Bool.false_eq_true, if_false, Option.some.injEq] at h
      subst h
      refine ⟨?_, [], rfl, rfl⟩
      simpa [has_merge_lookup_work] using hw
  | cons w rest ih =>
    intro refs cdi res h
    simp only [wait_no_lookup_work] at h
    by_cases hw : has_merge_lookup_work cdi = true
    · simp only [hw, if_true] at h
      obtain ⟨h1, done, h2, h3⟩ := ih _ _ res h
      refine ⟨h1, w :: done, by rw [h2]; rfl, ?_⟩
      simp only [List.map_cons, run_works]
      exact h3
    · simp only [hw, Bool.false_eq_true, if_false, Option.some.injEq] at h
      subst h
      refine ⟨?_, [], rfl, rfl⟩
      simpa [has_merge_lookup_work] using hw

/-- The wait for pending lookup work ends when the counter counts works of
the list. -/
theorem wait_no_lookup_work_total (answer : merge_lookup_work → LookupOutcome) :
    ∀ (works : List merge_lookup_work) (refs : Refs) (cdi : hmdfs_dentry_info_merge) (n : Nat),
    cdi.work_count = (n : Int) → n ≤ works.length →
    ∃ res, wait_no_lookup_work answer refs cdi works = some res := by
  intro works
  induction works with
  | nil =>
    intro refs cdi n hn hle
    have : n = 0 := by simpa using hle
    subst this
    refine ⟨(refs, cdi, []), ?_⟩
    simp [wait_no_lookup_work, has_merge_lookup_work, hn]
  | cons w rest ih =>
    intro refs cdi n hn hle
    simp only [wait_no_lookup_work]
    by_cases hw : has_merge_lookup_work cdi = true
    · simp only [hw, if_true]
      have hn0 : n ≠ 0 := by
        intro h0
        subst h0
        simp [has_merge_lookup_work, hn] at hw
      have hc : (merge_lookup_work_func refs cdi w.devid (answer w)).mdi.work_count
          = ((n - 1 : Nat) : Int) := by
        unfold merge_lookup_work_func
        rw [work_body_count, hn]
        omega
      exact ih _ _ (n - 1) hc (by simp only [List.length_cons] at hle; omega)
    · simp only [hw, Bool.false_eq_true, if_false]
      exact ⟨_, rfl⟩

/-- C21: when `clear_comrades` returns, the works of a first part of the
pending list have completed and have brought the counter of pending work to
zero; the comrade list it then finds is given whole to `kfree`, the
reference count of every backing dentry is lowered by the number of comrades
of the list that hold it (one `dput` for each comrade), and the list is
left empty. It returns whenever the counter counts works that are still
to complete. `d_release_merge` does nothing for a dentry without node, does
the same as `clear_comrades` otherwise and then frees the node. -/
theorem release_after_pending_work (answer : merge_lookup_work → LookupOutcome) (refs : Refs)
    (cdi : hmdfs_dentry_info_merge) (works : List merge_lookup_work) :
    (∀ r, clear_comrades answer refs cdi works = some r →
      ∃ done, works = done ++ r.pending ∧
        (run_works refs cdi (done.map (fun w => (w.devid, answer w)))).2.work_count = 0 ∧
        r.freed = (run_works refs cdi (done.map (fun w => (w.devid, answer w)))).2.comrade_list ∧
        (∀ i, r.refs i =
          (run_works refs cdi (done.map (fun w => (w.devid, answer w)))).1 i -
            (((run_works refs cdi (done.map (fun w => (w.devid, answer w)))).2.comrade_list.countP
              (fun c => c.lo_d.id = i) : Nat) : Int)) ∧
        r.d_fsdata = some
          { (run_works refs cdi (done.map (fun w => (w.devid, answer w)))).2 with
            comrade_list := [] } ∧
        r.node_freed = false) ∧
    (∀ n : Nat, cdi.work_count = (n : Int) → n ≤ works.length →
      ∃ r, clear_comrades answer refs cdi works = some r) ∧
    d_release_merge answer refs none works = some ⟨refs, none, [], false, works⟩ ∧
    d_release_merge answer refs (some cdi) works
      = (clear_comrades answer refs cdi works).map
          (fun r => { r with d_fsdata := none, node_freed := true }) := by
  refine ⟨?_, ?_, rfl, ?_⟩
  · intro r h
    unfold clear_comrades at h
    cases hw : wait_no_lookup_work answer refs cdi works with
    | none => rw [hw] at h; simp at h
    | some res =>
      obtain ⟨refs1, cdi1, pending⟩ := res
      rw [hw] at h
      simp only [Option.some.injEq] at h
      subst h
      obtain ⟨h0, done, h1, h2⟩ := wait_no_lookup_work_spec answer works refs cdi _ hw
      obtain ⟨c1, c2⟩ := clear_loop_spec cdi1.comrade_list refs1
      refine ⟨done, h1, ?_, ?_, ?_, ?_, rfl⟩
      · rw [h2]; exact h0
      · rw [h2]; exact c1
      · intro i
        rw [h2]
        exact c2 i
      · rw [h2]
        rfl
  · intro n hn hle
    obtain ⟨res, hres⟩ := wait_no_lookup_work_total answer works refs cdi n hn hle
    unfold clear_comrades
    rw [hres]
    exact ⟨_, rfl⟩
  · unfold d_release_merge
    cases hc : clear_comrades answer refs cdi works <;> simp [hc]

/-- Witness of C21: a directory node with the comrade of device 1 on the
dentry 11 and two pending works is released. Both works complete first, the
one of device 0 adding a comrade on the dentry 21; then both comrades are
freed, the dentry 11 loses its reference, the dentry 21 keeps the one it had
before, and the list is empty. With no work left to complete the release
does not return. -/
theorem release_after_pending_work_witness :
    (clear_comrades sampleReleaseAnswer (fun _ => 1) sampleNodePending samplePendingWorks).map
        (fun r => (r.freed, r.d_fsdata.map (fun d => (d.comrade_list, d.work_count)),
          r.refs 11, r.refs 21, r.pending))
      = some ([⟨0, ⟨21, S_IFDIR⟩⟩, ⟨1, ⟨11, S_IFDIR⟩⟩], some ([], 0), 0, 1, []) ∧
    (clear_comrades sampleReleaseAnswer (fun _ => 1) sampleNodePending []).isNone = true ∧
    (d_release_merge sampleReleaseAnswer (fun _ => 1) (some sampleNodePending)
      samplePendingWorks).map (fun r => (r.d_fsdata, r.node_freed)) = some (none, true) :=
  have h := release_after_pending_work sampleReleaseAnswer (fun _ => 1) sampleNodePending
    samplePendingWorks
  ⟨by rfl, by rfl, by
    rw [h.2.2.2]
    obtain ⟨r, hr⟩ := h.2.1 2 rfl (by decide)
    rw [hr]
    rfl⟩

/-! ## The lookup work: outcomes, order, completion and references -/

/-- A reference taken and released leaves the counts as they were. -/
theorem dput_dget (refs : Refs) (d : Dentry) : dput (dget refs d) d = refs := by
  funext i
  simp only [dput, dget]
  split_ifs <;> omega

/-- The function `merge_lookup_comrade` when it constructs a comrade: the
comrade holds the one reference that remains. -/
theorem merge_lookup_comrade_some (refs : Refs) (devid : Int) (out : LookupOutcome) (d : Dentry)
    (h : lookup_dentry out = some d) :
    merge_lookup_comrade refs devid out = (dget refs d, .ok ⟨devid, d⟩) := by
  unfold lookup_dentry at h
  unfold merge_lookup_comrade
  by_cases hr : out.root_err ≠ 0
  · simp [hr] at h
  · rw [if_neg hr] at h ⊢
    cases hl : out.lookup with
    | error e => rw [hl] at h; simp at h
    | ok d2 =>
      rw [hl] at h
      simp only at h ⊢
      cases ha : out.alloc_ok with
      | false => rw [ha] at h; simp at h
      | true =>
        rw [ha] at h
        simp only [if_true, Option.some.injEq] at h
        subst h
        simp only [alloc_comrade, if_true]
        have e : dput (dget (dget refs d2) d2) d2 = dget refs d2 := dput_dget _ _
        rw [e]

/-- The function `merge_lookup_comrade` when it constructs no comrade: an
error is returned and no reference remains. -/
theorem merge_lookup_comrade_none (refs : Refs) (devid : Int) (out : LookupOutcome)
    (h : lookup_dentry out = none) :
    ∃ e, merge_lookup_comrade refs devid out = (refs, .error e) := by
  unfold lookup_dentry at h
  unfold merge_lookup_comrade
  by_cases hr : out.root_err ≠ 0
  · rw [if_pos hr]
    exact ⟨_, rfl⟩
  · rw [if_neg hr] at h ⊢
    cases hl : out.lookup with
    | error e => exact ⟨_, rfl⟩
    | ok d2 =>
      rw [hl] at h
      simp only at h ⊢
      cases ha : out.alloc_ok with
      | true => rw [ha] at h; simp at h
      | false =>
        simp only [alloc_comrade, Bool.false_eq_true, if_false]
        rw [dput_dget]
        exact ⟨_, rfl⟩

/-- A work that constructs no comrade only lowers the counter. -/
theorem work_func_none (refs : Refs) (mdi : hmdfs_dentry_info_merge) (dev : Int)
    (out : LookupOutcome) (h : lookup_dentry out = none) :
    merge_lookup_work_func refs mdi dev out
      = ⟨refs, { mdi with work_count := mdi.work_count - 1 },
          mdi.work_count - 1 == 0 || false, false⟩ := by
  obtain ⟨e, he⟩ := merge_lookup_comrade_none refs dev out h
  unfold merge_lookup_work_func
  rw [he]
  rfl

/-- A work that constructs a comrade goes on with it and its one
reference. -/
theorem work_func_some (refs : Refs) (mdi : hmdfs_dentry_info_merge) (dev : Int)
    (out : LookupOutcome) (d : Dentry) (h : lookup_dentry out = some d) :
    merge_lookup_work_func refs mdi dev out
      = merge_lookup_work_body (dget refs d) mdi (.ok ⟨dev, d⟩) := by
  unfold merge_lookup_work_func
  rw [merge_lookup_comrade_some refs dev out d h]

/-- Works that construct no comrade leave the kind and the list of the
node. -/
theorem run_works_all_none (works : List (Int × LookupOutcome)) :
    ∀ (refs : Refs) (mdi : hmdfs_dentry_info_merge),
    (∀ w ∈ works, lookup_dentry w.2 = none) →
    run_works refs mdi works
      = (refs, { mdi with work_count := mdi.work_count - (works.length : Int) }) := by
  induction works with
  | nil =>
    intro refs mdi _
    simp [run_works]
  | cons w rest ih =>
    intro refs mdi h
    obtain ⟨dev, out⟩ := w
    simp only [run_works]
    rw [work_func_none refs mdi dev out (h _ (List.mem_cons_self _ _))]
    simp only
    rw [ih _ _ (fun w hw => h w (List.mem_cons_of_mem _ hw))]
    simp only [List.length_cons, Nat.cast_add, Nat.cast_one, Prod.mk.injEq, true_and]
    congr 1
    omega

/-- The comrade that a work constructs, if it constructs one. -/
theorem valid_dir (mdi : hmdfs_dentry_info_merge) (mode : Nat) (hd : S_ISDIR mode = true)
    (hst : mdi.type = DT_UNKNOWN ∨ mdi.type = DT_DIR) :
    is_valid_comrade mdi mode = ({ mdi with type := DT_DIR }, true) := by
  obtain ⟨t, wc, l⟩ := mdi
  unfold is_valid_comrade
  rcases hst with h0 | h1
  · simp only at h0
    subst h0
    simp [hd]
  · simp only at h1
    subst h1
    simp [hd, DT_DIR, DT_UNKNOWN]

/-- A directory comrade of a new device is accepted by a node that is fresh
or a directory: it joins the list. -/
theorem body_accept_dir (refs : Refs) (mdi : hmdfs_dentry_info_merge)
    (c : hmdfs_dentry_comrade) (hd : S_ISDIR c.lo_d.i_mode = true)
    (hst : mdi.type = DT_UNKNOWN ∨ mdi.type = DT_DIR)
    (hnew : ∀ x ∈ mdi.comrade_list, x.dev_id ≠ c.dev_id) :
    (merge_lookup_work_body refs mdi (.ok c)).mdi.type = DT_DIR ∧
    (merge_lookup_work_body refs mdi (.ok c)).mdi.work_count = mdi.work_count - 1 ∧
    (merge_lookup_work_body refs mdi (.ok c)).mdi.comrade_list.Perm (c :: mdi.comrade_list) := by
  simp only [merge_lookup_work_body, hmdfs_cm, valid_dir mdi _ hd hst]
  simp only [Bool.true_eq_false, if_false]
  refine ⟨by first | rfl | trivial, by first | rfl | trivial, ?_⟩
  rcases link_comrade_cases refs mdi.comrade_list c with ⟨⟨x, hx, he⟩, _⟩ | ⟨_, _, he⟩ | ⟨_, _, he⟩
  · exact absurd he (hnew x hx)
  · simp only [he]
    exact List.Perm.refl _
  · simp only [he]
    exact List.perm_append_singleton _ _

/-- A comrade is accepted by a fresh node, which takes its kind. -/
theorem body_fresh (refs : Refs) (mdi : hmdfs_dentry_info_merge) (c : hmdfs_dentry_comrade)
    (ht : mdi.type = DT_UNKNOWN) (hl : mdi.comrade_list = []) :
    (merge_lookup_work_body refs mdi (.ok c)).mdi
      = ⟨if S_ISDIR c.lo_d.i_mode then DT_DIR else DT_REG, mdi.work_count - 1, [c]⟩ := by
  obtain ⟨t, wc, l⟩ := mdi
  simp only at ht hl
  subst ht hl
  simp only [merge_lookup_work_body, hmdfs_cm, is_valid_comrade, if_true, Bool.true_eq_false,
    if_false, link_comrade_nil]

/-- The comrades that the works of a list construct, in the order of the
works. -/
theorem run_works_dirs_comrades (works : List (Int × LookupOutcome)) :
    ∀ (refs : Refs) (mdi : hmdfs_dentry_info_merge),
    (works.map Prod.fst).Nodup →
    (∀ x ∈ mdi.comrade_list, x.dev_id ∉ works.map Prod.fst) →
    (mdi.type = DT_UNKNOWN ∨ mdi.type = DT_DIR) →
    (∀ w ∈ works, ∀ d, lookup_dentry w.2 = some d → S_ISDIR d.i_mode = true) →
    (run_works refs mdi works).2.comrade_list.Perm
      (works.filterMap (fun w => (lookup_dentry w.2).map (fun d => ⟨w.1, d⟩))
        ++ mdi.comrade_list) ∧
    (run_works refs mdi works).2.work_count = mdi.work_count - (works.length : Int) ∧
    (run_works refs mdi works).2.type
      = (if works.any (fun w => (lookup_dentry w.2).isSome) = true then DT_DIR
         else mdi.type) := by
  induction works with
  | nil =>
    intro refs mdi _ _ _ _
    simp [run_works]
  | cons w rest ih =>
    intro refs mdi hnd hdisj hst hdir
    obtain ⟨dev, out⟩ := w
    simp only [List.map_cons, List.nodup_cons] at hnd
    simp only [run_works]
    have hrest : ∀ w ∈ rest, ∀ d, lookup_dentry w.2 = some d → S_ISDIR d.i_mode = true :=
      fun w hw => hdir w (List.mem_cons_of_mem _ hw)
    cases hl : lookup_dentry out with
    | none =>
      rw [work_func_none refs mdi dev out hl]
      simp only
      obtain ⟨h1, h2, h3⟩ := ih refs { mdi with work_count := mdi.work_count - 1 } hnd.2
        (fun x hx hin => hdisj x hx (List.mem_cons_of_mem _ hin)) hst hrest
      refine ⟨?_, ?_, ?_⟩
      · simpa [List.filterMap_cons, hl] using h1
      · rw [h2]
        simp only [List.length_cons, Nat.cast_add, Nat.cast_one]
        omega
      · rw [h3]
        simp only [List.any_cons, hl, Option.isSome_none, Bool.false_or]
    | some d =>
      rw [work_func_some refs mdi dev out d hl]
      have hd : S_ISDIR d.i_mode = true := hdir (dev, out) (List.mem_cons_self _ _) d hl
      have hnew : ∀ x ∈ mdi.comrade_list, x.dev_id ≠ (⟨dev, d⟩ : hmdfs_dentry_comrade).dev_id := by
        intro x hx he
        exact hdisj x hx (by simp [he])
      obtain ⟨ht, hc, hp⟩ := body_accept_dir (dget refs d) mdi ⟨dev, d⟩ hd hst hnew
      have hdisj2 : ∀ x ∈ (merge_lookup_work_body (dget refs d) mdi
          (.ok ⟨dev, d⟩)).mdi.comrade_list, x.dev_id ∉ rest.map Prod.fst := by
        intro x hxm
        rcases List.mem_cons.mp (hp.subset hxm) with h | h
        · rw [h]; exact hnd.1
        · intro hin
          exact hdisj x h (List.mem_cons_of_mem _ hin)
      obtain ⟨h1, h2, h3⟩ := ih _ _ hnd.2 hdisj2 (Or.inr ht) hrest
      refine ⟨?_, ?_, ?_⟩
      · refine h1.trans ?_
        simp only [List.filterMap_cons, hl, Option.map_some', List.cons_append]
        exact (List.Perm.append_left _ hp).trans List.perm_middle
      · rw [h2, hc]
        simp only [List.length_cons, Nat.cast_add, Nat.cast_one]
        omega
      · rw [h3, ht]
        simp [List.any_cons, hl]

/-- On a fresh node, when at most one work of the list constructs a
comrade, the list of the node is that comrade alone and the kind is its
kind. -/
theorem run_works_single (works : List (Int × LookupOutcome)) :
    ∀ (refs : Refs) (wc : Int),
    (works.filterMap (fun w => (lookup_dentry w.2).map
      (fun d => (⟨w.1, d⟩ : hmdfs_dentry_comrade)))).length ≤ 1 →
    (run_works refs ⟨DT_UNKNOWN, wc, []⟩ works).2
      = ⟨(match works.filterMap (fun w => (lookup_dentry w.2).map
            (fun d => (⟨w.1, d⟩ : hmdfs_dentry_comrade))) with
          | [] => DT_UNKNOWN
          | c :: _ => if S_ISDIR c.lo_d.i_mode then DT_DIR else DT_REG),
        wc - (works.length : Int),
        works.filterMap (fun w => (lookup_dentry w.2).map
          (fun d => (⟨w.1, d⟩ : hmdfs_dentry_comrade)))⟩ := by
  induction works with
  | nil =>
    intro refs wc _
    simp [run_works]
  | cons w rest ih =>
    intro refs wc hlen
    obtain ⟨dev, out⟩ := w
    simp only [run_works]
    cases hl : lookup_dentry out with
    | none =>
      rw [work_func_none refs _ dev out hl]
      simp only [List.filterMap_cons, hl, Option.map_none'] at hlen ⊢
      rw [ih refs (wc - 1) hlen]
      simp only [List.length_cons, Nat.cast_add, Nat.cast_one,
        hmdfs_dentry_info_merge.mk.injEq, and_true, true_and]
      omega
    | some d =>
      rw [work_func_some refs _ dev out d hl]
      simp only [List.filterMap_cons, hl, Option.map_some', List.length_cons] at hlen ⊢
      have hnil : rest.filterMap (fun w => (lookup_dentry w.2).map
          (fun d => (⟨w.1, d⟩ : hmdfs_dentry_comrade))) = [] := by
        apply List.eq_nil_of_length_eq_zero
        omega
      have hnone : ∀ w ∈ rest, lookup_dentry w.2 = none := by
        intro w hw
        cases hw2 : lookup_dentry w.2 with
        | none => rfl
        | some d2 =>
          have : (⟨w.1, d2⟩ : hmdfs_dentry_comrade) ∈ rest.filterMap
              (fun w => (lookup_dentry w.2).map
                (fun d => (⟨w.1, d⟩ : hmdfs_dentry_comrade))) :=
            List.mem_filterMap.mpr ⟨w, hw, by simp [hw2]⟩
          rw [hnil] at this
          exact absurd this (List.not_mem_nil _)
      rw [run_works_all_none rest _ _ hnone, hnil]
      simp only
      rw [body_fresh (dget refs d) ⟨DT_UNKNOWN, wc, []⟩ ⟨dev, d⟩ rfl rfl]
      simp only [Nat.cast_add, Nat.cast_one, hmdfs_dentry_info_merge.mk.injEq, and_true,
        true_and]
      omega

/-- Two lists of at most one element with the same elements are equal. -/
theorem perm_short_eq {α : Type} (l1 l2 : List α) (h : l1.Perm l2) (hlen : l1.length ≤ 1) :
    l1 = l2 := by
  cases l1 with
  | nil => exact (List.Perm.nil_eq h)
  | cons a t =>
    cases t with
    | nil => exact List.singleton_perm.mp h
    | cons b t2 =>
      simp only [List.length_cons] at hlen
      omega

/-- The number of works that construct a comrade. -/
theorem length_filterMap_comrades (works : List (Int × LookupOutcome)) :
    (works.filterMap (fun w => (lookup_dentry w.2).map
      (fun d => (⟨w.1, d⟩ : hmdfs_dentry_comrade)))).length
      = (works.filter (fun w => (lookup_dentry w.2).isSome)).length := by
  induction works with
  | nil => rfl
  | cons w rest ih =>
    cases h : lookup_dentry w.2 <;> simp [List.filterMap_cons, List.filter_cons, h, ih]

/-- C22 (as amended): on a fresh node, for works of distinct devices with
fixed outcomes, when every backing entry that is resolved is a directory, or
when at most one work resolves an entry, the kind of the node, the members
of its comrade list and its counter after all works have completed are the
same for every two orders of completion. -/
theorem fanout_order_independent (refs : Refs) (wc : Int)
    (works1 works2 : List (Int × LookupOutcome))
    (hperm : works1.Perm works2) (hnd : (works1.map Prod.fst).Nodup)
    (hkind : (∀ w ∈ works1, ∀ d, lookup_dentry w.2 = some d → S_ISDIR d.i_mode = true) ∨
      (works1.filter (fun w => (lookup_dentry w.2).isSome)).length ≤ 1) :
    (run_works refs ⟨DT_UNKNOWN, wc, []⟩ works1).2.type
      = (run_works refs ⟨DT_UNKNOWN, wc, []⟩ works2).2.type ∧
    (run_works refs ⟨DT_UNKNOWN, wc, []⟩ works1).2.comrade_list.Perm
      (run_works refs ⟨DT_UNKNOWN, wc, []⟩ works2).2.comrade_list ∧
    (run_works refs ⟨DT_UNKNOWN, wc, []⟩ works1).2.work_count
      = (run_works refs ⟨DT_UNKNOWN, wc, []⟩ works2).2.work_count := by
  have hF : (works1.filterMap (fun w => (lookup_dentry w.2).map
      (fun d => (⟨w.1, d⟩ : hmdfs_dentry_comrade)))).Perm
      (works2.filterMap (fun w => (lookup_dentry w.2).map
        (fun d => (⟨w.1, d⟩ : hmdfs_dentry_comrade)))) := hperm.filterMap _
  have hlen : works1.length = works2.length := hperm.length_eq
  rcases hkind with hdir | hone
  · have hnd2 : (works2.map Prod.fst).Nodup := (hperm.map Prod.fst).nodup_iff.mp hnd
    have hdir2 : ∀ w ∈ works2, ∀ d, lookup_dentry w.2 = some d → S_ISDIR d.i_mode = true :=
      fun w hw => hdir w (hperm.mem_iff.mpr hw)
    obtain ⟨a1, a2, a3⟩ := run_works_dirs_comrades works1 refs ⟨DT_UNKNOWN, wc, []⟩ hnd
      (fun x hx => absurd hx (List.not_mem_nil x)) (Or.inl rfl) hdir
    obtain ⟨b1, b2, b3⟩ := run_works_dirs_comrades works2 refs ⟨DT_UNKNOWN, wc, []⟩ hnd2
      (fun x hx => absurd hx (List.not_mem_nil x)) (Or.inl rfl) hdir2
    have hany : works1.any (fun w => (lookup_dentry w.2).isSome)
        = works2.any (fun w => (lookup_dentry w.2).isSome) := by
      rw [Bool.eq_iff_iff, List.any_eq_true, List.any_eq_true]
      constructor
      · rintro ⟨x, hx, hp⟩
        exact ⟨x, hperm.mem_iff.mp hx, hp⟩
      · rintro ⟨x, hx, hp⟩
        exact ⟨x, hperm.mem_iff.mpr hx, hp⟩
    refine ⟨?_, ?_, ?_⟩
    · rw [a3, b3, hany]
    · simp only [List.append_nil] at a1 b1
      exact a1.trans (hF.trans b1.symm)
    · rw [a2, b2, hlen]
  · have h1 : (works1.filterMap (fun w => (lookup_dentry w.2).map
        (fun d => (⟨w.1, d⟩ : hmdfs_dentry_comrade)))).length ≤ 1 := by
      rw [length_filterMap_comrades]; exact hone
    have heq := perm_short_eq _ _ hF h1
    have h2 : (works2.filterMap (fun w => (lookup_dentry w.2).map
        (fun d => (⟨w.1, d⟩ : hmdfs_dentry_comrade)))).length ≤ 1 := by
      rw [← heq]; exact h1
    rw [run_works_single works1 refs wc h1, run_works_single works2 refs wc h2]
    simp only
    rw [heq, hlen]
    exact ⟨rfl, List.Perm.refl _, rfl⟩

/-- Witness of C22: directories on the devices 1 and 2 and no entry on the
device 0: completing in the order 0, 1, 2 or in the order 2, 1, 0 gives a
directory node with the comrades of the devices 1 and 2, listed in the
order of completion. -/
theorem fanout_order_independent_witness :
    (run_works (fun _ => 1) ⟨DT_UNKNOWN, 3, []⟩
      [(0, sampleNotFound), (1, sampleFoundDir), (2, ⟨0, .ok ⟨22, S_IFDIR⟩, true⟩)]).2
      = ⟨DT_DIR, 0, [⟨1, ⟨21, S_IFDIR⟩⟩, ⟨2, ⟨22, S_IFDIR⟩⟩]⟩ ∧
    (run_works (fun _ => 1) ⟨DT_UNKNOWN, 3, []⟩
      [(2, ⟨0, .ok ⟨22, S_IFDIR⟩, true⟩), (1, sampleFoundDir), (0, sampleNotFound)]).2
      = ⟨DT_DIR, 0, [⟨2, ⟨22, S_IFDIR⟩⟩, ⟨1, ⟨21, S_IFDIR⟩⟩]⟩ ∧
    (run_works (fun _ => 1) ⟨DT_UNKNOWN, 3, []⟩
      [(0, sampleNotFound), (1, sampleFoundDir), (2, ⟨0, .ok ⟨22, S_IFDIR⟩, true⟩)]).2.comrade_list.Perm
      (run_works (fun _ => 1) ⟨DT_UNKNOWN, 3, []⟩
        [(2, ⟨0, .ok ⟨22, S_IFDIR⟩, true⟩), (1, sampleFoundDir), (0, sampleNotFound)]).2.comrade_list :=
  have hdir : ∀ w ∈ [((0 : Int), sampleNotFound), (1, sampleFoundDir),
      (2, (⟨0, .ok ⟨22, S_IFDIR⟩, true⟩ : LookupOutcome))],
      ∀ d, lookup_dentry w.2 = some d → S_ISDIR d.i_mode = true := by
    intro w hw d hd
    simp only [List.mem_cons, List.mem_singleton, List.not_mem_nil, or_false] at hw
    rcases hw with rfl | rfl | rfl
    · simp [lookup_dentry, sampleNotFound] at hd
    · simp only [lookup_dentry, sampleFoundDir, ne_eq, not_true_eq_false, if_false, if_true,
        Option.some.injEq] at hd
      subst hd
      decide
    · simp only [lookup_dentry, ne_eq, not_true_eq_false, if_false, if_true,
        Option.some.injEq] at hd
      subst hd
      decide
  have h := fanout_order_independent (fun _ => 1) 3
    [(0, sampleNotFound), (1, sampleFoundDir), (2, ⟨0, .ok ⟨22, S_IFDIR⟩, true⟩)]
    [(2, ⟨0, .ok ⟨22, S_IFDIR⟩, true⟩), (1, sampleFoundDir), (0, sampleNotFound)]
    (List.reverse_perm _).symm (by decide) (Or.inl hdir)
  ⟨by decide, by decide, h.2.1⟩

/-- Counterexample to C22: the device 0 resolves a directory and the device
1 a regular file. When the work of device 0 completes first the node is a
directory with the comrade of device 0; when the work of device 1 completes
first the node is a regular file with the comrade of device 1. -/
theorem fanout_order_independent_counterexample :
    (run_works (fun _ => 1) ⟨DT_UNKNOWN, 2, []⟩ [(0, sampleFoundDir), (1, sampleFoundReg)]).2
      = ⟨DT_DIR, 0, [⟨0, ⟨21, S_IFDIR⟩⟩]⟩ ∧
    (run_works (fun _ => 1) ⟨DT_UNKNOWN, 2, []⟩ [(1, sampleFoundReg), (0, sampleFoundDir)]).2
      = ⟨DT_REG, 0, [⟨1, ⟨31, S_IFREG⟩⟩]⟩ := by
  refine ⟨by decide, by decide⟩

/-- The function `is_valid_comrade` leaves the comrade list. -/
theorem is_valid_comrade_list (mdi : hmdfs_dentry_info_merge) (mode : Nat) :
    (is_valid_comrade mdi mode).1.comrade_list = mdi.comrade_list := by
  unfold is_valid_comrade
  split_ifs <;> rfl

/-- The work after `merge_lookup_comrade` has constructed a comrade that
`is_valid_comrade` rejects. -/
theorem body_rejected (refs : Refs) (mdi : hmdfs_dentry_info_merge) (c : hmdfs_dentry_comrade)
    (h : (is_valid_comrade mdi (hmdfs_cm c)).2 = false) :
    (merge_lookup_work_body refs mdi (.ok c)).refs = dput refs c.lo_d ∧
    (merge_lookup_work_body refs mdi (.ok c)).mdi.comrade_list = mdi.comrade_list ∧
    (merge_lookup_work_body refs mdi (.ok c)).woken
      = ((merge_lookup_work_body refs mdi (.ok c)).mdi.work_count == 0) ∧
    (merge_lookup_work_body refs mdi (.ok c)).found = false := by
  simp only [merge_lookup_work_body, h, if_true, destroy_comrade, is_valid_comrade_list,
    Bool.or_false, and_self]

/-- The work after `merge_lookup_comrade` has constructed a comrade that
`is_valid_comrade` accepts: `link_comrade` adds it to the list, or drops it
with its reference when the list has a comrade of the device. -/
theorem body_accepted (refs : Refs) (mdi : hmdfs_dentry_info_merge) (c : hmdfs_dentry_comrade)
    (h : (is_valid_comrade mdi (hmdfs_cm c)).2 = true) :
    (merge_lookup_work_body refs mdi (.ok c)).woken = true ∧
    (merge_lookup_work_body refs mdi (.ok c)).found = true ∧
    ((∀ x ∈ mdi.comrade_list, x.dev_id ≠ c.dev_id) →
      (merge_lookup_work_body refs mdi (.ok c)).refs = refs ∧
      (merge_lookup_work_body refs mdi (.ok c)).mdi.comrade_list.Perm (c :: mdi.comrade_list)) ∧
    ((∃ x ∈ mdi.comrade_list, x.dev_id = c.dev_id) →
      (merge_lookup_work_body refs mdi (.ok c)).refs = dput refs c.lo_d ∧
      (merge_lookup_work_body refs mdi (.ok c)).mdi.comrade_list = mdi.comrade_list) := by
  simp only [merge_lookup_work_body, h, Bool.true_eq_false, if_false, Bool.or_true,
    is_valid_comrade_list, true_and]
  rcases link_comrade_cases refs mdi.comrade_list c with ⟨hex, he⟩ | ⟨hno, _, he⟩ | ⟨hno, _, he⟩
  · rw [he]
    refine ⟨?_, fun _ => ⟨rfl, rfl⟩⟩
    intro hno
    obtain ⟨x, hx, hxe⟩ := hex
    exact absurd hxe (hno x hx)
  · rw [he]
    refine ⟨fun _ => ⟨rfl, List.Perm.refl _⟩, ?_⟩
    rintro ⟨x, hx, hxe⟩
    exact absurd hxe (hno x hx)
  · rw [he]
    refine ⟨fun _ => ⟨rfl, List.perm_append_singleton _ _⟩, ?_⟩
    rintro ⟨x, hx, hxe⟩
    exact absurd hxe (hno x hx)

/-- C23 (as amended): on every path through `merge_lookup_work_func` the
counter of pending work is lowered by exactly one, and `wake_up_all` is
called iff the counter has reached zero or the comrade of the work was
accepted by `is_valid_comrade`. A comrade that is not accepted, or that is
accepted while the list holds a comrade of its device, leaves the list as it
was; a comrade that is accepted while the list holds none of its device is
added to the list. -/
theorem lookup_task_completion (refs : Refs) (mdi : hmdfs_dentry_info_merge) (devid : Int)
    (out : LookupOutcome) :
    (merge_lookup_work_func refs mdi devid out).mdi.work_count = mdi.work_count - 1 ∧
    ((merge_lookup_work_func refs mdi devid out).woken = true ↔
      ((merge_lookup_work_func refs mdi devid out).mdi.work_count = 0 ∨
        ∃ d, lookup_dentry out = some d ∧ (is_valid_comrade mdi d.i_mode).2 = true)) ∧
    ((∀ d, lookup_dentry out = some d → (is_valid_comrade mdi d.i_mode).2 = false) →
      (merge_lookup_work_func refs mdi devid out).mdi.comrade_list = mdi.comrade_list) ∧
    (∀ d, lookup_dentry out = some d → (is_valid_comrade mdi d.i_mode).2 = true →
      ((∀ x ∈ mdi.comrade_list, x.dev_id ≠ devid) →
        (merge_lookup_work_func refs mdi devid out).mdi.comrade_list.Perm
          (⟨devid, d⟩ :: mdi.comrade_list)) ∧
      ((∃ x ∈ mdi.comrade_list, x.dev_id = devid) →
        (merge_lookup_work_func refs mdi devid out).mdi.comrade_list = mdi.comrade_list)) := by
  refine ⟨by unfold merge_lookup_work_func; exact work_body_count _ _ _, ?_, ?_, ?_⟩
  · cases hl : lookup_dentry out with
    | none =>
      rw [work_func_none refs mdi devid out hl]
      simp
    | some d =>
      rw [work_func_some refs mdi devid out d hl]
      cases hv : (is_valid_comrade mdi d.i_mode).2 with
      | false =>
        have hv2 : (is_valid_comrade mdi (hmdfs_cm ⟨devid, d⟩)).2 = false := hv
        obtain ⟨_, _, hw, _⟩ := body_rejected (dget refs d) mdi ⟨devid, d⟩ hv2
        rw [hw]
        simp [hv]
      | true =>
        have hv2 : (is_valid_comrade mdi (hmdfs_cm ⟨devid, d⟩)).2 = true := hv
        obtain ⟨hw, _⟩ := body_accepted (dget refs d) mdi ⟨devid, d⟩ hv2
        rw [hw]
        simp [hv]
  · intro hrej
    cases hl : lookup_dentry out with
    | none =>
      rw [work_func_none refs mdi devid out hl]
    | some d =>
      rw [work_func_some refs mdi devid out d hl]
      have hv2 : (is_valid_comrade mdi (hmdfs_cm ⟨devid, d⟩)).2 = false := hrej d hl
      exact (body_rejected (dget refs d) mdi ⟨devid, d⟩ hv2).2.1
  · intro d hl hv
    rw [work_func_some refs mdi devid out d hl]
    have hv2 : (is_valid_comrade mdi (hmdfs_cm ⟨devid, d⟩)).2 = true := hv
    obtain ⟨_, _, h3, h4⟩ := body_accepted (dget refs d) mdi ⟨devid, d⟩ hv2
    exact ⟨fun hno => (h3 hno).2, fun hex => (h4 hex).2⟩

/-- Witness of C23: on a directory node with two pending works and a comrade
of the device 1, the work of the device 0 finds a directory: the counter
falls to 1, the comrade is added at the head of the list and `wake_up_all`
is called; a work that finds nothing lowers the counter without a call. -/
theorem lookup_task_completion_witness :
    (merge_lookup_work_func (fun _ => 1) sampleNodePending 0 sampleFoundDir).mdi
      = ⟨DT_DIR, 1, [⟨0, ⟨21, S_IFDIR⟩⟩, ⟨1, ⟨11, S_IFDIR⟩⟩]⟩ ∧
    (merge_lookup_work_func (fun _ => 1) sampleNodePending 0 sampleFoundDir).woken = true ∧
    (merge_lookup_work_func (fun _ => 1) sampleNodePending 0 sampleNotFound).mdi.work_count = 1 ∧
    (merge_lookup_work_func (fun _ => 1) sampleNodePending 0 sampleNotFound).woken = false :=
  have h := lookup_task_completion (fun _ => 1) sampleNodePending 0 sampleFoundDir
  have h2 := lookup_task_completion (fun _ => 1) sampleNodePending 0 sampleNotFound
  ⟨by decide, h.2.1.mpr (Or.inr ⟨⟨21, S_IFDIR⟩, rfl, by decide⟩),
    h2.1.trans (by decide), by decide⟩

/-- Counterexample to C23: on a directory node with two pending works and a
comrade of the device 1, a work of the device 1 finds a directory. The
comrade is accepted by `is_valid_comrade` and dropped by `link_comrade` as
redundant: the counter is 1 and the list is as before, yet `wake_up_all` is
called. -/
theorem lookup_task_completion_counterexample :
    (merge_lookup_work_func (fun _ => 1) sampleNodePending 1 sampleFoundDir).mdi
      = ⟨DT_DIR, 1, [⟨1, ⟨11, S_IFDIR⟩⟩]⟩ ∧
    (merge_lookup_work_func (fun _ => 1) sampleNodePending 1 sampleFoundDir).woken = true := by
  refine ⟨by decide, by decide⟩

/-- C26: the comrade that `merge_lookup_work_func` constructs is either
added to the comrade list of the node, and then the reference count of its
backing dentry is one higher than before the work and no other count has
changed; or it is rejected by `is_valid_comrade`, or dropped by
`link_comrade` because the list holds a comrade of its device, or not
constructed at all, and then the list and all reference counts are as before
the work. -/
theorem lookup_task_references (refs : Refs) (mdi : hmdfs_dentry_info_merge) (devid : Int)
    (out : LookupOutcome) :
    (∀ d, lookup_dentry out = some d → (is_valid_comrade mdi d.i_mode).2 = true →
      (∀ x ∈ mdi.comrade_list, x.dev_id ≠ devid) →
      (merge_lookup_work_func refs mdi devid out).mdi.comrade_list.Perm
        (⟨devid, d⟩ :: mdi.comrade_list) ∧
      (merge_lookup_work_func refs mdi devid out).refs = dget refs d ∧
      (merge_lookup_work_func refs mdi devid out).refs d.id = refs d.id + 1) ∧
    ((∀ d, lookup_dentry out = some d →
        ((is_valid_comrade mdi d.i_mode).2 = false ∨ ∃ x ∈ mdi.comrade_list, x.dev_id = devid)) →
      (merge_lookup_work_func refs mdi devid out).mdi.comrade_list = mdi.comrade_list ∧
      (merge_lookup_work_func refs mdi devid out).refs = refs) := by
  constructor
  · intro d hl hv hno
    rw [work_func_some refs mdi devid out d hl]
    have hv2 : (is_valid_comrade mdi (hmdfs_cm ⟨devid, d⟩)).2 = true := hv
    obtain ⟨_, _, h3, _⟩ := body_accepted (dget refs d) mdi ⟨devid, d⟩ hv2
    obtain ⟨hr, hp⟩ := h3 hno
    refine ⟨hp, hr, ?_⟩
    rw [hr]
    simp [dget]
  · intro hcase
    cases hl : lookup_dentry out with
    | none =>
      rw [work_func_none refs mdi devid out hl]
      exact ⟨rfl, rfl⟩
    | some d =>
      rw [work_func_some refs mdi devid out d hl]
      cases hv : (is_valid_comrade mdi d.i_mode).2 with
      | false =>
        have hv2 : (is_valid_comrade mdi (hmdfs_cm ⟨devid, d⟩)).2 = false := hv
        obtain ⟨hr, hlist, _, _⟩ := body_rejected (dget refs d) mdi ⟨devid, d⟩ hv2
        exact ⟨hlist, by rw [hr]; exact dput_dget refs d⟩
      | true =>
        have hv2 : (is_valid_comrade mdi (hmdfs_cm ⟨devid, d⟩)).2 = true := hv
        obtain ⟨_, _, _, h4⟩ := body_accepted (dget refs d) mdi ⟨devid, d⟩ hv2
        rcases hcase d hl with hf | hex
        · rw [hv] at hf
          exact absurd hf (by simp)
        · obtain ⟨hr, hlist⟩ := h4 hex
          exact ⟨hlist, by rw [hr]; exact dput_dget refs d⟩

/-- Witness of C26: on a directory node with a comrade of the device 1, all
reference counts being 1: the work of the device 0 that finds the directory
21 adds a comrade and leaves the count of 21 at 2; the work of the device 1
that finds it is dropped as redundant and leaves the count at 1; the work
that finds the regular file 31 is rejected and leaves its count at 1. -/
theorem lookup_task_references_witness :
    (merge_lookup_work_func (fun _ => 1) sampleNodePending 0 sampleFoundDir).refs 21 = 2 ∧
    (merge_lookup_work_func (fun _ => 1) sampleNodePending 1 sampleFoundDir).refs 21 = 1 ∧
    (merge_lookup_work_func (fun _ => 1) sampleNodePending 0 sampleFoundReg).refs 31 = 1 ∧
    (merge_lookup_work_func (fun _ => 1) sampleNodePending 0 sampleFoundReg).mdi.comrade_list
      = sampleNodePending.comrade_list :=
  have h := lookup_task_references (fun _ => 1) sampleNodePending 0 sampleFoundDir
  have h1 := h.1 ⟨21, S_IFDIR⟩ rfl (by decide) (by decide)
  ⟨h1.2.2.trans (by decide), by decide, by decide, by decide⟩

/-- C24: a successful `do_mkdir_merge` or `do_create_merge` leaves the link
count of the parent at 2, whatever it was: for a parent with the link count
2 it is not raised, for a parent with the link count 5 it is lowered. -/
theorem creation_sets_link_count_two :
    (∀ (fs : LowerFs) (i_nlink mode : Nat) (lo_i_parent lo_d_child : Dentry) (st : CreateState),
      (do_mkdir_merge fs i_nlink mode lo_i_parent lo_d_child st).1 = 0 →
      (do_mkdir_merge fs i_nlink mode lo_i_parent lo_d_child st).2.1 = 2) ∧
    (∀ (fs : LowerFs) (i_nlink mode : Nat) (want_excl : Bool) (lo_i_parent lo_d_child : Dentry)
        (st : CreateState),
      (do_create_merge fs i_nlink mode want_excl lo_i_parent lo_d_child st).1 = 0 →
      (do_create_merge fs i_nlink mode want_excl lo_i_parent lo_d_child st).2.1 = 2) ∧
    (do_mkdir_merge sampleCreateFs 2 493 ⟨30, S_IFDIR⟩ ⟨112, 0⟩ sampleCreateState).1 = 0 ∧
    (do_mkdir_merge sampleCreateFs 2 493 ⟨30, S_IFDIR⟩ ⟨112, 0⟩ sampleCreateState).2.1 = 2 ∧
    (do_mkdir_merge sampleCreateFs 5 493 ⟨30, S_IFDIR⟩ ⟨112, 0⟩ sampleCreateState).2.1 = 2 ∧
    (do_create_merge sampleCreateFs 2 420 false ⟨30, S_IFDIR⟩ ⟨112, 0⟩ sampleCreateState).1 = 0 ∧
    (do_create_merge sampleCreateFs 2 420 false ⟨30, S_IFDIR⟩ ⟨112, 0⟩ sampleCreateState).2.1
      = 2 := by
  refine ⟨?_, ?_, by decide, by decide, by decide, by decide, by decide⟩
  · intro fs i_nlink mode lo_i_parent lo_d_child st h
    unfold do_mkdir_merge at h ⊢
    by_cases h1 : fs.vfs_mkdir lo_i_parent lo_d_child mode ≠ 0
    · rw [if_pos h1] at h
      exact absurd h h1
    · rw [if_neg h1] at h ⊢
      by_cases h2 : fs.fill_inode_merge lo_d_child ≠ 0
      · rw [if_pos h2] at h
        exact absurd h h2
      · rw [if_neg h2]
  · intro fs i_nlink mode want_excl lo_i_parent lo_d_child st h
    unfold do_create_merge at h ⊢
    by_cases h1 : fs.vfs_create lo_i_parent lo_d_child mode want_excl ≠ 0
    · rw [if_pos h1] at h
      exact absurd h h1
    · rw [if_neg h1] at h ⊢
      by_cases h2 : fs.fill_inode_merge lo_d_child ≠ 0
      · rw [if_pos h2] at h
        exact absurd h h2
      · rw [if_neg h2]

/-- C25: `d_revalidate_merge` does not always return 0: with the lookup
flags 0, a node whose comrades are all reported valid is reported valid (1),
so is a node of the cloud type, and with `LOOKUP_RCU` the value is
`-ECHILD`. -/
theorem revalidate_not_always_zero :
    d_revalidate_merge 7 (fun _ => true) (fun _ _ => 1) (some 3) sampleNode012 0 = 1 ∧
    d_revalidate_merge 7 (fun _ => true) (fun _ _ => 0) (some 7) sampleNode012 0 = 1 ∧
    d_revalidate_merge 7 (fun _ => true) (fun _ _ => 1) (some 3) sampleNode012 LOOKUP_RCU
      = -ECHILD := by
  refine ⟨by decide, by decide, by decide⟩

set_option maxRecDepth 20000 in
/-- C27: the name `20240101123456.jpg` has 18 characters, no more than
`NAME_MAX`. `check_filename` finds its last dot at the position 14 and
counts 14 digits before it, so that for every file marker of 1 to 18
characters (13 for `_conflict_dev`) the comparison with the file marker is
performed and starts at a negative position, before the beginning of the
name, unless the name ends with the directory marker; and
`conf_name_trans_reg` computes the same negative position for the copy. -/
theorem file_marker_comparison_starts_before_name :
    "20240101123456.jpg".toList.length = 18 ∧ 18 ≤ NAME_MAX ∧
    dot_pos "20240101123456.jpg".toList 18 = 14 ∧
    num_len "20240101123456.jpg".toList 14 = 14 ∧
    (∀ m : Markers,
      1 ≤ m.CONFLICTING_FILE_CONST_SUFFIX.length →
      m.CONFLICTING_FILE_CONST_SUFFIX.length ≤ 18 →
      ¬ (18 ≥ m.CONFLICTING_DIR_SUFFIX.length ∧
        strncmp ("20240101123456.jpg".toList.drop (18 - m.CONFLICTING_DIR_SUFFIX.length))
          m.CONFLICTING_DIR_SUFFIX m.CONFLICTING_DIR_SUFFIX.length = 0) →
      ((dot_pos "20240101123456.jpg".toList 18 : Int)
        - (num_len "20240101123456.jpg".toList (dot_pos "20240101123456.jpg".toList 18) : Int)
        - (m.CONFLICTING_FILE_CONST_SUFFIX.length : Int) < 0) ∧
      check_filename m "20240101123456.jpg".toList 18 = none ∧
      conf_name_trans_reg m "20240101123456.jpg".toList = none) ∧
    check_filename sampleMarkers "20240101123456.jpg".toList 18 = none ∧
    conf_name_trans_reg sampleMarkers "20240101123456.jpg".toList = none := by
  have hd : dot_pos "20240101123456.jpg".toList 18 = 14 := by decide
  have hn : num_len "20240101123456.jpg".toList 14 = 14 := by decide
  have hlen : "20240101123456.jpg".toList.length = 18 := by decide
  refine ⟨hlen, by decide, hd, hn, ?_, by decide, by decide⟩
  intro m h1 h18 hdir
  have hneg : (dot_pos "20240101123456.jpg".toList 18 : Int)
      - (num_len "20240101123456.jpg".toList (dot_pos "20240101123456.jpg".toList 18) : Int)
      - (m.CONFLICTING_FILE_CONST_SUFFIX.length : Int) < 0 := by
    rw [hd, hn]
    omega
  refine ⟨hneg, ?_, ?_⟩
  · unfold check_filename
    rw [if_neg hdir, if_pos h18]
    simp only [hneg, if_true]
  · unfold conf_name_trans_reg
    simp only [hlen, hneg, if_true]

end Hmdfs
